import Mathlib

/-! # EMC Isilon resource plugin for iRODS: buffering engines, seek controller, descriptor table

A shallow embedding of `src/isilon/libirods_isilon.hpp` and `src/isilon/libirods_isilon.cpp`.

Conventions of the embedding.

* C++ `int`, `long` and `long long` values are `Int`; the `unsigned long` fields of a file
  descriptor (`buff_size`, `buff_offset`) are `Nat`.  Buffer sizes reach descriptors through an
  `int` parameter (`isilonNewFileDesc`), and the plugin constructor clamps them to
  `[2^20, 2^28]`, so no arithmetic of the buffering engines leaves the 64-bit range; the
  embedding therefore uses unbounded integers for them.  Where the C++ converts a possibly
  negative `int` to `unsigned long` the model says what the conversion does.  The descriptor
  counter `NEXT_OBJ_DESC_NUM` is a 32 bit `int`; its increment is modelled with its overflow
  (`int_increment`).
* A byte is a `Nat`; only copies of bytes are ever made.
* `malloc` is assumed to succeed and does not initialise memory: the bytes of a freshly
  allocated buffer are `indeterminate`.
* A pointer to storage that has been released is explicit where the source keeps one
  (`char_ptr.dangling`, the flag `freed` of `releaseLastBlock`): reading through it or
  freeing it again is undefined.
* Mutation through a pointer becomes explicit state passing: every operation returns the
  descriptor it leaves behind, also when it fails.
* The hadoofus client library (metadata service and block servers) is not part of the
  repository.  Its calls are the fields of `hdfs` and of `hdfs_namenodes`, records of
  functions over an abstract remote state.
* The C and C++ libraries and iRODS are not part of the repository either.  What the
  embedded functions use of them is written out: `strtoul` and `isspace`, the insertion and
  extraction operators of `std::stringstream` with its state bits, and the typed lookups of
  the iRODS property map.  `unsigned long` and `long` have 64 bits, `int` has 32; a
  conversion of an unsigned value to a signed type keeps the value modulo `2^width`.
-/

namespace Isilon

/-- Bytes are modelled as naturals. -/
abbrev Byte := Nat

/-- The value that stands for an indeterminate byte: a byte of memory obtained from `malloc`
that has not been written since.  A copy of it is an indeterminate byte again. -/
def indeterminate : Byte := 256

/-! ## Error table (`libirods_isilon.hpp`) -/

/-- The members of `enum isilonErrorType` used by the embedded functions. -/
inductive isilonErrorType where
  | ISILON_ERR_NULL_ARGS
  | ISILON_ERR_UNKNOWN_CONNECTION_DESC
  | ISILON_ERR_UNKNOWN_OBJ_DESC
  | ISILON_ERR_UNEXPECTED_OBJECT_TYPE
  | ISILON_ERR_INVALID_HDFS_PROTOCOL_VERSION
  | ISILON_ERR_MODE_NOT_SUPPORTED
  | ISILON_ERR_UNEXPECTED_MODE
  | ISILON_ERR_UNEXPECTED_OFFSET
  | ISILON_ERR_NO_ENOUGH_BUFF_SPACE
  | ISILON_ERR_NO_ENOUGH_BUFF_DATA
  | ISILON_ERR_FILE_NOT_EXIST
  | ISILON_ERR_CORRUPTED_OR_INCORRECT_BLOCK
  | ISILON_ERR_FILE_NOT_COMPLETED
  | ISILON_ERR_FILE_NOT_OPEN_FOR_WRITE
  | ISILON_ERR_FILE_NOT_OPEN_FOR_READ
  | ISILON_ERR_NEW_NAME_NODE_FAIL
  | ISILON_ERR_GET_PROTOCOL_VERSION_FAIL
  | ISILON_ERR_CREATE_FILE_FAIL
  | ISILON_ERR_GET_BLOCK_LOCATIONS_FAIL
  | ISILON_ERR_CONNECT_TO_DATANODE_FAIL
  | ISILON_ERR_READ_FAIL
  | ISILON_ERR_WRITE_FAIL
  | ISILON_ERR_COMPLETE_FAIL
  | ISILON_ERR_GET_FILE_INFO_FAIL
  | ISILON_ERR_ADD_BLOCK_FAIL
  deriving DecidableEq, Repr

/-- Outcome of an operation returning `irods::error`.
`ok` is `SUCCESS()`, `error c` is a failed `ISILON_ASSERT_ERROR` of table entry `c`,
`undefined` marks a point where the C++ has undefined behaviour (a copy outside a buffer,
an erase through an invalidated iterator), and `unfinished` is the answer of a loop model
that was given too few iterations. -/
inductive Outcome where
  | ok
  | error (code : isilonErrorType)
  | undefined
  | unfinished
  deriving DecidableEq, Repr

/-- Equality of `Except` values is decidable when it is for errors and answers. -/
instance instDecidableEqExcept {ε α : Type} [DecidableEq ε] [DecidableEq α] :
    DecidableEq (Except ε α)
  | Except.ok a, Except.ok b =>
    if h : a = b then isTrue (by rw [h]) else isFalse (fun h' => h (Except.ok.inj h'))
  | Except.error a, Except.error b =>
    if h : a = b then isTrue (by rw [h]) else isFalse (fun h' => h (Except.error.inj h'))
  | Except.ok _, Except.error _ => isFalse (fun h => Except.noConfusion h)
  | Except.error _, Except.ok _ => isFalse (fun h => Except.noConfusion h)

/-- The errno value `EIO`. -/
def EIO : Int := 5

/-- The errno value `EINVAL`. -/
def EINVAL : Int := 22

/-- The errno value `ENOENT`. -/
def ENOENT : Int := 2

/-- The errno value `EACCES`. -/
def EACCES : Int := 13

/-- The stdio constant `SEEK_SET`. -/
def SEEK_SET : Int := 0

/-- The stdio constant `SEEK_CUR`. -/
def SEEK_CUR : Int := 1

/-- The stdio constant `SEEK_END`. -/
def SEEK_END : Int := 2

/-! ## Remote objects (hadoofus) -/

/-- The fields of a hadoofus located block that the plugin reads: `_offset` and `_len`,
and the identity of the block, by which a block server finds it. -/
structure located_block where
  offset : Int
  len : Int
  id : Nat
  deriving DecidableEq, Repr

/-- The exception types told apart by `isilonGetErrCodeFromException`. -/
inductive hdfs_exception where
  | H_ACCESS_CONTROL_EXCEPTION
  | H_FILE_NOT_FOUND_EXCEPTION
  | H_OTHER_EXCEPTION
  deriving DecidableEq, Repr

/-- The fields of a hadoofus file status that the plugin reads. -/
structure hdfs_file_status where
  size : Int
  directory : Bool
  deriving DecidableEq, Repr

/-- The hadoofus calls made by the embedded functions, over an abstract state `σ` of the
remote side (metadata service and block servers).  A call returns the remote state it
leaves behind.  `Except.error` is a call that sets its `exception` argument; an answer
`none` of `getFileInfo`, `getBlockLocations` and `append` is an object of type `H_NULL`.
`datanode_new` tells whether a block server could be reached for the block;
`datanode_write` whether the bytes were written; `datanode_read block off len` answers
`none` when the transfer fails. -/
structure hdfs (σ : Type) where
  getFileInfo : σ → String → σ × Except hdfs_exception (Option hdfs_file_status)
  create : σ → String → Bool → σ × Option hdfs_exception
  append : σ → String → σ × Except hdfs_exception (Option located_block)
  addBlock : σ → String → σ × Except hdfs_exception located_block
  complete : σ → String → σ × Except hdfs_exception Bool
  getBlockLocations : σ → String → Int → Int →
    σ × Except hdfs_exception (Option (List located_block))
  datanode_new : σ → located_block → σ × Bool
  datanode_write : σ → located_block → List Byte → σ × Bool
  datanode_read : σ → located_block → Int → Int → σ × Option (List Byte)

/-- A record of one hadoofus call with the arguments the plugin chose. -/
inductive hdfs_call where
  | getFileInfo (path : String)
  | create (path : String) (overwrite : Bool)
  | append (path : String)
  | addBlock (path : String)
  | complete (path : String)
  | getBlockLocations (path : String) (offset len : Int)
  | datanode_new (block : located_block)
  | datanode_write (block : located_block) (data : List Byte)
  | datanode_read (block : located_block) (offset len : Int)
  deriving DecidableEq, Repr

/-- The client `api` with a journal: every call is appended to the list next to the
remote state, and answers as `api` does. -/
def hdfs.traced {σ : Type} (api : hdfs σ) : hdfs (σ × List hdfs_call) where
  getFileInfo := fun s p =>
    (((api.getFileInfo s.1 p).1, s.2 ++ [hdfs_call.getFileInfo p]), (api.getFileInfo s.1 p).2)
  create := fun s p o =>
    (((api.create s.1 p o).1, s.2 ++ [hdfs_call.create p o]), (api.create s.1 p o).2)
  append := fun s p =>
    (((api.append s.1 p).1, s.2 ++ [hdfs_call.append p]), (api.append s.1 p).2)
  addBlock := fun s p =>
    (((api.addBlock s.1 p).1, s.2 ++ [hdfs_call.addBlock p]), (api.addBlock s.1 p).2)
  complete := fun s p =>
    (((api.complete s.1 p).1, s.2 ++ [hdfs_call.complete p]), (api.complete s.1 p).2)
  getBlockLocations := fun s p o l =>
    (((api.getBlockLocations s.1 p o l).1, s.2 ++ [hdfs_call.getBlockLocations p o l]),
      (api.getBlockLocations s.1 p o l).2)
  datanode_new := fun s b =>
    (((api.datanode_new s.1 b).1, s.2 ++ [hdfs_call.datanode_new b]), (api.datanode_new s.1 b).2)
  datanode_write := fun s b d =>
    (((api.datanode_write s.1 b d).1, s.2 ++ [hdfs_call.datanode_write b d]),
      (api.datanode_write s.1 b d).2)
  datanode_read := fun s b o l =>
    (((api.datanode_read s.1 b o l).1, s.2 ++ [hdfs_call.datanode_read b o l]),
      (api.datanode_read s.1 b o l).2)

/-! ## File descriptors (`libirods_isilon.hpp`) -/

/-- The enumeration `isilonFileMode`. -/
inductive isilonFileMode where
  | ISILON_MODE_READ
  | ISILON_MODE_WRITE
  | ISILON_MODE_UNKNOWN
  | ISILON_MODE_ERROR
  deriving DecidableEq, Repr

open isilonFileMode isilonErrorType

/-- The class `isilonFileDesc` with the members of its base `isilonObjectDesc`.
`buff = none` is the null buffer pointer; `last_block = none` the null block pointer. -/
structure isilonFileDesc where
  offset : Int
  path : String
  mode : isilonFileMode
  buff : Option (List Byte)
  buff_size : Nat
  buff_offset : Nat
  file_size : Int
  last_block : Option located_block
  deriving DecidableEq, Repr

namespace isilonFileDesc

/-- The constructor: offset, buffer occupancy and file size start at zero, no buffer. -/
def new (mode : isilonFileMode) (path : String) (buff_size : Nat)
    (last_block : Option located_block) : isilonFileDesc :=
  { offset := 0, path := path, mode := mode, buff := none, buff_size := buff_size,
    buff_offset := 0, file_size := 0, last_block := last_block }

def getOffset (fd : isilonFileDesc) : Int := fd.offset

def setOffset (fd : isilonFileDesc) (new_offset : Int) : isilonFileDesc :=
  { fd with offset := new_offset }

def getPath (fd : isilonFileDesc) : String := fd.path

def getMode (fd : isilonFileDesc) : isilonFileMode := fd.mode

def setMode (fd : isilonFileDesc) (mode : isilonFileMode) : isilonFileDesc :=
  { fd with mode := mode }

/-- The method `getBuffSize`: the buffer size less the length of a pending last block.  The
C++ subtracts in `unsigned long`; every caller converts the value to a signed type, which
turns a wrapped difference back into the negative number modelled here. -/
def getBuffSize (fd : isilonFileDesc) : Int :=
  match fd.last_block with
  | some lb => (fd.buff_size : Int) - lb.len
  | none => fd.buff_size

def getBuffOffset (fd : isilonFileDesc) : Nat := fd.buff_offset

def getFileSize (fd : isilonFileDesc) : Int := fd.file_size

def setFileSize (fd : isilonFileDesc) (file_size : Int) : isilonFileDesc :=
  { fd with file_size := file_size }

def getLastBlock (fd : isilonFileDesc) : Option located_block := fd.last_block

/-- The method `seekBuff( int offset)`; its callers pass non-negative values only. -/
def seekBuff (fd : isilonFileDesc) (offset : Int) : isilonFileDesc :=
  { fd with buff_offset := offset.toNat }

def setLastBlock (fd : isilonFileDesc) (last_block : Option located_block) : isilonFileDesc :=
  { fd with last_block := last_block }

/-- The method `releaseLastBlock`: a non-null `last_block` is handed to `hdfs_object_free`
and the pointer is cleared.  `freed` tells that the object was freed before the call:
freeing it a second time is undefined. -/
def releaseLastBlock (fd : isilonFileDesc) (freed : Bool) : isilonFileDesc × Outcome :=
  match fd.last_block with
  | none => (fd, Outcome.ok)
  | some _ =>
    ({ fd with last_block := none }, if freed then Outcome.undefined else Outcome.ok)

/-- The buffer after the lazy `malloc( buff_size)` of `writeToBuff` and `readFromBuff`: the
memory is not initialised, so the bytes of a new buffer are indeterminate. -/
def allocBuff (fd : isilonFileDesc) : List Byte :=
  match fd.buff with
  | some b => b
  | none => List.replicate fd.buff_size indeterminate

/-- The method `flushBuff`: in read mode the occupancy becomes `buff_size`, in write mode
zero, any other mode is an error; the output is the buffer pointer (`none` when null). -/
def flushBuff (fd : isilonFileDesc) : isilonFileDesc × Outcome × Option (List Byte) :=
  if fd.mode = ISILON_MODE_READ then
    ({ fd with buff_offset := fd.buff_size }, Outcome.ok, fd.buff)
  else if fd.mode = ISILON_MODE_WRITE then
    ({ fd with buff_offset := 0 }, Outcome.ok, fd.buff)
  else
    (fd, Outcome.error ISILON_ERR_MODE_NOT_SUPPORTED, none)

/-- The call `memcpy( dst + at, src, src.length)` inside a buffer `dst`. -/
def memcpyInto (dst : List Byte) (pos : Nat) (src : List Byte) : List Byte :=
  dst.take pos ++ src ++ dst.drop (pos + src.length)

/-- The method `writeToBuff( buf, offset, len)`, called with `int` arguments.  A negative
`len` converts to an `unsigned long` near `2^64`: the space check, done modulo `2^64`, then
fails when `buff_offset + len` is negative and passes otherwise, after which `memcpy` runs
with that huge length.  A copy that would leave `buf` is undefined as well. -/
def writeToBuff (fd : isilonFileDesc) (buf : List Byte) (offset : Int) (len : Int) :
    isilonFileDesc × Outcome :=
  if fd.mode ≠ ISILON_MODE_WRITE then (fd, Outcome.error ISILON_ERR_FILE_NOT_OPEN_FOR_WRITE)
  else
    let fd1 := { fd with buff := some fd.allocBuff }
    if len < 0 then
      if (fd.buff_offset : Int) + len < 0 then
        (fd1, Outcome.error ISILON_ERR_NO_ENOUGH_BUFF_SPACE)
      else (fd1, Outcome.undefined)
    else if ¬ ((fd.buff_offset : Int) + len ≤ fd.buff_size) then
      (fd1, Outcome.error ISILON_ERR_NO_ENOUGH_BUFF_SPACE)
    else if offset < 0 ∨ (buf.length : Int) < offset + len then (fd1, Outcome.undefined)
    else
      ({ fd1 with
          buff := some (memcpyInto fd.allocBuff fd.buff_offset
                    ((buf.drop offset.toNat).take len.toNat)),
          buff_offset := fd.buff_offset + len.toNat }, Outcome.ok)

/-- The method `readFromBuff( buf, offset, len)`: copies
`buff[buff_size - buff_offset, buff_size - buff_offset + len)` to `buf + offset` and lowers
the occupancy by `len`; the updated `buf` is returned.  A negative `len` converts to an
`unsigned long` above every occupancy, so the data check fails.  With
`buff_offset > buff_size` the source of the copy starts before the buffer, and a copy that
would leave `buf` is undefined as well. -/
def readFromBuff (fd : isilonFileDesc) (buf : List Byte) (offset : Int) (len : Int) :
    isilonFileDesc × Outcome × List Byte :=
  if fd.mode ≠ ISILON_MODE_READ then (fd, Outcome.error ISILON_ERR_FILE_NOT_OPEN_FOR_READ, buf)
  else
    let fd1 := { fd with buff := some fd.allocBuff }
    if len < 0 ∨ (fd.buff_offset : Int) < len then
      (fd1, Outcome.error ISILON_ERR_NO_ENOUGH_BUFF_DATA, buf)
    else if fd.buff_size < fd.buff_offset ∧ 0 < len then (fd1, Outcome.undefined, buf)
    else if 0 < len ∧ (offset < 0 ∨ (buf.length : Int) < offset + len) then
      (fd1, Outcome.undefined, buf)
    else
      ({ fd1 with buff_offset := fd.buff_offset - len.toNat }, Outcome.ok,
        memcpyInto buf offset.toNat
          ((fd.allocBuff.drop (fd.buff_size - fd.buff_offset)).take len.toNat))

end isilonFileDesc

open isilonFileDesc

/-! ## Seek controller (`isilonFileLseekPlugin`) -/

/-- The body of `isilonFileLseekPlugin` after the descriptor lookup.  The answer is
`Except.ok offset` for `result.code( offset)` and `Except.error status` for
`result.code( ISILON_ERR_CODE_FILE_LSEEK_ERR - status)`. -/
def isilonFileLseekPlugin.body (fd : isilonFileDesc) (_offset : Int) (_whence : Int) :
    isilonFileDesc × Except Int Int :=
  let file_size := fd.getFileSize
  let base : Except Int Int :=
    if _whence = SEEK_SET then Except.ok 0
    else if _whence = SEEK_CUR then Except.ok fd.getOffset
    else if _whence = SEEK_END then Except.ok file_size
    else Except.error EINVAL
  match base with
  | Except.error status => (fd, Except.error status)
  | Except.ok base =>
    let offset := base + _offset
    if offset < 0 ∨ offset > file_size then (fd, Except.error EINVAL)
    else
      let delta_in_file := offset - fd.getOffset
      let buff_offset : Int := fd.getBuffOffset
      let new_buff_offset : Int :=
        if delta_in_file > 0 then
          if buff_offset > delta_in_file then buff_offset - delta_in_file else 0
        else
          if buff_offset - delta_in_file ≤ fd.getBuffSize then buff_offset - delta_in_file
          else 0
      let fd1 := if buff_offset ≠ 0 then fd.seekBuff new_buff_offset else fd
      (fd1.setOffset offset, Except.ok offset)

/-! ## Write buffer engine -/

/-- The function `isilonGetErrCodeFromException`.  The `switch` has no `break`: control
falls from each label to the next, so every assignment up to `default` is executed. -/
def isilonGetErrCodeFromException (exception : hdfs_exception) : Int :=
  let code : Int := 0
  let code := if exception = hdfs_exception.H_ACCESS_CONTROL_EXCEPTION then EACCES else code
  let code :=
    if exception = hdfs_exception.H_ACCESS_CONTROL_EXCEPTION
        ∨ exception = hdfs_exception.H_FILE_NOT_FOUND_EXCEPTION then ENOENT else code
  let code := if True then EIO else code
  code

/-- A `const char *` obtained from the characters of a `std::string`: `live s` while the
characters `s` can be read through it, `dangling` once the string it was taken from has
been destroyed, when reading through it is undefined. -/
inductive char_ptr where
  | live (s : String)
  | dangling
  deriving DecidableEq, Repr

/-- What `isilonCommitBufferToHDFS` hands back: remote state, `irods::error`, `*status`. -/
structure CommitResult (σ : Type) where
  nn : σ
  result : Outcome
  status : Int

/-- The statements of `isilonCommitBufferToHDFS` that follow the choice of the block;
`added` is the remote state with the block, or with the exception of `hdfs_addBlock`.
`buf` is what the pointer can reach, `none` for a null pointer.  Passing a negative `len`,
a null pointer, or a `len` beyond the reachable bytes to `hdfs_datanode_write` is
undefined.  On every way out that follows `hdfs_datanode_new` the block object is freed
(`isilonFreeHDFSObjs( 2, &exception, &block)`). -/
def isilonCommitBufferToHDFS.block {σ : Type} (api : hdfs σ)
    (added : σ × Except hdfs_exception located_block) (buf : Option (List Byte))
    (len : Int) : CommitResult σ :=
  match added with
  | (nn1, Except.error exception) =>
    { nn := nn1, result := Outcome.error ISILON_ERR_ADD_BLOCK_FAIL,
      status := isilonGetErrCodeFromException exception }
  | (nn1, Except.ok block) =>
    match api.datanode_new nn1 block with
    | (nn2, false) =>
      { nn := nn2, result := Outcome.error ISILON_ERR_CONNECT_TO_DATANODE_FAIL, status := EIO }
    | (nn2, true) =>
      match buf with
      | none => { nn := nn2, result := Outcome.undefined, status := 0 }
      | some bytes =>
        if len < 0 ∨ (bytes.length : Int) < len then
          { nn := nn2, result := Outcome.undefined, status := 0 }
        else
          match api.datanode_write nn2 block (bytes.take len.toNat) with
          | (nn3, false) =>
            { nn := nn3, result := Outcome.error ISILON_ERR_WRITE_FAIL, status := EIO }
          | (nn3, true) => { nn := nn3, result := Outcome.ok, status := 0 }

/-- The function `isilonCommitBufferToHDFS( nn, path, buf, len, last_block, status)`.  The
block is the pending last block when there is one, otherwise a block requested with
`hdfs_addBlock`, which reads `path`: undefined when `path` dangles. -/
def isilonCommitBufferToHDFS {σ : Type} (api : hdfs σ) (nn : σ) (path : char_ptr)
    (buf : Option (List Byte)) (len : Int) (last_block : Option located_block) :
    CommitResult σ :=
  match last_block, path with
  | some lb, _ => isilonCommitBufferToHDFS.block api (nn, Except.ok lb) buf len
  | none, char_ptr.live p => isilonCommitBufferToHDFS.block api (api.addBlock nn p) buf len
  | none, char_ptr.dangling => { nn := nn, result := Outcome.undefined, status := 0 }

/-- What a file operation hands back: remote state, the descriptor as the call leaves it,
`irods::error` and `*status`. -/
structure FileResult (σ : Type) where
  nn : σ
  fd : isilonFileDesc
  result : Outcome
  status : Int

/-- The locals of `isilonWriteBuf` after the first statement of its loop body: the
descriptor, the error of `writeToBuff` or `flushBuff`, the pointer `wbuff` (the bytes it
can reach, `none` when null), `buf_offset`, `bytes_added` and `len`. -/
structure WriteStep where
  fd : isilonFileDesc
  result : Outcome
  wbuff : Option (List Byte)
  buf_offset : Int
  bytes_added : Int
  len : Int

/-- The `if ( len >= wbuff_size && wbuff_offset == 0 ) ... else ...` statement of the loop
body of `isilonWriteBuf`: bypass, plain buffering, or filling up the buffer and flushing. -/
def isilonWriteBuf.step (fd : isilonFileDesc) (buf : List Byte) (buf_offset len : Int) :
    WriteStep :=
  let wbuff_size : Int := fd.getBuffSize
  let wbuff_offset : Int := fd.getBuffOffset
  if len ≥ wbuff_size ∧ wbuff_offset = 0 then
    { fd := fd, result := Outcome.ok, wbuff := some (buf.drop buf_offset.toNat),
      buf_offset := buf_offset + wbuff_size, bytes_added := wbuff_size,
      len := len - wbuff_size }
  else
    let buff_avail := wbuff_size - wbuff_offset
    if buff_avail > len then
      let w := fd.writeToBuff buf buf_offset len
      { fd := w.1, result := w.2, wbuff := none, buf_offset := buf_offset + len,
        bytes_added := len, len := 0 }
    else
      let w := fd.writeToBuff buf buf_offset buff_avail
      if w.2 ≠ Outcome.ok then
        { fd := w.1, result := w.2, wbuff := none, buf_offset := buf_offset, bytes_added := 0,
          len := len }
      else
        let f := w.1.flushBuff
        { fd := f.1, result := f.2.1, wbuff := f.2.2, buf_offset := buf_offset + buff_avail,
          bytes_added := buff_avail, len := len - buff_avail }

/-- The statement `if ( fd->getLastBlock() ) fd->releaseLastBlock();` that follows a commit
in `isilonWriteBuf` and in `isilonCloseFile`: the commit was given the pending last block
and has freed it. -/
def isilonWriteBuf.release (fd : isilonFileDesc) : isilonFileDesc × Outcome :=
  if fd.getLastBlock.isSome then fd.releaseLastBlock true else (fd, Outcome.ok)

/-- The `while ( len )` loop of `isilonWriteBuf`; `fuel` bounds the number of iterations.
After the first statement (`isilonWriteBuf.step`) a non-null `wbuff` is committed with
length `wbuff_size`; the path is `fd->getPath().c_str()`, whose temporary lives to the end
of the call.  After a successful commit a pending last block is released, which frees for
the second time the block that the commit has freed, and offset and file size advance by
`bytes_added`. -/
def isilonWriteBuf.loop {σ : Type} (api : hdfs σ) (buf : List Byte) :
    Nat → σ → isilonFileDesc → Int → Int → Int → FileResult σ
  | fuel, nn, fd, buf_offset, len, status =>
    if len = 0 then { nn := nn, fd := fd, result := Outcome.ok, status := status }
    else
      match fuel with
      | 0 => { nn := nn, fd := fd, result := Outcome.unfinished, status := status }
      | fuel + 1 =>
        let wbuff_size : Int := fd.getBuffSize
        let st := isilonWriteBuf.step fd buf buf_offset len
        if st.result ≠ Outcome.ok then
          { nn := nn, fd := st.fd, result := st.result, status := status }
        else
          match st.wbuff with
          | some w =>
            let c := isilonCommitBufferToHDFS api nn (char_ptr.live st.fd.getPath) (some w)
                        wbuff_size st.fd.getLastBlock
            if c.result ≠ Outcome.ok then
              { nn := c.nn, fd := st.fd, result := c.result, status := c.status }
            else
              let released := isilonWriteBuf.release st.fd
              if released.2 ≠ Outcome.ok then
                { nn := c.nn, fd := released.1, result := released.2, status := c.status }
              else
                let fd3 := released.1.setOffset (released.1.getOffset + st.bytes_added)
                let fd4 := fd3.setFileSize fd3.getOffset
                isilonWriteBuf.loop api buf fuel c.nn fd4 st.buf_offset st.len c.status
          | none =>
            let fd3 := st.fd.setOffset (st.fd.getOffset + st.bytes_added)
            let fd4 := fd3.setFileSize fd3.getOffset
            isilonWriteBuf.loop api buf fuel nn fd4 st.buf_offset st.len status

/-- The body of `isilonWriteBuf( nn, id, buf, len, status)` after the descriptor lookup:
the mode check, the offset check and the loop.  `status` is the value the caller left in
`*status` (`isilonWriteFile` stores 0). -/
def isilonWriteBuf.body {σ : Type} (api : hdfs σ) (fuel : Nat) (nn : σ) (fd : isilonFileDesc)
    (buf : List Byte) (len : Int) (status : Int) : FileResult σ :=
  if fd.getMode ≠ ISILON_MODE_WRITE then
    { nn := nn, fd := fd, result := Outcome.error ISILON_ERR_UNEXPECTED_MODE, status := status }
  else if fd.getFileSize ≠ fd.getOffset then
    { nn := nn, fd := fd, result := Outcome.error ISILON_ERR_UNEXPECTED_OFFSET,
      status := status }
  else isilonWriteBuf.loop api buf fuel nn fd 0 len status

/-- The statements of `isilonCloseFile( conn, file_id, status)` that follow the
initialisation of the local `path`, for the descriptor found and the pointer `path` (in a
build without `ISILON_DEBUG`, where `ISILON_LOG` does not read it).  In write mode a
buffer that is not empty is flushed and committed; the commit is followed by the release
of a pending last block, before the result of the commit is looked at, and the commit has
freed that block already.  Then `hdfs_complete` reads `path`, which is undefined when
`path` dangles.  The descriptor itself is destroyed on every path by the
`isilon_file_handle` guard. -/
def isilonCloseFile.body {σ : Type} (api : hdfs σ) (nn : σ) (path : char_ptr)
    (fd : isilonFileDesc) : CommitResult σ :=
  let mode := fd.getMode
  if mode = ISILON_MODE_WRITE then
    let buff_offset : Int := fd.getBuffOffset
    let flushed : CommitResult σ :=
      if buff_offset ≠ 0 then
        let f := fd.flushBuff
        if f.2.1 ≠ Outcome.ok then { nn := nn, result := f.2.1, status := 0 }
        else
          let c := isilonCommitBufferToHDFS api nn path f.2.2 buff_offset fd.getLastBlock
          let released := isilonWriteBuf.release fd
          if released.2 ≠ Outcome.ok then
            { nn := c.nn, result := released.2, status := c.status }
          else if c.result ≠ Outcome.ok then
            { nn := c.nn, result := c.result, status := EIO }
          else c
      else { nn := nn, result := Outcome.ok, status := 0 }
    if flushed.result ≠ Outcome.ok then flushed
    else
      match path with
      | char_ptr.dangling =>
        { nn := flushed.nn, result := Outcome.undefined, status := flushed.status }
      | char_ptr.live p =>
        match api.complete flushed.nn p with
        | (nn1, Except.error exception) =>
          { nn := nn1, result := Outcome.error ISILON_ERR_COMPLETE_FAIL,
            status := isilonGetErrCodeFromException exception }
        | (nn1, Except.ok is_ok) =>
          if ¬ is_ok then
            { nn := nn1, result := Outcome.error ISILON_ERR_FILE_NOT_COMPLETED,
              status := EIO }
          else { nn := nn1, result := Outcome.ok, status := flushed.status }
  else if mode ≠ ISILON_MODE_READ then
    { nn := nn, result := Outcome.error ISILON_ERR_MODE_NOT_SUPPORTED, status := 0 }
  else { nn := nn, result := Outcome.ok, status := 0 }

/-! ## Read buffer engine -/

/-- What a range fetch hands back: remote state, the destination memory, `irods::error`,
`*status`. -/
structure FetchResult (σ : Type) where
  nn : σ
  dest : List Byte
  result : Outcome
  status : Int

/-- The `for` loop of `isilonFillBufferFromHDFS` over the located blocks still to visit.
`dest` is the memory the caller owns and `pos` the index in it that the pointer `buf` has
reached; `offset` and `len` are the requested range and `to_read` the bytes still owed.
A transfer that would leave `dest` is undefined. -/
def isilonFillBufferFromHDFS.blocks {σ : Type} (api : hdfs σ) (offset len : Int) :
    List located_block → σ → List Byte → Int → Int → FetchResult σ
  | [], nn, dest, _, _ => { nn := nn, dest := dest, result := Outcome.ok, status := 0 }
  | block :: rest, nn, dest, pos, to_read =>
    let block_end : Int := block.len
    let block_offset : Int := block.offset
    if ¬ (block_offset + block_end > offset ∧ block_offset < offset + len) then
      { nn := nn, dest := dest,
        result := Outcome.error ISILON_ERR_CORRUPTED_OR_INCORRECT_BLOCK, status := EIO }
    else
      match api.datanode_new nn block with
      | (nn1, false) =>
        { nn := nn1, dest := dest,
          result := Outcome.error ISILON_ERR_CONNECT_TO_DATANODE_FAIL, status := EIO }
      | (nn1, true) =>
        let block_begin : Int := if block_offset < offset then offset - block_offset else 0
        let block_end : Int :=
          if block_offset + block_end > offset + len then offset + len - block_offset
          else block_end
        match api.datanode_read nn1 block block_begin (block_end - block_begin) with
        | (nn2, none) =>
          { nn := nn2, dest := dest, result := Outcome.error ISILON_ERR_READ_FAIL,
            status := EIO }
        | (nn2, some bytes) =>
          if pos < 0 ∨ (dest.length : Int) < pos + bytes.length then
            { nn := nn2, dest := dest, result := Outcome.undefined, status := 0 }
          else
            let dest1 := memcpyInto dest pos.toNat bytes
            let to_read1 := to_read - (block_end - block_begin)
            if to_read1 = 0 then
              { nn := nn2, dest := dest1, result := Outcome.ok, status := 0 }
            else
              isilonFillBufferFromHDFS.blocks api offset len rest nn2 dest1
                (pos + (block_end - block_begin)) to_read1

/-- The function `isilonFillBufferFromHDFS( nn, path, buf, offset, len, status)`; the
pointer `buf` is index `pos` of the memory `dest`. -/
def isilonFillBufferFromHDFS {σ : Type} (api : hdfs σ) (nn : σ) (path : String)
    (dest : List Byte) (pos : Int) (offset : Int) (len : Int) : FetchResult σ :=
  match api.getBlockLocations nn path offset len with
  | (nn1, Except.error exception) =>
    { nn := nn1, dest := dest, result := Outcome.error ISILON_ERR_GET_BLOCK_LOCATIONS_FAIL,
      status := isilonGetErrCodeFromException exception }
  | (nn1, Except.ok none) =>
    { nn := nn1, dest := dest, result := Outcome.error ISILON_ERR_FILE_NOT_EXIST,
      status := EIO }
  | (nn1, Except.ok (some block_seq)) =>
    isilonFillBufferFromHDFS.blocks api offset len block_seq nn1 dest pos len

/-- What `isilonReadBuf` hands back: remote state, descriptor, the caller's buffer,
`*bytes_read` (meaningful on success), `irods::error` and `*status`. -/
structure ReadResult (σ : Type) where
  nn : σ
  fd : isilonFileDesc
  buf : List Byte
  bytes_read : Int
  result : Outcome
  status : Int

/-- Where the pointer `rbuff` of `isilonReadBuf` points: nowhere, into the caller's buffer
at an index, or to the descriptor's own buffer. -/
inductive rbuffPtr where
  | null
  | caller (pos : Int)
  | own
  deriving DecidableEq, Repr

/-- The locals of `isilonReadBuf` after the first statement of its loop body: the
descriptor, the error of `readFromBuff` or `flushBuff`, the caller's buffer, the pointer
`rbuff`, `buf_offset`, `bytes_taken` and `to_read`. -/
structure ReadStep where
  fd : isilonFileDesc
  result : Outcome
  buf : List Byte
  rbuff : rbuffPtr
  buf_offset : Int
  bytes_taken : Int
  to_read : Int

/-- The `if ( to_read >= rbuff_size && rbuff_offset == 0 ) ... else ...` statement of the
loop body of `isilonReadBuf`: bypass, serving from the buffer, or draining the buffer and
flushing it. -/
def isilonReadBuf.step (rbuff_size : Int) (fd : isilonFileDesc) (buf : List Byte)
    (buf_offset to_read : Int) : ReadStep :=
  let rbuff_offset : Int := fd.getBuffOffset
  if to_read ≥ rbuff_size ∧ rbuff_offset = 0 then
    { fd := fd, result := Outcome.ok, buf := buf, rbuff := rbuffPtr.caller buf_offset,
      buf_offset := buf_offset + rbuff_size, bytes_taken := rbuff_size,
      to_read := to_read - rbuff_size }
  else if rbuff_offset > to_read then
    let r := fd.readFromBuff buf buf_offset to_read
    { fd := r.1, result := r.2.1, buf := r.2.2, rbuff := rbuffPtr.null,
      buf_offset := buf_offset + to_read, bytes_taken := to_read, to_read := 0 }
  else
    let r := fd.readFromBuff buf buf_offset rbuff_offset
    if r.2.1 ≠ Outcome.ok then
      { fd := r.1, result := r.2.1, buf := r.2.2, rbuff := rbuffPtr.null,
        buf_offset := buf_offset, bytes_taken := 0, to_read := to_read }
    else
      let f := r.1.flushBuff
      { fd := f.1, result := f.2.1, buf := r.2.2,
        rbuff := if f.2.2.isSome then rbuffPtr.own else rbuffPtr.null,
        buf_offset := buf_offset + rbuff_offset, bytes_taken := rbuff_offset,
        to_read := to_read - rbuff_offset }

/-- What the `if ( rbuff )` statement of `isilonReadBuf` leaves behind: the answer of the
range fetch (success when none was made), the descriptor and the caller's buffer. -/
structure ReadFill (σ : Type) where
  nn : σ
  fd : isilonFileDesc
  buf : List Byte
  result : Outcome
  status : Int

/-- The local `offset` of the `if ( rbuff )` statement of `isilonReadBuf`: the file offset
of the fetch, which skips the bytes just drained when the buffer was flushed
(`offset += fd->getBuffOffset() ? bytes_taken : 0`). -/
def isilonReadBuf.fetchOffset (st : ReadStep) : Int :=
  st.fd.getOffset + (if st.fd.getBuffOffset ≠ 0 then st.bytes_taken else 0)

/-- The local `to_get` of the `if ( rbuff )` statement of `isilonReadBuf`: the buffer size,
clamped to the bytes of the file from the fetch offset on. -/
def isilonReadBuf.to_get (rbuff_size : Int) (st : ReadStep) : Int :=
  let reminder : Int := st.fd.getFileSize - isilonReadBuf.fetchOffset st
  if reminder > rbuff_size then rbuff_size else reminder

/-- The `if ( rbuff )` statement of the loop body of `isilonReadBuf`: when `rbuff` is not
null and `to_get` is not zero, fetch `to_get` bytes to `rbuff` from the file offset
`offset`. -/
def isilonReadBuf.fill {σ : Type} (api : hdfs σ) (rbuff_size : Int) (nn : σ) (st : ReadStep)
    (status : Int) : ReadFill σ :=
  let offset : Int := isilonReadBuf.fetchOffset st
  let to_get : Int := isilonReadBuf.to_get rbuff_size st
  match st.rbuff with
  | rbuffPtr.null =>
    { nn := nn, fd := st.fd, buf := st.buf, result := Outcome.ok, status := status }
  | rbuffPtr.caller pos =>
    if to_get ≠ 0 then
      let g := isilonFillBufferFromHDFS api nn st.fd.getPath st.buf pos offset to_get
      { nn := g.nn, fd := st.fd, buf := g.dest, result := g.result, status := g.status }
    else { nn := nn, fd := st.fd, buf := st.buf, result := Outcome.ok, status := status }
  | rbuffPtr.own =>
    if to_get ≠ 0 then
      let g := isilonFillBufferFromHDFS api nn st.fd.getPath st.fd.allocBuff 0 offset to_get
      { nn := g.nn, fd := { st.fd with buff := some g.dest }, buf := st.buf,
        result := g.result, status := g.status }
    else { nn := nn, fd := st.fd, buf := st.buf, result := Outcome.ok, status := status }

/-- The `while ( to_read )` loop of `isilonReadBuf`; `fuel` bounds the number of
iterations, `rbuff_size` is the constant computed before the loop.  The offset advances by
`bytes_taken` once both statements of the body have succeeded. -/
def isilonReadBuf.loop {σ : Type} (api : hdfs σ) (rbuff_size : Int) :
    Nat → σ → isilonFileDesc → List Byte → Int → Int → Int → ReadResult σ
  | fuel, nn, fd, buf, buf_offset, to_read, status =>
    if to_read = 0 then
      { nn := nn, fd := fd, buf := buf, bytes_read := buf_offset, result := Outcome.ok,
        status := status }
    else
      match fuel with
      | 0 =>
        { nn := nn, fd := fd, buf := buf, bytes_read := buf_offset,
          result := Outcome.unfinished, status := status }
      | fuel + 1 =>
        let st := isilonReadBuf.step rbuff_size fd buf buf_offset to_read
        if st.result ≠ Outcome.ok then
          { nn := nn, fd := st.fd, buf := st.buf, bytes_read := st.buf_offset,
            result := st.result, status := status }
        else
          let g := isilonReadBuf.fill api rbuff_size nn st status
          if g.result ≠ Outcome.ok then
            { nn := g.nn, fd := g.fd, buf := g.buf, bytes_read := st.buf_offset,
              result := g.result, status := g.status }
          else
            let fd3 := g.fd.setOffset (g.fd.getOffset + st.bytes_taken)
            isilonReadBuf.loop api rbuff_size fuel g.nn fd3 g.buf st.buf_offset st.to_read
              g.status

/-- The body of `isilonReadBuf( nn, id, buf, len, bytes_read, status)` after the descriptor
lookup.  `buf` is the caller's memory; `status` the value the caller left in `*status`. -/
def isilonReadBuf.body {σ : Type} (api : hdfs σ) (fuel : Nat) (nn : σ) (fd : isilonFileDesc)
    (buf : List Byte) (len : Int) (status : Int) : ReadResult σ :=
  if fd.getMode ≠ ISILON_MODE_READ then
    { nn := nn, fd := fd, buf := buf, bytes_read := 0,
      result := Outcome.error ISILON_ERR_UNEXPECTED_MODE, status := status }
  else if ¬ (fd.getFileSize ≥ fd.getOffset) then
    { nn := nn, fd := fd, buf := buf, bytes_read := 0,
      result := Outcome.error ISILON_ERR_UNEXPECTED_OFFSET, status := status }
  else
    let rbuff_size : Int := fd.getBuffSize
    let to_read : Int := fd.getFileSize - fd.getOffset
    let to_read : Int := if len < to_read then len else to_read
    isilonReadBuf.loop api rbuff_size fuel nn fd buf 0 to_read status

/-! ## Descriptor table -/

/-- The class `isilonDirDesc`: `offset` is the index of the next entry, `dir_list` the
names of the entries of the listing taken at `opendir`. -/
structure isilonDirDesc where
  offset : Int
  path : String
  dir_list : List String
  deriving DecidableEq, Repr

/-- An object of a class derived from `isilonObjectDesc`. -/
inductive isilonObjectDesc where
  | file (fd : isilonFileDesc)
  | dir (dd : isilonDirDesc)
  deriving DecidableEq, Repr

/-- The value `INT_MAX` of a 32 bit `int`. -/
def INT_MAX : Int := 2 ^ 31 - 1

/-- The value `INT_MIN` of a 32 bit `int`. -/
def INT_MIN : Int := -2 ^ 31

/-- The result of `n++` on the `int` counter: the increment of `INT_MAX` overflows, which
the C++ standard leaves undefined; the model takes the two's complement result `INT_MIN`
that the machine computes. -/
def int_increment (n : Int) : Int :=
  if n = INT_MAX then INT_MIN else n + 1

/-- The globals `NEXT_OBJ_DESC_NUM`, a `static int`, and `OBJ_DESC_MAP`.  The
`unordered_map` is a list of entries with distinct keys; `begin()` is its head. -/
structure ObjDescTable where
  NEXT_OBJ_DESC_NUM : Int
  OBJ_DESC_MAP : List (Int × isilonObjectDesc)
  deriving DecidableEq, Repr

namespace ObjDescTable

/-- The table of a fresh process: `NEXT_OBJ_DESC_NUM = 0` and an empty map. -/
def initial : ObjDescTable := { NEXT_OBJ_DESC_NUM := 0, OBJ_DESC_MAP := [] }

/-- The call `OBJ_DESC_MAP.find( key)`; `none` is `end()`. -/
def find (t : ObjDescTable) (key : Int) : Option isilonObjectDesc :=
  (t.OBJ_DESC_MAP.find? (fun e => decide (e.1 = key))).map (fun e => e.2)

/-- The call `OBJ_DESC_MAP.insert( make_pair( key, val))`: no effect when the key is
present. -/
def insert (t : ObjDescTable) (key : Int) (val : isilonObjectDesc) : ObjDescTable :=
  if (t.find key).isSome then t
  else { t with OBJ_DESC_MAP := (key, val) :: t.OBJ_DESC_MAP }

/-- The call `OBJ_DESC_MAP.erase( key)`. -/
def erase (t : ObjDescTable) (key : Int) : ObjDescTable :=
  { t with OBJ_DESC_MAP := t.OBJ_DESC_MAP.filter (fun e => decide (e.1 ≠ key)) }

/-- The call `OBJ_DESC_MAP.erase( it)` for an iterator `it` obtained while the entry with
key `key` was in the map.  The iterator must still be valid: once the entry has been
erased the call is undefined, which is the answer `none`. -/
def eraseIter (t : ObjDescTable) (key : Int) : Option ObjDescTable :=
  if (t.find key).isSome then some (t.erase key) else none

/-- The effect of `*OBJ_DESC_MAP.at( key) = val` through the stored pointer. -/
def store (t : ObjDescTable) (key : Int) (val : isilonObjectDesc) : ObjDescTable :=
  { t with OBJ_DESC_MAP := t.OBJ_DESC_MAP.map (fun e => if e.1 = key then (key, val) else e) }

/-- The ids of the live descriptors. -/
def ids (t : ObjDescTable) : List Int := t.OBJ_DESC_MAP.map (fun e => e.1)

end ObjDescTable

/-- The function `isilonNewFileDesc`: the new table and the id returned
(`return NEXT_OBJ_DESC_NUM++`). -/
def isilonNewFileDesc (t : ObjDescTable) (mode : isilonFileMode) (path : String)
    (buf_size : Nat) (last_block : Option located_block) : ObjDescTable × Int :=
  let file_desc := isilonFileDesc.new mode path buf_size last_block
  let t1 := t.insert t.NEXT_OBJ_DESC_NUM (isilonObjectDesc.file file_desc)
  ({ t1 with NEXT_OBJ_DESC_NUM := int_increment t1.NEXT_OBJ_DESC_NUM }, t1.NEXT_OBJ_DESC_NUM)

/-- The function `isilonNewDirDesc`: the new table and the id returned
(`return NEXT_OBJ_DESC_NUM++`). -/
def isilonNewDirDesc (t : ObjDescTable) (path : String) (dir_list : List String) :
    ObjDescTable × Int :=
  let dir_desc : isilonDirDesc := { offset := 0, path := path, dir_list := dir_list }
  let t1 := t.insert t.NEXT_OBJ_DESC_NUM (isilonObjectDesc.dir dir_desc)
  ({ t1 with NEXT_OBJ_DESC_NUM := int_increment t1.NEXT_OBJ_DESC_NUM }, t1.NEXT_OBJ_DESC_NUM)

/-- The function `isilonIsObjIDValid`. -/
def isilonIsObjIDValid (t : ObjDescTable) (od : Int) : Outcome :=
  if (t.find od).isSome then Outcome.ok else Outcome.error ISILON_ERR_UNKNOWN_OBJ_DESC

/-- The function `isilonDestroyObjDesc`. -/
def isilonDestroyObjDesc (t : ObjDescTable) (num : Int) : ObjDescTable × Outcome :=
  if isilonIsObjIDValid t num ≠ Outcome.ok then (t, isilonIsObjIDValid t num)
  else (t.erase num, Outcome.ok)

/-- The `while` loop of `isilonCleanObjDescTable`: take `begin()`, destroy the descriptor of
its key with `isilonDestroyObjDesc` (whose answer is dropped), erase the iterator, start
over.  `fuel` bounds the number of iterations. -/
def isilonCleanObjDescTable.loop : Nat → ObjDescTable → ObjDescTable × Outcome
  | fuel, t =>
    match t.OBJ_DESC_MAP.head? with
    | none => (t, Outcome.ok)
    | some it =>
      match fuel with
      | 0 => (t, Outcome.unfinished)
      | fuel + 1 =>
        let t1 := (isilonDestroyObjDesc t it.1).1
        match t1.eraseIter it.1 with
        | none => (t1, Outcome.undefined)
        | some t2 => isilonCleanObjDescTable.loop fuel t2

/-- The function `isilonCleanObjDescTable`: the loop, then `NEXT_OBJ_DESC_NUM = 0`. -/
def isilonCleanObjDescTable (fuel : Nat) (t : ObjDescTable) : ObjDescTable × Outcome :=
  let r := isilonCleanObjDescTable.loop fuel t
  if r.2 ≠ Outcome.ok then r
  else ({ r.1 with NEXT_OBJ_DESC_NUM := 0 }, Outcome.ok)

/-- One step of a client of the descriptor table: an allocation or a destruction. -/
inductive TableOp where
  | newFile (mode : isilonFileMode) (path : String) (buf_size : Nat)
      (last_block : Option located_block)
  | newDir (path : String) (dir_list : List String)
  | destroy (num : Int)
  deriving DecidableEq, Repr

/-- Run a sequence of table operations; the answer is the final table and the ids returned
by the allocations, oldest first. -/
def runTableOps : ObjDescTable → List TableOp → ObjDescTable × List Int
  | t, [] => (t, [])
  | t, TableOp.newFile mode path buf_size last_block :: ops =>
    let r := isilonNewFileDesc t mode path buf_size last_block
    let rest := runTableOps r.1 ops
    (rest.1, r.2 :: rest.2)
  | t, TableOp.newDir path dir_list :: ops =>
    let r := isilonNewDirDesc t path dir_list
    let rest := runTableOps r.1 ops
    (rest.1, r.2 :: rest.2)
  | t, TableOp.destroy num :: ops => runTableOps (isilonDestroyObjDesc t num).1 ops

/-! ## Operations by descriptor id -/

/-- The fcntl constant `O_RDONLY`. -/
def O_RDONLY : Nat := 0

/-- The fcntl constant `O_WRONLY`. -/
def O_WRONLY : Nat := 1

/-- The fcntl constant `O_RDWR`. -/
def O_RDWR : Nat := 2

/-- The fcntl constant `O_TRUNC` (Linux). -/
def O_TRUNC : Nat := 512

/-- The function `isilonGetFileDescByID`.  With `ISILON_DEBUG` the pointer is converted by
`dynamic_cast` and a directory descriptor is an error; without it the conversion is a
`static_cast`, and using a directory descriptor as a file descriptor is undefined. -/
def isilonGetFileDescByID (ISILON_DEBUG : Bool) (t : ObjDescTable) (num : Int) :
    Outcome × Option isilonFileDesc :=
  if isilonIsObjIDValid t num ≠ Outcome.ok then (isilonIsObjIDValid t num, none)
  else
    match t.find num with
    | some (isilonObjectDesc.file fd) => (Outcome.ok, some fd)
    | _ =>
      if ISILON_DEBUG then (Outcome.error ISILON_ERR_UNEXPECTED_OBJECT_TYPE, none)
      else (Outcome.undefined, none)

/-- What an operation on a descriptor id hands back: remote state, descriptor table,
`irods::error` and `*status`. -/
structure TableResult (σ : Type) where
  nn : σ
  table : ObjDescTable
  result : Outcome
  status : Int

/-- What `isilonReadBuf` hands back: remote state, descriptor table, the caller's buffer,
`*bytes_read` (meaningful on success), `irods::error` and `*status`. -/
structure TableReadResult (σ : Type) where
  nn : σ
  table : ObjDescTable
  buf : List Byte
  bytes_read : Int
  result : Outcome
  status : Int

/-- What an open or create hands back: remote state, descriptor table, `*file_id`
(meaningful on success), `irods::error` and `*status`. -/
structure OpenResult (σ : Type) where
  nn : σ
  table : ObjDescTable
  file_id : Int
  result : Outcome
  status : Int

/-- The function `isilonWriteBuf( nn, id, buf, len, status)` of a build without
`ISILON_DEBUG`: the descriptor lookup, then `isilonWriteBuf.body` on the descriptor found. -/
def isilonWriteBuf {σ : Type} (api : hdfs σ) (fuel : Nat) (nn : σ) (t : ObjDescTable)
    (id : Int) (buf : List Byte) (len : Int) (status : Int) : TableResult σ :=
  match isilonGetFileDescByID false t id with
  | (Outcome.ok, some fd) =>
    let r := isilonWriteBuf.body api fuel nn fd buf len status
    { nn := r.nn, table := t.store id (isilonObjectDesc.file r.fd), result := r.result,
      status := r.status }
  | (e, _) => { nn := nn, table := t, result := e, status := status }

/-- The function `isilonWriteFile` of a build without `ISILON_DEBUG`: `*status = 0`, then
`isilonWriteBuf`. -/
def isilonWriteFile {σ : Type} (api : hdfs σ) (fuel : Nat) (nn : σ) (t : ObjDescTable)
    (file_id : Int) (_buf : List Byte) (_len : Int) : TableResult σ :=
  isilonWriteBuf api fuel nn t file_id _buf _len 0

/-- The function `isilonCloseFile( conn, file_id, status)`: `*status = 0`, the descriptor
lookup, then `isilonCloseFile.body`; once the lookup has succeeded the guard
`isilon_file_handle file_handle( file_id, isilonDestroyObjDesc)` destroys the descriptor on
every way out.  The local `path` is initialised with `fd->getPath().c_str()`: `getPath`
returns the string by value, the temporary is destroyed at the end of the declaration, and
the pointer dangles from then on. -/
def isilonCloseFile {σ : Type} (api : hdfs σ) (nn : σ) (t : ObjDescTable) (file_id : Int) :
    TableResult σ :=
  match isilonGetFileDescByID false t file_id with
  | (Outcome.ok, some fd) =>
    let r := isilonCloseFile.body api nn char_ptr.dangling fd
    { nn := r.nn, table := (isilonDestroyObjDesc t file_id).1, result := r.result,
      status := r.status }
  | (e, _) => { nn := nn, table := t, result := e, status := 0 }

/-- The function `isilonReadBuf( nn, id, buf, len, bytes_read, status)` of a build without
`ISILON_DEBUG`: the descriptor lookup, then `isilonReadBuf.body` on the descriptor found. -/
def isilonReadBuf {σ : Type} (api : hdfs σ) (fuel : Nat) (nn : σ) (t : ObjDescTable)
    (id : Int) (buf : List Byte) (len : Int) (status : Int) : TableReadResult σ :=
  match isilonGetFileDescByID false t id with
  | (Outcome.ok, some fd) =>
    let r := isilonReadBuf.body api fuel nn fd buf len status
    { nn := r.nn, table := t.store id (isilonObjectDesc.file r.fd), buf := r.buf,
      bytes_read := r.bytes_read, result := r.result, status := r.status }
  | (e, _) => { nn := nn, table := t, buf := buf, bytes_read := 0, result := e,
                status := status }

/-- The function `isilonReadFile` of a build without `ISILON_DEBUG`, called as
`isilonFileReadPlugin` does, with `status = 0`. -/
def isilonReadFile {σ : Type} (api : hdfs σ) (fuel : Nat) (nn : σ) (t : ObjDescTable)
    (file_id : Int) (_buf : List Byte) (_len : Int) : TableReadResult σ :=
  isilonReadBuf api fuel nn t file_id _buf _len 0

/-- What `isilonGetHDFSFileInfo` hands back: remote state, `irods::error`, `*fstatus` and
`*err_code`. -/
structure FileInfoResult (σ : Type) where
  nn : σ
  result : Outcome
  fstatus : Option hdfs_file_status
  err_code : Int

/-- The function `isilonGetHDFSFileInfo`: an exception gives the code derived from it, an
answer of type `H_NULL` gives `ENOENT`. -/
def isilonGetHDFSFileInfo {σ : Type} (api : hdfs σ) (nn : σ) (path : String) :
    FileInfoResult σ :=
  match api.getFileInfo nn path with
  | (nn1, Except.error exception) =>
    { nn := nn1, result := Outcome.error ISILON_ERR_GET_FILE_INFO_FAIL, fstatus := none,
      err_code := isilonGetErrCodeFromException exception }
  | (nn1, Except.ok none) =>
    { nn := nn1, result := Outcome.error ISILON_ERR_FILE_NOT_EXIST, fstatus := none,
      err_code := ENOENT }
  | (nn1, Except.ok (some fstatus)) =>
    { nn := nn1, result := Outcome.ok, fstatus := some fstatus, err_code := 0 }

/-- The function `isilonCreateFile( conn, path, mode, overwrite, file_id, status)`;
`buff_size` is `conn->getBuffSize()`. -/
def isilonCreateFile {σ : Type} (api : hdfs σ) (nn : σ) (t : ObjDescTable) (path : String)
    (overwrite : Bool) (buff_size : Nat) : OpenResult σ :=
  match api.create nn path overwrite with
  | (nn1, some exception) =>
    { nn := nn1, table := t, file_id := 0, result := Outcome.error ISILON_ERR_CREATE_FILE_FAIL,
      status := isilonGetErrCodeFromException exception }
  | (nn1, none) =>
    let r := isilonNewFileDesc t ISILON_MODE_WRITE path buff_size none
    { nn := nn1, table := r.1, file_id := r.2, result := Outcome.ok, status := 0 }

/-- The function `isilonAppendFileImpl`: the last block answered by `hdfs_append` is kept
only when it is not of type `H_NULL` and its length is not zero.  The answer is the remote
state, `irods::error`, `*last_block` and `*status`. -/
def isilonAppendFileImpl {σ : Type} (api : hdfs σ) (nn : σ) (path : String) (status : Int) :
    σ × Outcome × Option located_block × Int :=
  match api.append nn path with
  | (nn1, Except.error exception) =>
    (nn1, Outcome.error ISILON_ERR_CREATE_FILE_FAIL, none,
      isilonGetErrCodeFromException exception)
  | (nn1, Except.ok none) => (nn1, Outcome.ok, none, status)
  | (nn1, Except.ok (some lb)) =>
    (nn1, Outcome.ok, if lb.len = 0 then none else some lb, status)

/-- The function `isilonAppendFile( conn, path, file_id, status)`. -/
def isilonAppendFile {σ : Type} (api : hdfs σ) (nn : σ) (t : ObjDescTable) (path : String)
    (buff_size : Nat) : OpenResult σ :=
  let a := isilonAppendFileImpl api nn path 0
  if a.2.1 ≠ Outcome.ok then
    { nn := a.1, table := t, file_id := 0, result := a.2.1, status := a.2.2.2 }
  else
    let r := isilonNewFileDesc t ISILON_MODE_WRITE path buff_size a.2.2.1
    { nn := a.1, table := r.1, file_id := r.2, result := Outcome.ok, status := a.2.2.2 }

/-- The function `isilonOpenFile( conn, path, flags, mode, file_id, status)`; `buff_size`
is `conn->getBuffSize()`.  The file must exist.  Write access with `O_TRUNC` creates the
file anew; otherwise `O_WRONLY` opens for append, `flags == O_RDONLY` gives a read-mode
descriptor and everything else a descriptor of unknown mode, and the file size of the new
descriptor is set from the file status. -/
def isilonOpenFile {σ : Type} (api : hdfs σ) (nn : σ) (t : ObjDescTable) (path : String)
    (flags : Nat) (buff_size : Nat) : OpenResult σ :=
  let info := isilonGetHDFSFileInfo api nn path
  match info.fstatus with
  | none =>
    { nn := info.nn, table := t, file_id := 0, result := info.result,
      status := info.err_code }
  | some fstat =>
    if (flags &&& O_RDWR ≠ 0 ∨ flags &&& O_WRONLY ≠ 0) ∧ flags &&& O_TRUNC ≠ 0 then
      isilonCreateFile api info.nn t path true buff_size
    else
      let opened : OpenResult σ :=
        if flags &&& O_WRONLY ≠ 0 then isilonAppendFile api info.nn t path buff_size
        else if flags = O_RDONLY then
          let r := isilonNewFileDesc t ISILON_MODE_READ path buff_size none
          { nn := info.nn, table := r.1, file_id := r.2, result := Outcome.ok, status := 0 }
        else
          let r := isilonNewFileDesc t ISILON_MODE_UNKNOWN path buff_size none
          { nn := info.nn, table := r.1, file_id := r.2, result := Outcome.ok, status := 0 }
      if opened.result ≠ Outcome.ok then opened
      else
        match isilonGetFileDescByID false opened.table opened.file_id with
        | (Outcome.ok, some fd) =>
          { opened with
            table := opened.table.store opened.file_id
              (isilonObjectDesc.file (fd.setFileSize fstat.size)) }
        | _ => { opened with result := Outcome.undefined }

/-! ## Directory descriptors by id -/

/-- The function `isilonGetDirDescByID`.  With `ISILON_DEBUG` the pointer is converted by
`dynamic_cast` and a file descriptor is an error; without it the conversion is a
`static_cast`, and using a file descriptor as a directory descriptor is undefined.  On every
way out but success `*dd` is left as the caller set it, or null. -/
def isilonGetDirDescByID (ISILON_DEBUG : Bool) (t : ObjDescTable) (num : Int) :
    Outcome × Option isilonDirDesc :=
  if isilonIsObjIDValid t num ≠ Outcome.ok then (isilonIsObjIDValid t num, none)
  else
    match t.find num with
    | some (isilonObjectDesc.dir dd) => (Outcome.ok, some dd)
    | _ =>
      if ISILON_DEBUG then (Outcome.error ISILON_ERR_UNEXPECTED_OBJECT_TYPE, none)
      else (Outcome.undefined, none)

/-- The fields of the iRODS structure `rodsDirent_t` that `isilonReaddir` fills from the
listing.  The field `d_reclen`, which is `d_namlen` plus the position of `d_name` in the
iRODS structure, is left out. -/
structure rodsDirent where
  d_offset : Int
  d_ino : Int
  d_namlen : Nat
  d_name : String
  deriving DecidableEq, Repr

/-- What `isilonReaddir` hands back: the descriptor table, `irods::error`, `*de_ptr` and
`*is_end`. -/
structure ReaddirResult where
  table : ObjDescTable
  result : Outcome
  de_ptr : Option rodsDirent
  is_end : Bool
  deriving DecidableEq, Repr

/-- The function `isilonReaddir( num, de_ptr, is_end)`.  The answer of
`isilonGetDirDescByID` is dropped: when the lookup has failed the pointer `dd` is still
null and `dd->getDirList()` is undefined.  At the end of the listing `*is_end` is set and
nothing else changes; otherwise entry `off` of the listing is copied to `**de_ptr`
(allocated when `*de_ptr` is null; its name is assumed to fit `d_name`) and the offset
becomes `off + 1`.  An index outside the listing is undefined. -/
def isilonReaddir (ISILON_DEBUG : Bool) (t : ObjDescTable) (num : Int)
    (de_ptr : Option rodsDirent) : ReaddirResult :=
  match (isilonGetDirDescByID ISILON_DEBUG t num).2 with
  | none => { table := t, result := Outcome.undefined, de_ptr := de_ptr, is_end := false }
  | some dd =>
    let dir_list := dd.dir_list
    if dd.offset = dir_list.length then
      { table := t, result := Outcome.ok, de_ptr := de_ptr, is_end := true }
    else
      let off : Int := dd.offset
      if off < 0 ∨ (dir_list.length : Int) < off then
        { table := t, result := Outcome.undefined, de_ptr := de_ptr, is_end := false }
      else
        let d_name := dir_list.getD off.toNat ""
        let de : rodsDirent :=
          { d_name := d_name, d_ino := 0, d_offset := 0, d_namlen := d_name.utf8ByteSize }
        { table := t.store num (isilonObjectDesc.dir { dd with offset := off + 1 }),
          result := Outcome.ok, de_ptr := some de, is_end := false }

/-- What a plugin interface hands back here: the descriptor table, the `irods::error`
and its code as set by `result.code( ...)`, and the entry. -/
structure ReaddirPluginResult where
  table : ObjDescTable
  result : Outcome
  code : Int
  dirent : Option rodsDirent
  deriving DecidableEq, Repr

/-- The function `isilonFileReaddirPlugin` after the check of the context:
`dir_id = directory_pointer - 1`, then `isilonReaddir`; an error gets the code
`ISILON_ERR_CODE_FILE_READDIR_ERR - EIO`, the end of the listing the code `-1` and an entry
the code `0`.  `ISILON_ERR_CODE_FILE_READDIR_ERR` is the iRODS constant
`HDFS_FILE_READDIR_ERR`. -/
def isilonFileReaddirPlugin.body (ISILON_ERR_CODE_FILE_READDIR_ERR : Int)
    (ISILON_DEBUG : Bool) (t : ObjDescTable) (directory_pointer : Int)
    (_dirent_ptr : Option rodsDirent) : ReaddirPluginResult :=
  let dir_id := directory_pointer - 1
  let r := isilonReaddir ISILON_DEBUG t dir_id _dirent_ptr
  match r.result with
  | Outcome.ok =>
    if r.is_end then { table := r.table, result := Outcome.ok, code := -1, dirent := r.de_ptr }
    else { table := r.table, result := Outcome.ok, code := 0, dirent := r.de_ptr }
  | Outcome.error e =>
    { table := r.table, result := Outcome.error e,
      code := ISILON_ERR_CODE_FILE_READDIR_ERR - EIO, dirent := r.de_ptr }
  | other => { table := r.table, result := other, code := 0, dirent := r.de_ptr }

/-- What `isilonFileOpenPlugin` hands back: remote state, descriptor table, the
`irods::error` with its code, and the file descriptor stored in the file object. -/
structure OpenPluginResult (σ : Type) where
  nn : σ
  table : ObjDescTable
  result : Outcome
  code : Int
  file_descriptor : Int

/-- The function `isilonFileOpenPlugin` after the check of the context and with the
connection at hand: `isilonOpenFile`; on an error the file descriptor is `-1` and the code
`ISILON_ERR_CODE_FILE_OPEN_ERR - status`, otherwise both are the new id.
`ISILON_ERR_CODE_FILE_OPEN_ERR` is the iRODS constant `HDFS_FILE_OPEN_ERR`. -/
def isilonFileOpenPlugin.body {σ : Type} (ISILON_ERR_CODE_FILE_OPEN_ERR : Int)
    (api : hdfs σ) (nn : σ) (t : ObjDescTable) (path : String) (flags : Nat)
    (buff_size : Nat) : OpenPluginResult σ :=
  let r := isilonOpenFile api nn t path flags buff_size
  if r.result ≠ Outcome.ok then
    { nn := r.nn, table := r.table, result := r.result,
      code := ISILON_ERR_CODE_FILE_OPEN_ERR - r.status, file_descriptor := -1 }
  else
    { nn := r.nn, table := r.table, result := Outcome.ok, code := r.file_id,
      file_descriptor := r.file_id }

/-! ## Connection properties and connections -/

/-- The key `ISILON_HOST_KEY`. -/
def ISILON_HOST_KEY : String := "isi_host"

/-- The key `ISILON_PORT_KEY`. -/
def ISILON_PORT_KEY : String := "isi_port"

/-- The key `ISILON_USER_KEY`. -/
def ISILON_USER_KEY : String := "isi_user"

/-- The key `ISILON_BUFSIZE_KEY`. -/
def ISILON_BUFSIZE_KEY : String := "isi_buf_size"

/-- The largest `unsigned long` of the 64-bit Linux targets of the plugin. -/
def ULONG_MAX : Nat := 2 ^ 64 - 1

/-- A value held by a property of the resource: a `std::string`, as the context string
of the resource provides, or an `unsigned long`, as the resource constructor stores. -/
inductive property_value where
  | string (s : String)
  | ulong (n : Nat)
  deriving DecidableEq, Repr

/-- The iRODS `plugin_property_map`, a table from keys to values of any type. -/
structure plugin_property_map where
  table : List (String × property_value)
  deriving DecidableEq, Repr

namespace plugin_property_map

/-- The call `get<std::string>( key, val)`: `none` is the error answered when the key is
missing or its value is not a string; `val` is then left alone. -/
def get_string (m : plugin_property_map) (key : String) : Option String :=
  match m.table.find? (fun e => decide (e.1 = key)) with
  | some (_, property_value.string s) => some s
  | _ => none

/-- The call `get<unsigned long>( key, val)`. -/
def get_ulong (m : plugin_property_map) (key : String) : Option Nat :=
  match m.table.find? (fun e => decide (e.1 = key)) with
  | some (_, property_value.ulong n) => some n
  | _ => none

/-- The assignment `properties_[key] = val`. -/
def set (m : plugin_property_map) (key : String) (val : property_value) :
    plugin_property_map :=
  { table := (key, val) :: m.table.filter (fun e => decide (e.1 ≠ key)) }

end plugin_property_map

/-- The C function `isspace` in the "C" locale. -/
def isspace (c : Char) : Bool :=
  c.toNat = 32 || (9 ≤ c.toNat && c.toNat ≤ 13)

/-- The value of a sequence of decimal digits. -/
def decimalValue (digits : List Char) : Nat :=
  digits.foldl (fun acc c => 10 * acc + (c.toNat - 48)) 0

/-- The characters a C function sees through `c_str()`: those before the first NUL. -/
def c_str (s : String) : List Char :=
  s.toList.takeWhile (fun c => decide (c ≠ Char.ofNat 0))

/-- What `strtoul( nptr, &reminder, 10)` hands back: the value, the index in `nptr` that
`reminder` points to, and whether `errno` was set (to `ERANGE`). -/
structure strtoul_result where
  value : Nat
  reminder : Nat
  errno : Bool
  deriving DecidableEq, Repr

/-- The C function `strtoul` with base 10 on a NUL terminated string: white space is
skipped, one sign is accepted, then the longest run of digits is converted.  Without a
digit nothing is converted and `reminder` is the start of the string.  A number above
`ULONG_MAX` gives `ULONG_MAX` and sets `errno`; a minus sign negates the value as an
`unsigned long`. -/
def strtoul (nptr : List Char) : strtoul_result :=
  let spaces := nptr.takeWhile isspace
  let signed := nptr.dropWhile isspace
  let negative : Bool := signed.head? = some '-'
  let unsigned_part :=
    if signed.head? = some '-' ∨ signed.head? = some '+' then signed.drop 1 else signed
  let sign_len := signed.length - unsigned_part.length
  let digits := unsigned_part.takeWhile Char.isDigit
  if digits = [] then { value := 0, reminder := 0, errno := false }
  else if decimalValue digits > ULONG_MAX then
    { value := ULONG_MAX, reminder := spaces.length + sign_len + digits.length, errno := true }
  else
    { value := if negative then (ULONG_MAX + 1 - decimalValue digits) % (ULONG_MAX + 1)
               else decimalValue digits,
      reminder := spaces.length + sign_len + digits.length, errno := false }

/-- The connection properties as the plugin holds them in local variables. -/
structure ConnectionProps where
  host_name : String
  port_num : Nat
  user_name : String
  buf_size : Nat
  deriving DecidableEq, Repr

/-- The function `isilonParseConnectionProps`: no host gives `HOST_NAME_NOT_PROVIDED`; no
port, or one that `strtoul` does not convert entirely and without range error, gives 8020;
no user gives `root`; no buffer size gives 64 MiB, and a buffer size is read with `strtoul`:
when it is not converted entirely and without range error it is 64, otherwise it is raised
to 1 or lowered to 256, and the result is that many MiB (as an `unsigned long`). -/
def isilonParseConnectionProps (prop_map : plugin_property_map) :
    Outcome × ConnectionProps :=
  let host_name := (prop_map.get_string ISILON_HOST_KEY).getD "HOST_NAME_NOT_PROVIDED"
  let port_num : Nat :=
    match prop_map.get_string ISILON_PORT_KEY with
    | none => 8020
    | some port_name =>
      let r := strtoul (c_str port_name)
      if r.errno ∨ r.reminder = 0 ∨ r.reminder < (c_str port_name).length then 8020
      else r.value
  let user_name := (prop_map.get_string ISILON_USER_KEY).getD "root"
  let buf_size : Nat :=
    match prop_map.get_string ISILON_BUFSIZE_KEY with
    | none => 64 * 1024 * 1024
    | some bufsize_str =>
      let r := strtoul (c_str bufsize_str)
      let tmp_buf_size : Nat :=
        if r.errno ∨ r.reminder = 0 ∨ r.reminder < (c_str bufsize_str).length then 64
        else if r.value < 1 then 1
        else if r.value > 256 then 256
        else r.value
      (tmp_buf_size * 1024 * 1024) % (ULONG_MAX + 1)
  (Outcome.ok,
    { host_name := host_name, port_num := port_num, user_name := user_name,
      buf_size := buf_size })

/-- The end of the constructor of `isilon_resource`: the properties read from the context
string are parsed and the four connection properties are stored back, port and buffer size
as `unsigned long`. -/
def isilon_resource.properties (properties_ : plugin_property_map) : plugin_property_map :=
  let p := (isilonParseConnectionProps properties_).2
  (((properties_.set ISILON_HOST_KEY (property_value.string p.host_name)).set
      ISILON_PORT_KEY (property_value.ulong p.port_num)).set
      ISILON_USER_KEY (property_value.string p.user_name)).set
      ISILON_BUFSIZE_KEY (property_value.ulong p.buf_size)

/-- A `std::stringstream`: the character sequence, the read position, and the state bits
`eofbit` and `failbit`. -/
structure stringstream where
  buf : List Char
  gpos : Nat
  eofbit : Bool
  failbit : Bool
  deriving DecidableEq, Repr

namespace stringstream

/-- A default constructed stream. -/
def empty : stringstream := { buf := [], gpos := 0, eofbit := false, failbit := false }

/-- The member `good()`: no state bit is set. -/
def good (ss : stringstream) : Bool := !ss.eofbit && !ss.failbit

/-- The insertion `ss << n` of an `unsigned long`: the decimal digits are appended; on a
stream that is not good nothing is written and `failbit` is set. -/
def insert_ulong (ss : stringstream) (n : Nat) : stringstream :=
  if ss.good then { ss with buf := ss.buf ++ Nat.toDigits 10 n }
  else { ss with failbit := true }

/-- The insertion `ss << n` of a `long` or an `int`: a minus sign when the number is
negative, then the decimal digits of its magnitude; on a stream that is not good nothing is
written and `failbit` is set. -/
def insert_long (ss : stringstream) (n : Int) : stringstream :=
  if ss.good then
    { ss with buf := ss.buf ++ (if n < 0 then '-' :: Nat.toDigits 10 n.natAbs
                                else Nat.toDigits 10 n.natAbs) }
  else { ss with failbit := true }

/-- The extraction `ss >> str` of a `std::string`.  On a stream that is not good `failbit`
is set and `str` is left alone.  Otherwise white space is skipped; at the end of the
sequence `eofbit` and `failbit` are set and `str` is left alone; otherwise `str` becomes
the characters up to the next white space, and `eofbit` is set when the end of the
sequence stopped the extraction. -/
def extract_string (ss : stringstream) (str : String) : stringstream × String :=
  if ss.good then
    let avail := ss.buf.drop ss.gpos
    let skipped := avail.takeWhile isspace
    let rest := avail.dropWhile isspace
    if rest = [] then
      ({ ss with gpos := ss.gpos + skipped.length, eofbit := true, failbit := true }, str)
    else
      let word := rest.takeWhile (fun c => !isspace c)
      let after := rest.dropWhile (fun c => !isspace c)
      ({ ss with gpos := ss.gpos + skipped.length + word.length,
                 eofbit := decide (after = []) }, String.mk word)
  else ({ ss with failbit := true }, str)

end stringstream

/-- The value of an `unsigned long` converted to `long` (64 bits, two's complement), as
happens to the port handed to the constructor of `isilonConnectionDesc`. -/
def ulong_to_long (n : Nat) : Int :=
  if n % 2 ^ 64 < 2 ^ 63 then ((n % 2 ^ 64 : Nat) : Int)
  else ((n % 2 ^ 64 : Nat) : Int) - 2 ^ 64

/-- The value of an `unsigned long` converted to `int` (32 bits, two's complement), as
happens to the buffer size answered by `isilonConnectionDesc::getBuffSize`. -/
def ulong_to_int (n : Nat) : Int :=
  if n % 2 ^ 32 < 2 ^ 31 then ((n % 2 ^ 32 : Nat) : Int)
  else ((n % 2 ^ 32 : Nat) : Int) - 2 ^ 32

/-- The class `isilonConnectionDesc`.  `addr` stands for the address of the object: two
descriptors are the same instance when they have the same address.  `name_node` is the
handle of the hadoofus session.  The member `port` is a `long`, `buff_size` an
`unsigned long`. -/
structure isilonConnectionDesc where
  addr : Nat
  port : Int
  host : String
  user : String
  name_node : Nat
  buff_size : Nat
  deriving DecidableEq, Repr

namespace isilonConnectionDesc

def getHost (connection : isilonConnectionDesc) : String := connection.host

def getPort (connection : isilonConnectionDesc) : Int := connection.port

def getUser (connection : isilonConnectionDesc) : String := connection.user

def getNameNode (connection : isilonConnectionDesc) : Nat := connection.name_node

/-- The method `int getBuffSize()`: the `unsigned long` member converted to `int`. -/
def getBuffSize (connection : isilonConnectionDesc) : Int := ulong_to_int connection.buff_size

end isilonConnectionDesc

/-- The global `CONNECTION_DESC_MAP`, with the number of connection objects created so
far, which is the address of the next one. -/
structure ConnectionTable where
  CONNECTION_DESC_MAP : List (String × isilonConnectionDesc)
  allocated : Nat
  deriving DecidableEq, Repr

namespace ConnectionTable

/-- The table of a fresh process. -/
def initial : ConnectionTable := { CONNECTION_DESC_MAP := [], allocated := 0 }

/-- The call `CONNECTION_DESC_MAP.find( key)`; `none` is `end()`. -/
def find (c : ConnectionTable) (key : String) : Option isilonConnectionDesc :=
  (c.CONNECTION_DESC_MAP.find? (fun e => decide (e.1 = key))).map (fun e => e.2)

/-- The call `CONNECTION_DESC_MAP.insert( make_pair( key, val))`: no effect when the key is
present. -/
def insert (c : ConnectionTable) (key : String) (val : isilonConnectionDesc) :
    ConnectionTable :=
  if (c.find key).isSome then c
  else { c with CONNECTION_DESC_MAP := (key, val) :: c.CONNECTION_DESC_MAP }

/-- The call `CONNECTION_DESC_MAP.erase( key)`. -/
def erase (c : ConnectionTable) (key : String) : ConnectionTable :=
  { c with CONNECTION_DESC_MAP := c.CONNECTION_DESC_MAP.filter (fun e => decide (e.1 ≠ key)) }

end ConnectionTable

/-- The function `isilonGetConnectionKey( connection)`: the strings `port_str` and
`buff_size_str` are made with one `std::stringstream`,
`ss << getPort(); ss >> port_str; ss << getBuffSize(); ss >> buff_size_str`, and the key is
`buff_size_str + getHost() + port_str + getUser()`. -/
def isilonGetConnectionKey (connection : isilonConnectionDesc) : String :=
  let ss := stringstream.empty
  let ss := ss.insert_long connection.getPort
  let port := ss.extract_string ""
  let ss := port.1.insert_long connection.getBuffSize
  let buff_size := ss.extract_string ""
  buff_size.2 ++ connection.getHost ++ port.2 ++ connection.getUser

/-- The function `isilonIsConnectionDescValid( connection)`; `none` is the null pointer. -/
def isilonIsConnectionDescValid (c : ConnectionTable)
    (connection : Option isilonConnectionDesc) : Outcome :=
  match connection with
  | none => Outcome.error ISILON_ERR_NULL_ARGS
  | some conn =>
    if (c.find (isilonGetConnectionKey conn)).isSome then Outcome.ok
    else Outcome.error ISILON_ERR_UNKNOWN_CONNECTION_DESC

/-- The hadoofus calls that open and close a session with the metadata service, over an
abstract remote state `ν`.  `namenode_new host port user` answers the handle of the new
session, `none` when none could be made; `getProtocolVersion` answers the version the
service reports, `Except.error` when the call sets its `exception` argument. -/
structure hdfs_namenodes (ν : Type) where
  namenode_new : ν → String → String → String → ν × Option Nat
  getProtocolVersion : ν → Nat → ν × Except hdfs_exception Int
  namenode_delete : ν → Nat → ν

/-- A record of one session call with the arguments the plugin chose. -/
inductive namenode_call where
  | namenode_new (host port user : String)
  | getProtocolVersion (name_node : Nat)
  | namenode_delete (name_node : Nat)
  deriving DecidableEq, Repr

/-- The session client `api` with a journal of its calls. -/
def hdfs_namenodes.traced {ν : Type} (api : hdfs_namenodes ν) :
    hdfs_namenodes (ν × List namenode_call) where
  namenode_new := fun s h p u =>
    (((api.namenode_new s.1 h p u).1, s.2 ++ [namenode_call.namenode_new h p u]),
      (api.namenode_new s.1 h p u).2)
  getProtocolVersion := fun s n =>
    (((api.getProtocolVersion s.1 n).1, s.2 ++ [namenode_call.getProtocolVersion n]),
      (api.getProtocolVersion s.1 n).2)
  namenode_delete := fun s n =>
    (api.namenode_delete s.1 n, s.2 ++ [namenode_call.namenode_delete n])

/-- The four `prop_map.get` calls at the start of `isilonGetConnection`; a missing
property leaves the empty string or zero that the variable was initialised with. -/
def isilonGetConnection.props (prop_map : plugin_property_map) : ConnectionProps :=
  { host_name := (prop_map.get_string ISILON_HOST_KEY).getD "",
    user_name := (prop_map.get_string ISILON_USER_KEY).getD "",
    port_num := (prop_map.get_ulong ISILON_PORT_KEY).getD 0,
    buf_size := (prop_map.get_ulong ISILON_BUFSIZE_KEY).getD 0 }

/-- The strings `port_name` and `bufsize_name` of `isilonGetConnection`, made with one
`std::stringstream`: `ss << port_num; ss >> port_name; ss << buff_size; ss >> bufsize_name`. -/
def isilonGetConnection.names (p : ConnectionProps) : String × String :=
  let ss := stringstream.empty
  let ss := ss.insert_ulong p.port_num
  let port := ss.extract_string ""
  let ss := port.1.insert_ulong p.buf_size
  let bufsize := ss.extract_string ""
  (port.2, bufsize.2)

/-- The key of `isilonGetConnection`:
`key_str = bufsize_name + host_name + port_name + user_name`. -/
def isilonGetConnection.key_str (p : ConnectionProps) : String :=
  (isilonGetConnection.names p).2 ++ p.host_name ++ (isilonGetConnection.names p).1
    ++ p.user_name

/-- What `isilonGetConnection` hands back: remote state, connection table, `irods::error`
and `*connection`, which is `none` while it is the null pointer the callers pass in. -/
structure ConnectionResult (ν : Type) where
  nn : ν
  table : ConnectionTable
  result : Outcome
  connection : Option isilonConnectionDesc

/-- The function `isilonGetConnection( prop_map, connection)`.  Unless the build has
`ISILON_NO_CACHED_CONNECTIONS`, a connection found under the key is answered at once.
Otherwise a session is opened and asked for its protocol version; an exception or a version
other than 61 deletes the session and fails; with version 61 a new connection object is
created and, unless caching is off, inserted under the key. -/
def isilonGetConnection {ν : Type} (ISILON_NO_CACHED_CONNECTIONS : Bool)
    (api : hdfs_namenodes ν) (nn : ν) (c : ConnectionTable) (prop_map : plugin_property_map) :
    ConnectionResult ν :=
  let p := isilonGetConnection.props prop_map
  let port_name := (isilonGetConnection.names p).1
  let key_str := isilonGetConnection.key_str p
  if ¬ ISILON_NO_CACHED_CONNECTIONS ∧ (c.find key_str).isSome then
    { nn := nn, table := c, result := Outcome.ok, connection := c.find key_str }
  else
    match api.namenode_new nn p.host_name port_name p.user_name with
    | (nn1, none) =>
      { nn := nn1, table := c, result := Outcome.error ISILON_ERR_NEW_NAME_NODE_FAIL,
        connection := none }
    | (nn1, some name_node) =>
      match api.getProtocolVersion nn1 name_node with
      | (nn2, Except.error _) =>
        { nn := api.namenode_delete nn2 name_node, table := c,
          result := Outcome.error ISILON_ERR_GET_PROTOCOL_VERSION_FAIL, connection := none }
      | (nn2, Except.ok version) =>
        if version ≠ 61 then
          { nn := api.namenode_delete nn2 name_node, table := c,
            result := Outcome.error ISILON_ERR_INVALID_HDFS_PROTOCOL_VERSION,
            connection := none }
        else
          let connection : isilonConnectionDesc :=
            { addr := c.allocated, host := p.host_name, port := ulong_to_long p.port_num,
              user := p.user_name, name_node := name_node, buff_size := p.buf_size }
          let c1 := { c with allocated := c.allocated + 1 }
          { nn := nn2,
            table := if ISILON_NO_CACHED_CONNECTIONS then c1 else c1.insert key_str connection,
            result := Outcome.ok, connection := some connection }

/-- The function `isilonCloseConnection( connection)` for a non-null argument; the
parameter `connection` is the pointer `*connection`.  A descriptor that
`isilonIsConnectionDescValid` refuses is left alone.  Otherwise its key is erased from the
table (unless the build has `ISILON_NO_CACHED_CONNECTIONS`), the object is deleted, which
closes its session, and `*connection` becomes null. -/
def isilonCloseConnection {ν : Type} (ISILON_NO_CACHED_CONNECTIONS : Bool)
    (api : hdfs_namenodes ν) (nn : ν) (c : ConnectionTable)
    (connection : Option isilonConnectionDesc) : ConnectionResult ν :=
  if isilonIsConnectionDescValid c connection ≠ Outcome.ok then
    { nn := nn, table := c, result := isilonIsConnectionDescValid c connection,
      connection := connection }
  else
    match connection with
    | none => { nn := nn, table := c, result := Outcome.undefined, connection := none }
    | some conn =>
      { nn := api.namenode_delete nn conn.getNameNode,
        table := if ISILON_NO_CACHED_CONNECTIONS then c
                 else c.erase (isilonGetConnectionKey conn),
        result := Outcome.ok, connection := none }

/-! ## A simulated remote store -/

/-- A remote store holding one file as the list of its blocks, oldest first. -/
structure SimStore where
  blocks : List (List Byte)
  deriving DecidableEq, Repr

namespace SimStore

/-- The bytes of the file. -/
def content (s : SimStore) : List Byte := s.blocks.flatten

/-- The located blocks of a list of block contents, the first one at file offset `offset`
and with identity `id`. -/
def locate : List (List Byte) → Int → Nat → List located_block
  | [], _, _ => []
  | b :: rest, offset, id =>
    { offset := offset, len := b.length, id := id } :: locate rest (offset + b.length) (id + 1)

/-- The located blocks of the file, in ascending order. -/
def located (s : SimStore) : List located_block := locate s.blocks 0 0

/-- The simulated client: it never fails; a block-server write appends the bytes as one new
block; `getBlockLocations` answers the blocks that intersect the requested range, in
ascending order; a block-server read answers the requested bytes of the block. -/
def api : hdfs SimStore where
  getFileInfo := fun s _ =>
    (s, Except.ok (some { size := s.content.length, directory := false }))
  create := fun _ _ _ => ({ blocks := [] }, none)
  append := fun s _ => (s, Except.ok none)
  addBlock := fun s _ =>
    (s, Except.ok { offset := s.content.length, len := 0, id := s.blocks.length })
  complete := fun s _ => (s, Except.ok true)
  getBlockLocations := fun s _ offset len =>
    (s, Except.ok (some (s.located.filter
      (fun b => decide (b.offset + b.len > offset ∧ b.offset < offset + len)))))
  datanode_new := fun s _ => (s, true)
  datanode_write := fun s _ data => ({ blocks := s.blocks ++ [data] }, true)
  datanode_read := fun s block offset len =>
    (s, some (((s.blocks.getD block.id []).drop offset.toNat).take len.toNat))

end SimStore

/-! ## Vocabulary of the statements -/

/-- The target of a seek as the specification resolves it: the base chosen by `whence`
(zero, the current offset, the file size) plus the delta. -/
def resolvedTarget (fd : isilonFileDesc) (delta : Int) (whence : Int) : Int :=
  (if whence = SEEK_SET then 0 else if whence = SEEK_CUR then fd.offset else fd.file_size)
    + delta

/-- The number of allocations in a sequence of table operations. -/
def allocations : List TableOp → Nat
  | [] => 0
  | TableOp.destroy _ :: ops => allocations ops
  | _ :: ops => allocations ops + 1

/-- A client that, `n` times, opens a directory and closes it at once; `k` is the id of the
first descriptor, the value of the counter at the start. -/
def churn : Nat → Int → List TableOp
  | 0, _ => []
  | n + 1, k => TableOp.newDir "/zone/dir" [] :: TableOp.destroy k :: churn n (k + 1)

/-- The table after one `isilonNewFileDesc` in a fresh process. -/
def oneLiveDescriptor : ObjDescTable :=
  (isilonNewFileDesc ObjDescTable.initial ISILON_MODE_READ "/zone/file" 8 none).1

/-- One call of a client on an open file: a read into `buf` of `len` bytes, or a seek. -/
inductive FileOp where
  | read (buf : List Byte) (len : Int)
  | seek (offset : Int) (whence : Int)
  deriving DecidableEq, Repr

/-- Run a sequence of read and seek calls on a descriptor, each read with `*status = 0` on
entry, whether the calls succeed or fail; the answer is the remote state and the
descriptor after the last call. -/
def runFileOps {σ : Type} (api : hdfs σ) (fuel : Nat) :
    σ → isilonFileDesc → List FileOp → σ × isilonFileDesc
  | nn, fd, [] => (nn, fd)
  | nn, fd, FileOp.read buf len :: ops =>
    runFileOps api fuel (isilonReadBuf.body api fuel nn fd buf len 0).nn
      (isilonReadBuf.body api fuel nn fd buf len 0).fd ops
  | nn, fd, FileOp.seek offset whence :: ops =>
    runFileOps api fuel nn (isilonFileLseekPlugin.body fd offset whence).1 ops

/-- The descriptor that `isilonOpenFile` creates for `flags == O_RDONLY`: a new read-mode
descriptor whose file size is set from the file status. -/
def openedReadOnly (path : String) (buff_size : Nat) (size : Int) : isilonFileDesc :=
  (isilonFileDesc.new ISILON_MODE_READ path buff_size none).setFileSize size

/-- The lengths of the range fetches in a journal: the `len` arguments of its
`hdfs_getBlockLocations` calls, the first call of every `isilonFillBufferFromHDFS`. -/
def fetchLengths (journal : List hdfs_call) : List Int :=
  journal.filterMap fun c =>
    match c with
    | hdfs_call.getBlockLocations _ _ len => some len
    | _ => none

/-- The chunks committed in a journal: the payloads of its block-server writes. -/
def committedChunks (journal : List hdfs_call) : List (List Byte) :=
  journal.filterMap fun c =>
    match c with
    | hdfs_call.datanode_write _ data => some data
    | _ => none

/-- A simulated store holding a file of 21 bytes in blocks of 8, 8 and 5 bytes. -/
def sampleStore : SimStore :=
  { blocks := [List.range 8, List.range' 8 8, List.range' 16 5] }

/-- A write-only descriptor with buffer size 8 after one write call of 20 bytes, against
the simulated store. -/
def written20 : isilonFileDesc :=
  (isilonWriteBuf.body SimStore.api 20 { blocks := [] }
    (isilonFileDesc.new ISILON_MODE_WRITE "/zone/file" 8 none) (List.range 20) 20 0).fd

/-- All remote calls of the write path succeed: a block is always granted, its block
server is always reached, the bytes are always written, and `complete` always confirms. -/
def hdfs.Succeeds {σ : Type} (api : hdfs σ) : Prop :=
  (∀ s p, ∃ b, (api.addBlock s p).2 = Except.ok b)
    ∧ (∀ s b, (api.datanode_new s b).2 = true)
    ∧ (∀ s b d, (api.datanode_write s b d).2 = true)
    ∧ (∀ s p, (api.complete s p).2 = Except.ok true)

/-- With respect to an observation `chunks` of the remote state, every commit of a new
block succeeds and appends the committed bytes as one chunk, and `complete` confirms and
changes no chunk. -/
def CommitsAppend {σ : Type} (api : hdfs σ) (chunks : σ → List (List Byte)) : Prop :=
  (∀ nn path bytes (len : Int), 0 ≤ len → len ≤ bytes.length →
      (isilonCommitBufferToHDFS api nn (char_ptr.live path) (some bytes) len none).result
          = Outcome.ok
        ∧ chunks (isilonCommitBufferToHDFS api nn (char_ptr.live path) (some bytes) len none).nn
            = chunks nn ++ [bytes.take len.toNat])
    ∧ (∀ nn path, (api.complete nn path).2 = Except.ok true
        ∧ chunks (api.complete nn path).1 = chunks nn)

/-- A write-mode descriptor between two write calls: no pending last block, buffer size
`B`, `file_size == offset`, and the buffer holds exactly the bytes `pending`, fewer than
`B`, that were written and not yet committed. -/
def WriteInv (B : Nat) (fd : isilonFileDesc) (pending : List Byte) : Prop :=
  fd.mode = ISILON_MODE_WRITE ∧ fd.last_block = none ∧ fd.buff_size = B
    ∧ fd.file_size = fd.offset ∧ fd.buff_offset = pending.length ∧ pending.length < B
    ∧ fd.allocBuff.length = B ∧ fd.allocBuff.take pending.length = pending
    ∧ (pending ≠ [] → fd.buff.isSome = true)

/-- A sequence of write calls on one descriptor, each with `*status = 0` on entry and the
whole of its data as length; the sequence stops at the first call that fails. -/
def writeCalls {σ : Type} (api : hdfs σ) (fuel : Nat) :
    σ → isilonFileDesc → List (List Byte) → FileResult σ
  | nn, fd, [] => { nn := nn, fd := fd, result := Outcome.ok, status := 0 }
  | nn, fd, data :: rest =>
    if (isilonWriteBuf.body api fuel nn fd data data.length 0).result ≠ Outcome.ok then
      isilonWriteBuf.body api fuel nn fd data data.length 0
    else
      writeCalls api fuel (isilonWriteBuf.body api fuel nn fd data data.length 0).nn
        (isilonWriteBuf.body api fuel nn fd data data.length 0).fd rest

/-- Range fetches return the true file content: while the remote state satisfies `Inv`,
every fetch of a range `[offset, offset + len)` inside the file, with `len ≥ 1` and a
destination that has room for it, succeeds, stores exactly the bytes of that range at the
destination, and leaves a remote state that satisfies `Inv` again. -/
def FetchesContent {σ : Type} (api : hdfs σ) (path : String) (content : List Byte)
    (Inv : σ → Prop) : Prop :=
  ∀ (nn : σ) (dest : List Byte) (pos offset len : Int), Inv nn → 0 ≤ pos → 0 ≤ offset →
    1 ≤ len → offset + len ≤ content.length → pos + len ≤ dest.length →
    (isilonFillBufferFromHDFS api nn path dest pos offset len).result = Outcome.ok
      ∧ (isilonFillBufferFromHDFS api nn path dest pos offset len).dest
          = memcpyInto dest pos.toNat ((content.drop offset.toNat).take len.toNat)
      ∧ Inv (isilonFillBufferFromHDFS api nn path dest pos offset len).nn

/-- A read-mode descriptor of the file `content` between two calls: the offset is within
the file, the occupancy `k` is at most the buffer size `B`, and when `k > 0` the buffer was
filled from the file offset `R = offset - (B - k)`: its first `content.length - R` bytes
are the bytes of the file from `R` on. -/
def ReadInv (path : String) (B : Nat) (content : List Byte) (fd : isilonFileDesc) : Prop :=
  fd.mode = ISILON_MODE_READ ∧ fd.last_block = none ∧ fd.buff_size = B ∧ fd.path = path
    ∧ fd.file_size = content.length ∧ 0 ≤ fd.offset ∧ fd.offset ≤ content.length
    ∧ fd.buff_offset ≤ B ∧ fd.allocBuff.length = B
    ∧ (0 < fd.buff_offset →
        B - fd.buff_offset ≤ fd.offset.toNat
          ∧ fd.allocBuff.take (content.length - (fd.offset.toNat - (B - fd.buff_offset)))
              = (content.drop (fd.offset.toNat - (B - fd.buff_offset))).take B)

/-- Run a sequence of read and seek calls that all succeed: the answer is `none` as soon as
a call fails.  A read call passes a buffer with room for the `len ≥ 0` bytes it asks for. -/
def runSuccessfulOps {σ : Type} (api : hdfs σ) (fuel : Nat) :
    σ → isilonFileDesc → List FileOp → Option (σ × isilonFileDesc)
  | nn, fd, [] => some (nn, fd)
  | nn, fd, FileOp.read buf len :: ops =>
    if 0 ≤ len ∧ len ≤ buf.length
        ∧ (isilonReadBuf.body api fuel nn fd buf len 0).result = Outcome.ok then
      runSuccessfulOps api fuel (isilonReadBuf.body api fuel nn fd buf len 0).nn
        (isilonReadBuf.body api fuel nn fd buf len 0).fd ops
    else none
  | nn, fd, FileOp.seek offset whence :: ops =>
    if (isilonFileLseekPlugin.body fd offset whence).2
        = Except.ok (resolvedTarget fd offset whence) then
      runSuccessfulOps api fuel nn (isilonFileLseekPlugin.body fd offset whence).1 ops
    else none

/-- A sequence of `isilonWriteFile` calls on one descriptor id, each passing the whole of
its data; the sequence stops at the first call that fails. -/
def writeFileCalls {σ : Type} (api : hdfs σ) (fuel : Nat) :
    σ → ObjDescTable → Int → List (List Byte) → TableResult σ
  | nn, t, _, [] => { nn := nn, table := t, result := Outcome.ok, status := 0 }
  | nn, t, id, data :: rest =>
    if (isilonWriteFile api fuel nn t id data data.length).result ≠ Outcome.ok then
      isilonWriteFile api fuel nn t id data data.length
    else
      writeFileCalls api fuel (isilonWriteFile api fuel nn t id data data.length).nn
        (isilonWriteFile api fuel nn t id data data.length).table id rest

/-- Round trip, step 1: create the file on the simulated store; the connection has buffer
size `B`. -/
def roundTripCreated (B : Nat) (s0 : SimStore) (t0 : ObjDescTable) (path : String)
    (overwrite : Bool) : OpenResult SimStore :=
  isilonCreateFile SimStore.api s0 t0 path overwrite B

/-- Round trip, step 2: write `datas`, one write call for each element, on the descriptor
of step 1. -/
def roundTripWritten (fuel B : Nat) (s0 : SimStore) (t0 : ObjDescTable) (path : String)
    (overwrite : Bool) (datas : List (List Byte)) : TableResult SimStore :=
  writeFileCalls SimStore.api fuel (roundTripCreated B s0 t0 path overwrite).nn
    (roundTripCreated B s0 t0 path overwrite).table
    (roundTripCreated B s0 t0 path overwrite).file_id datas

/-- Round trip, step 3: close the descriptor of step 1. -/
def roundTripClosed (fuel B : Nat) (s0 : SimStore) (t0 : ObjDescTable) (path : String)
    (overwrite : Bool) (datas : List (List Byte)) : TableResult SimStore :=
  isilonCloseFile SimStore.api (roundTripWritten fuel B s0 t0 path overwrite datas).nn
    (roundTripWritten fuel B s0 t0 path overwrite datas).table
    (roundTripCreated B s0 t0 path overwrite).file_id

/-- Four successful calls on the 21 byte file of `sampleStore`. -/
def sampleOps : List FileOp :=
  [FileOp.read (List.replicate 3 0) 3, FileOp.seek (-2) SEEK_CUR,
    FileOp.read (List.replicate 10 0) 10, FileOp.seek (-2) SEEK_CUR]

/-- The descriptor that `sampleOps` leaves behind: offset 9, with 7 bytes of the buffer
that was filled from file offset 8 still valid. -/
def sampleReached : isilonFileDesc :=
  { offset := 9, path := "/zone/file", mode := ISILON_MODE_READ,
    buff := some (List.range' 8 8), buff_size := 8, buff_offset := 7, file_size := 21,
    last_block := none }

/-- The answer of one readdir call as the caller sees it: `irods::error`, its code, and
the name of the entry when the call delivered one. -/
structure ReaddirAnswer where
  result : Outcome
  code : Int
  name : Option String
  deriving DecidableEq, Repr

/-- A sequence of `count` readdir calls on one directory pointer, each passing on the entry
pointer the call before left: the final descriptor table and the answers, oldest first. -/
def readdirCalls (ISILON_ERR_CODE_FILE_READDIR_ERR : Int) (ISILON_DEBUG : Bool) :
    Nat → ObjDescTable → Int → Option rodsDirent → ObjDescTable × List ReaddirAnswer
  | 0, t, _, _ => (t, [])
  | count + 1, t, directory_pointer, de =>
    let r := isilonFileReaddirPlugin.body ISILON_ERR_CODE_FILE_READDIR_ERR ISILON_DEBUG t
      directory_pointer de
    let rest := readdirCalls ISILON_ERR_CODE_FILE_READDIR_ERR ISILON_DEBUG count r.table
      directory_pointer r.dirent
    (rest.1,
      { result := r.result, code := r.code,
        name := if r.result = Outcome.ok ∧ r.code = 0 then r.dirent.map (fun d => d.d_name)
                else none } :: rest.2)

/-- The simulated client, except that `getFileInfo` answers an object of type `H_NULL`:
the file does not exist. -/
def SimStore.apiNoFile : hdfs SimStore :=
  { SimStore.api with getFileInfo := fun s _ => (s, Except.ok none) }

/-- A write-mode descriptor with buffer size 4 that holds three buffered bytes. -/
def samplePending : isilonFileDesc :=
  { offset := 3, path := "/zone/file", mode := ISILON_MODE_WRITE, buff := some [1, 2, 3, 0],
    buff_size := 4, buff_offset := 3, file_size := 3, last_block := none }

/-- A table with the write-mode descriptor `samplePending`, id 0, and one directory
descriptor, id 1, over a listing of three names. -/
def sampleTable : ObjDescTable :=
  { NEXT_OBJ_DESC_NUM := 2,
    OBJ_DESC_MAP :=
      [(1, isilonObjectDesc.dir
            { offset := 0, path := "/zone/dir", dir_list := ["a", "b", "c"] }),
       (0, isilonObjectDesc.file samplePending)] }

/-- The located blocks `blocks` are ascending and contiguous, each holds at least one byte,
and together they cover exactly the range `[start, stop)`. -/
def exactCover : List located_block → Int → Int → Prop
  | [], start, stop => start = stop
  | b :: rest, start, stop => b.offset = start ∧ 1 ≤ b.len ∧ exactCover rest (start + b.len) stop

/-- The predicate `exactCover` is decidable. -/
instance instDecidableExactCover :
    ∀ (blocks : List located_block) (start stop : Int), Decidable (exactCover blocks start stop)
  | [], start, stop => inferInstanceAs (Decidable (start = stop))
  | b :: rest, start, stop =>
    haveI := instDecidableExactCover rest (start + b.len) stop
    inferInstanceAs (Decidable (b.offset = start ∧ 1 ≤ b.len
      ∧ exactCover rest (start + b.len) stop))

/-- The journal of a fetch that connects to each of `blocks` in turn and reads it whole. -/
def wholeBlockReads (blocks : List located_block) : List hdfs_call :=
  blocks.flatMap fun b => [hdfs_call.datanode_new b, hdfs_call.datanode_read b 0 b.len]

/-- The simulated client, except that every placement response ends with the additional
entry `trailing`, to which no block server answers. -/
def SimStore.apiTrailing (trailing : located_block) : hdfs SimStore :=
  { SimStore.api with
    getBlockLocations := fun s _ offset len =>
      (s, Except.ok (some (s.located.filter
        (fun b => decide (b.offset + b.len > offset ∧ b.offset < offset + len))
          ++ [trailing])))
    datanode_new := fun s b => (s, decide (b ≠ trailing))
    datanode_read := fun s b offset len =>
      if b = trailing then (s, none) else SimStore.api.datanode_read s b offset len }

/-- The entry that `sampleTrailing` responses end with: an empty block at the end of the
21 byte file, which the range check of a fetch would reject. -/
def sampleTrailing : located_block := { offset := 21, len := 0, id := 3 }

/-- The buffer size the specification states for a number `v` of MiB: `v` clamped to
`[1, 256]`, in bytes. -/
def clampedBufferSize (v : Nat) : Nat := min (max v 1) 256 * 2 ^ 20

/-- The property map in which only the buffer size is given, as the string `s`. -/
def bufsizeProperty (s : String) : plugin_property_map :=
  { table := [(ISILON_BUFSIZE_KEY, property_value.string s)] }

/-- The property map the resource constructor leaves for the four connection properties. -/
def connectionProperties (host : String) (port : Nat) (user : String) (buf_size : Nat) :
    plugin_property_map :=
  { table :=
      [(ISILON_BUFSIZE_KEY, property_value.ulong buf_size),
       (ISILON_USER_KEY, property_value.string user),
       (ISILON_PORT_KEY, property_value.ulong port),
       (ISILON_HOST_KEY, property_value.string host)] }

/-- A simulated metadata service that reports protocol version `version`: the remote state
is the number of sessions opened so far, which is also the handle of the next one. -/
def simNamenodes (version : Int) : hdfs_namenodes Nat where
  namenode_new := fun s _ _ _ => (s + 1, some s)
  getProtocolVersion := fun s _ => (s, Except.ok version)
  namenode_delete := fun s _ => s

/-- The last block that `isilonAppendFileImpl` keeps of the answer of `hdfs_append`: none
when the answer is of type `H_NULL` or the block is empty. -/
def keptLastBlock (answer : Option located_block) : Option located_block :=
  match answer with
  | none => none
  | some lb => if lb.len = 0 then none else some lb

/-- A write-mode descriptor with buffer size 8 on the 21 byte file, at the end of the file,
with the last block of the file (5 bytes) pending. -/
def sampleAppend : isilonFileDesc :=
  { offset := 21, path := "/zone/file", mode := ISILON_MODE_WRITE, buff := none,
    buff_size := 8, buff_offset := 0, file_size := 21,
    last_block := some { offset := 16, len := 5, id := 2 } }

/-- The simulated client, except that a placement response lists those of `placements`
that intersect the requested range, in the order given. -/
def SimStore.apiPlacements (placements : List located_block) : hdfs SimStore :=
  { SimStore.api with
    getBlockLocations := fun s _ offset len =>
      (s, Except.ok (some (placements.filter
        (fun b => decide (b.offset + b.len > offset ∧ b.offset < offset + len))))) }

/-- A simulated store of a 10 byte file kept as two blocks that share the bytes 4 and 5:
block 0 holds the bytes 0 to 5, block 1 the bytes 4 to 9. -/
def sampleOverlap : SimStore :=
  { blocks := [List.range 6, List.range' 4 6] }

/-- The placements of the two blocks of `sampleOverlap`, in ascending order of offset. -/
def sampleOverlapPlacements : List located_block :=
  [{ offset := 0, len := 6, id := 0 }, { offset := 4, len := 6, id := 1 }]

/-- A simulated store holding a file of 5 bytes in one block. -/
def sampleSmall : SimStore :=
  { blocks := [List.range 5] }

/-- The connection properties that the resource constructor leaves for the host `isilon`,
the port string `9223372036854783828` (the number `2^63 + 8020`), the user `root` and the
buffer size string `1`. -/
def sampleLargePort : plugin_property_map :=
  isilon_resource.properties
    { table :=
        [(ISILON_BUFSIZE_KEY, property_value.string "1"),
         (ISILON_USER_KEY, property_value.string "root"),
         (ISILON_PORT_KEY, property_value.string "9223372036854783828"),
         (ISILON_HOST_KEY, property_value.string "isilon")] }

/-! ## Theorems -/

/-! ### Descriptor table -/

theorem ObjDescTable_ids_insert (t : ObjDescTable) (key : Int) (val : isilonObjectDesc) :
    ∀ k ∈ (t.insert key val).ids, k = key ∨ k ∈ t.ids := by
  intro k hk
  unfold ObjDescTable.insert at hk
  split at hk
  · exact Or.inr hk
  · simp only [ObjDescTable.ids, List.map_cons, List.mem_cons] at hk
    rcases hk with h | h
    · exact Or.inl h
    · exact Or.inr h

theorem ObjDescTable_next_insert (t : ObjDescTable) (key : Int) (val : isilonObjectDesc) :
    (t.insert key val).NEXT_OBJ_DESC_NUM = t.NEXT_OBJ_DESC_NUM := by
  unfold ObjDescTable.insert
  split <;> rfl

theorem ObjDescTable_ids_erase (t : ObjDescTable) (key : Int) :
    ∀ k ∈ (t.erase key).ids, k ∈ t.ids := by
  intro k hk
  simp only [ObjDescTable.ids, ObjDescTable.erase, List.mem_map, List.mem_filter] at hk ⊢
  obtain ⟨e, ⟨he, _⟩, rfl⟩ := hk
  exact ⟨e, he, rfl⟩

theorem ObjDescTable_find_erase (t : ObjDescTable) (key : Int) :
    (t.erase key).find key = none := by
  simp only [ObjDescTable.find, ObjDescTable.erase, Option.map_eq_none', List.find?_eq_none,
    List.mem_filter]
  intro e he
  simpa using he.2

theorem isilonDestroyObjDesc_ids (t : ObjDescTable) (num : Int) :
    (∀ k ∈ (isilonDestroyObjDesc t num).1.ids, k ∈ t.ids)
      ∧ (isilonDestroyObjDesc t num).1.NEXT_OBJ_DESC_NUM = t.NEXT_OBJ_DESC_NUM := by
  unfold isilonDestroyObjDesc
  split
  · exact ⟨fun k hk => hk, rfl⟩
  · exact ⟨ObjDescTable_ids_erase t num, rfl⟩

theorem int_increment_lt (n : Int) (h : n < INT_MAX) : int_increment n = n + 1 := by
  unfold int_increment
  rw [if_neg (by omega)]

/-- C9, amended: along every sequence of allocations (file or directory) and destructions,
started from a table whose live ids are below the counter and short enough for the 32 bit
counter not to pass `INT_MAX` (the counter at the start plus the number of allocations is
at most `INT_MAX`), the ids returned are strictly increasing, none is below the counter the
sequence started with, every id handed out and every live id is below the final counter,
and the counter has advanced by the number of allocations, whatever was destroyed in
between. -/
theorem runTableOps_ids_strictly_increasing (t : ObjDescTable) (ops : List TableOp)
    (h : ∀ k ∈ t.ids, k < t.NEXT_OBJ_DESC_NUM)
    (hmax : t.NEXT_OBJ_DESC_NUM + allocations ops ≤ INT_MAX) :
    (runTableOps t ops).2.Pairwise (fun a b => a < b)
      ∧ (∀ id ∈ (runTableOps t ops).2,
          t.NEXT_OBJ_DESC_NUM ≤ id ∧ id < (runTableOps t ops).1.NEXT_OBJ_DESC_NUM)
      ∧ (∀ k ∈ (runTableOps t ops).1.ids, k < (runTableOps t ops).1.NEXT_OBJ_DESC_NUM)
      ∧ (runTableOps t ops).1.NEXT_OBJ_DESC_NUM
          = t.NEXT_OBJ_DESC_NUM + (runTableOps t ops).2.length
      ∧ (runTableOps t ops).2.length = allocations ops := by
  induction ops generalizing t with
  | nil => simpa [runTableOps, allocations] using h
  | cons op ops ih =>
    cases op with
    | newFile mode path buf_size last_block =>
      have hlt : t.NEXT_OBJ_DESC_NUM < INT_MAX := by
        simp only [allocations, Nat.cast_add, Nat.cast_one] at hmax
        omega
      have hn : (isilonNewFileDesc t mode path buf_size last_block).1.NEXT_OBJ_DESC_NUM
          = t.NEXT_OBJ_DESC_NUM + 1 := by
        simp [isilonNewFileDesc, ObjDescTable_next_insert, int_increment_lt _ hlt]
      have hinv : ∀ k ∈ (isilonNewFileDesc t mode path buf_size last_block).1.ids,
          k < (isilonNewFileDesc t mode path buf_size last_block).1.NEXT_OBJ_DESC_NUM := by
        intro k hk
        rw [hn]
        simp only [isilonNewFileDesc] at hk
        rcases ObjDescTable_ids_insert t _ _ k hk with h1 | h1
        · omega
        · have := h k h1; omega
      have hr : (isilonNewFileDesc t mode path buf_size last_block).2 = t.NEXT_OBJ_DESC_NUM := by
        simp [isilonNewFileDesc, ObjDescTable_next_insert]
      obtain ⟨h1, h2, h3, h4, h5⟩ := ih _ hinv (by
        rw [hn]
        simp only [allocations, Nat.cast_add, Nat.cast_one] at hmax
        omega)
      simp only [runTableOps, List.pairwise_cons, List.mem_cons, List.length_cons, allocations]
      refine ⟨⟨fun b hb => ?_, h1⟩, ?_, h3, ?_, by omega⟩
      · have := (h2 b hb).1; omega
      · rintro id (rfl | hid)
        · rw [hr, h4]; omega
        · have := h2 id hid; omega
      · rw [h4, hn]; push_cast; omega
    | newDir path dir_list =>
      have hlt : t.NEXT_OBJ_DESC_NUM < INT_MAX := by
        simp only [allocations, Nat.cast_add, Nat.cast_one] at hmax
        omega
      have hn : (isilonNewDirDesc t path dir_list).1.NEXT_OBJ_DESC_NUM
          = t.NEXT_OBJ_DESC_NUM + 1 := by
        simp [isilonNewDirDesc, ObjDescTable_next_insert, int_increment_lt _ hlt]
      have hinv : ∀ k ∈ (isilonNewDirDesc t path dir_list).1.ids,
          k < (isilonNewDirDesc t path dir_list).1.NEXT_OBJ_DESC_NUM := by
        intro k hk
        rw [hn]
        simp only [isilonNewDirDesc] at hk
        rcases ObjDescTable_ids_insert t _ _ k hk with h1 | h1
        · omega
        · have := h k h1; omega
      have hr : (isilonNewDirDesc t path dir_list).2 = t.NEXT_OBJ_DESC_NUM := by
        simp [isilonNewDirDesc, ObjDescTable_next_insert]
      obtain ⟨h1, h2, h3, h4, h5⟩ := ih _ hinv (by
        rw [hn]
        simp only [allocations, Nat.cast_add, Nat.cast_one] at hmax
        omega)
      simp only [runTableOps, List.pairwise_cons, List.mem_cons, List.length_cons, allocations]
      refine ⟨⟨fun b hb => ?_, h1⟩, ?_, h3, ?_, by omega⟩
      · have := (h2 b hb).1; omega
      · rintro id (rfl | hid)
        · rw [hr, h4]; omega
        · have := h2 id hid; omega
      · rw [h4, hn]; push_cast; omega
    | destroy num =>
      have hd := isilonDestroyObjDesc_ids t num
      have hinv : ∀ k ∈ (isilonDestroyObjDesc t num).1.ids,
          k < (isilonDestroyObjDesc t num).1.NEXT_OBJ_DESC_NUM := by
        intro k hk
        rw [hd.2]
        exact h k (hd.1 k hk)
      obtain ⟨h1, h2, h3, h4, h5⟩ := ih _ hinv (by
        rw [hd.2]
        simpa [allocations] using hmax)
      simp only [runTableOps, allocations]
      rw [hd.2] at h2 h4
      exact ⟨h1, h2, h3, h4, h5⟩

/-- Witness of C9, amended: two allocations, a destruction and a third allocation in a
fresh process. -/
theorem runTableOps_ids_strictly_increasing_witness :
    (runTableOps ObjDescTable.initial
        [TableOp.newFile ISILON_MODE_READ "a" 8 none, TableOp.newDir "d" ["x"],
          TableOp.destroy 0, TableOp.newFile ISILON_MODE_WRITE "b" 8 none]).2 = [0, 1, 2]
      ∧ (runTableOps ObjDescTable.initial
        [TableOp.newFile ISILON_MODE_READ "a" 8 none, TableOp.newDir "d" ["x"],
          TableOp.destroy 0, TableOp.newFile ISILON_MODE_WRITE "b" 8 none]).2.Pairwise
            (fun a b => a < b) :=
  ⟨by decide,
    (runTableOps_ids_strictly_increasing ObjDescTable.initial _ (by decide) (by decide)).1⟩

theorem runTableOps_churn (rest : List TableOp) :
    ∀ (n : Nat) (k : Int), k + n ≤ INT_MAX →
      ∃ earlier : List Int,
        runTableOps { NEXT_OBJ_DESC_NUM := k, OBJ_DESC_MAP := [] } (churn n k ++ rest)
          = ((runTableOps { NEXT_OBJ_DESC_NUM := k + n, OBJ_DESC_MAP := [] } rest).1,
              earlier
                ++ (runTableOps { NEXT_OBJ_DESC_NUM := k + n, OBJ_DESC_MAP := [] } rest).2) := by
  intro n
  induction n with
  | zero =>
    intro k _
    exact ⟨[], by simp [churn]⟩
  | succ n ih =>
    intro k hk
    have hlt : k < INT_MAX := by push_cast at hk; omega
    obtain ⟨earlier, he⟩ := ih (k + 1) (by push_cast at hk ⊢; omega)
    have hstep : (isilonDestroyObjDesc
        (isilonNewDirDesc { NEXT_OBJ_DESC_NUM := k, OBJ_DESC_MAP := [] } "/zone/dir" []).1
        (k : Int)).1 = { NEXT_OBJ_DESC_NUM := k + 1, OBJ_DESC_MAP := [] } := by
      simp [isilonNewDirDesc, isilonDestroyObjDesc, isilonIsObjIDValid, ObjDescTable.insert,
        ObjDescTable.find, ObjDescTable.erase, int_increment_lt k hlt]
    refine ⟨k :: earlier, ?_⟩
    have e : k + ((n + 1 : Nat) : Int) = k + 1 + (n : Int) := by push_cast; omega
    rw [e]
    simp only [churn, List.cons_append, runTableOps, hstep]
    have he2 : runTableOps { NEXT_OBJ_DESC_NUM := k + 1, OBJ_DESC_MAP := [] }
        ((churn n (k + 1)).append rest) = _ := he
    rw [he2]
    simp [isilonNewDirDesc, ObjDescTable.insert, ObjDescTable.find]

/-- C9, counterexample: in a fresh process `2^31 - 1` directories are opened and closed one
after the other, which brings the counter to `INT_MAX`; the next two allocations return
`2147483647` and then `-2147483648`: the second id is not greater than the ids returned
before it.  Already after the first of the two the live id `2147483647` is not below the
counter, as no value of a 32 bit `int` is above `INT_MAX`. -/
theorem runTableOps_ids_not_increasing_past_INT_MAX :
    (∃ earlier : List Int,
        (runTableOps ObjDescTable.initial
          (churn 2147483647 0
            ++ [TableOp.newDir "/zone/dir" [], TableOp.newDir "/zone/dir" []])).2
          = earlier ++ [2147483647, -2147483648])
      ∧ ¬ (runTableOps ObjDescTable.initial
          (churn 2147483647 0
            ++ [TableOp.newDir "/zone/dir" [], TableOp.newDir "/zone/dir" []])).2.Pairwise
            (fun a b => a < b)
      ∧ (runTableOps ObjDescTable.initial
          (churn 2147483647 0 ++ [TableOp.newDir "/zone/dir" []])).1.ids = [2147483647]
      ∧ (runTableOps ObjDescTable.initial
          (churn 2147483647 0 ++ [TableOp.newDir "/zone/dir" []])).1.NEXT_OBJ_DESC_NUM
          ≤ 2147483647 := by
  obtain ⟨earlier, he⟩ := runTableOps_churn
    [TableOp.newDir "/zone/dir" [], TableOp.newDir "/zone/dir" []] 2147483647 0
    (by decide)
  obtain ⟨earlier1, he1⟩ := runTableOps_churn
    [TableOp.newDir "/zone/dir" []] 2147483647 0 (by decide)
  have hlast : (runTableOps (ObjDescTable.mk (0 + ((2147483647 : Nat) : Int)) [])
      [TableOp.newDir "/zone/dir" [], TableOp.newDir "/zone/dir" []]).2
      = [2147483647, -2147483648] := by decide
  have hone : (runTableOps (ObjDescTable.mk (0 + ((2147483647 : Nat) : Int)) [])
      [TableOp.newDir "/zone/dir" []]).1
      = ObjDescTable.mk (-2147483648)
          [(2147483647, isilonObjectDesc.dir (isilonDirDesc.mk 0 "/zone/dir" []))] := by
    decide
  rw [hlast] at he
  rw [hone] at he1
  have he' : (runTableOps ObjDescTable.initial
      (churn 2147483647 0
        ++ [TableOp.newDir "/zone/dir" [], TableOp.newDir "/zone/dir" []])).2
      = earlier ++ [2147483647, -2147483648] := congrArg Prod.snd he
  have he1' : (runTableOps ObjDescTable.initial
      (churn 2147483647 0 ++ [TableOp.newDir "/zone/dir" []])).1
      = ObjDescTable.mk (-2147483648)
          [(2147483647, isilonObjectDesc.dir (isilonDirDesc.mk 0 "/zone/dir" []))] :=
    congrArg Prod.fst he1
  refine ⟨⟨earlier, he'⟩, ?_, ?_, ?_⟩
  · rw [he']
    intro hp
    have h2 := (List.pairwise_append.mp hp).2.1
    simp only [List.pairwise_cons, List.mem_singleton, forall_eq] at h2
    exact absurd h2.1 (by decide)
  · rw [he1']
    rfl
  · rw [he1']
    decide

/-- C10 (the defect): on every table with a live descriptor the teardown loop destroys the
descriptor of `begin()` by key and then erases the same iterator, which is no longer valid;
the loop is undefined at its first iteration and the counter is not reset.  On the empty
table the teardown succeeds and leaves the counter at zero. -/
theorem isilonCleanObjDescTable_undefined_on_live_descriptor (fuel : Nat) (t : ObjDescTable)
    (hlive : t.OBJ_DESC_MAP ≠ []) (hfuel : 1 ≤ fuel) :
    (isilonCleanObjDescTable fuel t).2 = Outcome.undefined
      ∧ (isilonCleanObjDescTable fuel { t with OBJ_DESC_MAP := [] })
          = ({ NEXT_OBJ_DESC_NUM := 0, OBJ_DESC_MAP := [] }, Outcome.ok) := by
  obtain ⟨n, rfl⟩ : ∃ n, fuel = n + 1 := ⟨fuel - 1, by omega⟩
  constructor
  · obtain ⟨next, map⟩ := t
    cases map with
    | nil => exact absurd rfl hlive
    | cons e rest =>
      have hfind : (ObjDescTable.mk next (e :: rest)).find e.1 = some e.2 := by
        simp [ObjDescTable.find]
      have hvalid : isilonIsObjIDValid (ObjDescTable.mk next (e :: rest)) e.1 = Outcome.ok := by
        simp [isilonIsObjIDValid, hfind]
      have hdestroy : (isilonDestroyObjDesc (ObjDescTable.mk next (e :: rest)) e.1).1
          = (ObjDescTable.mk next (e :: rest)).erase e.1 := by
        simp [isilonDestroyObjDesc, hvalid]
      have hiter : ((ObjDescTable.mk next (e :: rest)).erase e.1).eraseIter e.1 = none := by
        simp [ObjDescTable.eraseIter, ObjDescTable_find_erase]
      simp only [isilonCleanObjDescTable, isilonCleanObjDescTable.loop, List.head?_cons,
        hdestroy, hiter]
      simp
  · simp [isilonCleanObjDescTable, isilonCleanObjDescTable.loop]

/-- Witness of C10's defect: the table holding the one descriptor of a first open. -/
theorem isilonCleanObjDescTable_undefined_on_live_descriptor_witness :
    oneLiveDescriptor.ids = [0]
      ∧ (isilonCleanObjDescTable 4 oneLiveDescriptor).2 = Outcome.undefined :=
  ⟨by decide,
    (isilonCleanObjDescTable_undefined_on_live_descriptor 4 oneLiveDescriptor
      (by decide) (by decide)).1⟩

/-! ### Seek controller -/

theorem isilonFileLseekPlugin_body_eq (fd : isilonFileDesc) (delta whence : Int)
    (hw : whence = SEEK_SET ∨ whence = SEEK_CUR ∨ whence = SEEK_END) :
    isilonFileLseekPlugin.body fd delta whence =
      if resolvedTarget fd delta whence < 0 ∨ resolvedTarget fd delta whence > fd.file_size then
        (fd, Except.error EINVAL)
      else
        ((if (fd.buff_offset : Int) ≠ 0 then
            fd.seekBuff
              (if resolvedTarget fd delta whence - fd.offset > 0 then
                if (fd.buff_offset : Int) > resolvedTarget fd delta whence - fd.offset then
                  (fd.buff_offset : Int) - (resolvedTarget fd delta whence - fd.offset)
                else 0
              else
                if (fd.buff_offset : Int) - (resolvedTarget fd delta whence - fd.offset)
                    ≤ fd.getBuffSize then
                  (fd.buff_offset : Int) - (resolvedTarget fd delta whence - fd.offset)
                else 0)
          else fd).setOffset (resolvedTarget fd delta whence),
          Except.ok (resolvedTarget fd delta whence)) := by
  rcases hw with rfl | rfl | rfl <;>
    simp [isilonFileLseekPlugin.body, resolvedTarget, SEEK_SET, SEEK_CUR, SEEK_END,
      getFileSize, getOffset, getBuffOffset]

/-- C6: for `whence` one of `SEEK_SET`, `SEEK_CUR`, `SEEK_END` the seek fails (with `EINVAL`)
exactly when the resolved target is negative or greater than the file size, and otherwise
answers the resolved target and stores it as the offset; a seek to -1 from the start fails,
a seek past the file size from the end fails, and a seek to exactly the file size
succeeds. -/
theorem isilonFileLseekPlugin_fails_iff_target_out_of_range (fd : isilonFileDesc)
    (delta whence : Int) (hw : whence = SEEK_SET ∨ whence = SEEK_CUR ∨ whence = SEEK_END) :
    ((∃ status, (isilonFileLseekPlugin.body fd delta whence).2 = Except.error status)
        ↔ resolvedTarget fd delta whence < 0 ∨ fd.file_size < resolvedTarget fd delta whence)
      ∧ ((isilonFileLseekPlugin.body fd delta whence).2 = Except.error EINVAL
        ∨ ((isilonFileLseekPlugin.body fd delta whence).2
              = Except.ok (resolvedTarget fd delta whence)
            ∧ (isilonFileLseekPlugin.body fd delta whence).1.offset
              = resolvedTarget fd delta whence))
      ∧ (isilonFileLseekPlugin.body fd (-1) SEEK_SET).2 = Except.error EINVAL
      ∧ (0 < delta → (isilonFileLseekPlugin.body fd delta SEEK_END).2 = Except.error EINVAL)
      ∧ (0 ≤ fd.file_size →
          (isilonFileLseekPlugin.body fd fd.file_size SEEK_SET).2 = Except.ok fd.file_size
            ∧ (isilonFileLseekPlugin.body fd 0 SEEK_END).2 = Except.ok fd.file_size) := by
  refine ⟨?_, ?_, ?_, ?_, ?_⟩
  · rw [isilonFileLseekPlugin_body_eq fd delta whence hw]
    split
    · rename_i h
      exact ⟨fun _ => by omega, fun _ => ⟨EINVAL, rfl⟩⟩
    · rename_i h
      constructor
      · rintro ⟨status, hs⟩
        cases hs
      · intro h'
        omega
  · rw [isilonFileLseekPlugin_body_eq fd delta whence hw]
    split
    · exact Or.inl rfl
    · exact Or.inr ⟨rfl, rfl⟩
  · rw [isilonFileLseekPlugin_body_eq fd (-1) SEEK_SET (Or.inl rfl)]
    simp [resolvedTarget]
  · intro hd
    rw [isilonFileLseekPlugin_body_eq fd delta SEEK_END (Or.inr (Or.inr rfl))]
    have : fd.file_size < resolvedTarget fd delta SEEK_END := by
      simp [resolvedTarget, SEEK_SET, SEEK_CUR, SEEK_END]; omega
    simp [this]
  · intro hs
    constructor
    · have h1 : resolvedTarget fd fd.file_size SEEK_SET = fd.file_size := by
        simp [resolvedTarget]
      rw [isilonFileLseekPlugin_body_eq fd fd.file_size SEEK_SET (Or.inl rfl), h1,
        if_neg (by omega)]
    · have h1 : resolvedTarget fd 0 SEEK_END = fd.file_size := by
        simp [resolvedTarget, SEEK_SET, SEEK_CUR, SEEK_END]
      rw [isilonFileLseekPlugin_body_eq fd 0 SEEK_END (Or.inr (Or.inr rfl)), h1,
        if_neg (by omega)]

/-- Witness of C6: a descriptor of a 20 byte file at offset 5, seek by 3 from the current
offset. -/
theorem isilonFileLseekPlugin_fails_iff_target_out_of_range_witness :
    (isilonFileLseekPlugin.body
        { offset := 5, path := "f", mode := ISILON_MODE_READ, buff := none, buff_size := 8,
          buff_offset := 0, file_size := 20, last_block := none } 3 SEEK_CUR).2 = Except.ok 8
      ∧ (isilonFileLseekPlugin.body
        { offset := 5, path := "f", mode := ISILON_MODE_READ, buff := none, buff_size := 8,
          buff_offset := 0, file_size := 20, last_block := none } (-1) SEEK_SET).2
          = Except.error EINVAL :=
  ⟨by decide,
    (isilonFileLseekPlugin_fails_iff_target_out_of_range
      { offset := 5, path := "f", mode := ISILON_MODE_READ, buff := none, buff_size := 8,
        buff_offset := 0, file_size := 20, last_block := none } 3 SEEK_CUR
      (Or.inr (Or.inl rfl))).2.2.1⟩

/-- C7: after a successful seek, with `k` the occupancy before, `B` the buffer size
(`getBuffSize`) and `d` the new offset minus the old one: for `k > 0` and `0 < d < k` the
occupancy is `k - d`; for `k > 0`, `d ≤ 0` and `k - d ≤ B` it is `k - d`; in every other
case with `k > 0` it is 0; for `k = 0` it stays 0.  With `B = 8`, one write of 20 bytes
leaves occupancy 4; seeking back 3 bytes then gives 7, seeking back 5 bytes gives 0. -/
theorem isilonFileLseekPlugin_buffer_retention (fd fd' : isilonFileDesc)
    (delta whence new_offset : Int)
    (hseek : isilonFileLseekPlugin.body fd delta whence = (fd', Except.ok new_offset)) :
    (0 < fd.buff_offset → 0 < new_offset - fd.offset →
        new_offset - fd.offset < fd.buff_offset →
        (fd'.buff_offset : Int) = fd.buff_offset - (new_offset - fd.offset))
      ∧ (0 < fd.buff_offset → new_offset - fd.offset ≤ 0 →
        fd.buff_offset - (new_offset - fd.offset) ≤ fd.getBuffSize →
        (fd'.buff_offset : Int) = fd.buff_offset - (new_offset - fd.offset))
      ∧ (0 < fd.buff_offset →
        ¬ (0 < new_offset - fd.offset ∧ new_offset - fd.offset < fd.buff_offset) →
        ¬ (new_offset - fd.offset ≤ 0
            ∧ fd.buff_offset - (new_offset - fd.offset) ≤ fd.getBuffSize) →
        fd'.buff_offset = 0)
      ∧ (fd.buff_offset = 0 → fd'.buff_offset = 0)
      ∧ written20.buff_size = 8 ∧ written20.buff_offset = 4
      ∧ (isilonFileLseekPlugin.body written20 (-3) SEEK_CUR).1.buff_offset = 7
      ∧ (isilonFileLseekPlugin.body written20 (-5) SEEK_CUR).1.buff_offset = 0 := by
  have hconcrete : written20.buff_size = 8 ∧ written20.buff_offset = 4
      ∧ (isilonFileLseekPlugin.body written20 (-3) SEEK_CUR).1.buff_offset = 7
      ∧ (isilonFileLseekPlugin.body written20 (-5) SEEK_CUR).1.buff_offset = 0 := by
    decide
  by_cases hw : whence = SEEK_SET ∨ whence = SEEK_CUR ∨ whence = SEEK_END
  · rw [isilonFileLseekPlugin_body_eq fd delta whence hw] at hseek
    split at hseek
    · cases hseek
    · injection hseek with h1 h2
      injection h2 with h2
      subst h2
      subst h1
      refine ⟨?_, ?_, ?_, ?_, hconcrete⟩
      · intro hk hd hdk
        have hk' : (fd.buff_offset : Int) ≠ 0 := by omega
        simp only [hk', ne_eq, not_false_eq_true, if_true, setOffset, seekBuff, hd, hdk,
          gt_iff_lt]
        omega
      · intro hk hd hdk
        have hk' : (fd.buff_offset : Int) ≠ 0 := by omega
        have hd' : ¬ (resolvedTarget fd delta whence - fd.offset > 0) := by omega
        simp only [hk', ne_eq, not_false_eq_true, if_true, setOffset, seekBuff, hd', hdk,
          if_false]
        omega
      · intro hk h1 h2
        have hk' : (fd.buff_offset : Int) ≠ 0 := by omega
        simp only [hk', ne_eq, not_false_eq_true, if_true, setOffset, seekBuff]
        split
        · rename_i hd
          have : ¬ ((fd.buff_offset : Int) > resolvedTarget fd delta whence - fd.offset) := by
            omega
          simp [this]
        · rename_i hd
          have : ¬ ((fd.buff_offset : Int) - (resolvedTarget fd delta whence - fd.offset)
              ≤ fd.getBuffSize) := by
            intro h; exact h2 ⟨by omega, h⟩
          simp [this]
      · intro hk
        simp [hk, setOffset]
  · have h1 : ¬ whence = SEEK_SET := fun h => hw (Or.inl h)
    have h2 : ¬ whence = SEEK_CUR := fun h => hw (Or.inr (Or.inl h))
    have h3 : ¬ whence = SEEK_END := fun h => hw (Or.inr (Or.inr h))
    simp [isilonFileLseekPlugin.body, h1, h2, h3] at hseek

/-- Witness of C7: the seek back by 3 bytes on the descriptor that wrote 20 bytes. -/
theorem isilonFileLseekPlugin_buffer_retention_witness :
    isilonFileLseekPlugin.body written20 (-3) SEEK_CUR
        = ({ written20 with offset := 17, buff_offset := 7 }, Except.ok 17)
      ∧ ((0 : Nat) < written20.buff_offset → (17 : Int) - written20.offset ≤ 0 →
        written20.buff_offset - ((17 : Int) - written20.offset) ≤ written20.getBuffSize →
        (({ written20 with offset := 17, buff_offset := 7 } : isilonFileDesc).buff_offset : Int)
          = written20.buff_offset - ((17 : Int) - written20.offset)) :=
  ⟨by decide,
    (isilonFileLseekPlugin_buffer_retention written20
      { written20 with offset := 17, buff_offset := 7 } (-3) SEEK_CUR 17 (by decide)).2.1⟩

/-! ### Write buffer engine -/

theorem writeToBuff_frame (fd : isilonFileDesc) (buf : List Byte) (o l : Int) :
    (fd.writeToBuff buf o l).1.offset = fd.offset
      ∧ (fd.writeToBuff buf o l).1.file_size = fd.file_size
      ∧ (fd.writeToBuff buf o l).1.last_block = fd.last_block
      ∧ (fd.writeToBuff buf o l).1.path = fd.path
      ∧ (fd.writeToBuff buf o l).1.mode = fd.mode
      ∧ (fd.writeToBuff buf o l).1.buff_size = fd.buff_size := by
  unfold writeToBuff
  repeat' split
  all_goals exact ⟨rfl, rfl, rfl, rfl, rfl, rfl⟩

theorem flushBuff_frame (fd : isilonFileDesc) :
    fd.flushBuff.1.offset = fd.offset ∧ fd.flushBuff.1.file_size = fd.file_size
      ∧ fd.flushBuff.1.last_block = fd.last_block ∧ fd.flushBuff.1.path = fd.path
      ∧ fd.flushBuff.1.mode = fd.mode ∧ fd.flushBuff.1.buff_size = fd.buff_size
      ∧ fd.flushBuff.1.buff = fd.buff := by
  unfold flushBuff
  repeat' split
  all_goals exact ⟨rfl, rfl, rfl, rfl, rfl, rfl, rfl⟩

theorem isilonWriteBuf_step_frame (fd : isilonFileDesc) (buf : List Byte) (bo len : Int) :
    (isilonWriteBuf.step fd buf bo len).fd.offset = fd.offset
      ∧ (isilonWriteBuf.step fd buf bo len).fd.file_size = fd.file_size
      ∧ (isilonWriteBuf.step fd buf bo len).fd.last_block = fd.last_block
      ∧ (isilonWriteBuf.step fd buf bo len).fd.path = fd.path
      ∧ (isilonWriteBuf.step fd buf bo len).fd.mode = fd.mode
      ∧ (isilonWriteBuf.step fd buf bo len).fd.buff_size = fd.buff_size
      ∧ ((isilonWriteBuf.step fd buf bo len).result = Outcome.ok →
          (isilonWriteBuf.step fd buf bo len).bytes_added
            + (isilonWriteBuf.step fd buf bo len).len = len) := by
  have hw := writeToBuff_frame fd buf bo
  unfold isilonWriteBuf.step
  simp only []
  split
  · exact ⟨rfl, rfl, rfl, rfl, rfl, rfl, fun _ => by dsimp only; omega⟩
  · split
    · obtain ⟨h1, h2, h3, h4, h5, h6⟩ := hw len
      exact ⟨h1, h2, h3, h4, h5, h6, fun _ => by dsimp only; omega⟩
    · obtain ⟨h1, h2, h3, h4, h5, h6⟩ := hw (fd.getBuffSize - ↑fd.getBuffOffset)
      split
      · rename_i hne
        exact ⟨h1, h2, h3, h4, h5, h6, fun h => absurd h hne⟩
      · obtain ⟨g1, g2, g3, g4, g5, g6, _⟩ :=
          flushBuff_frame (fd.writeToBuff buf bo (fd.getBuffSize - ↑fd.getBuffOffset)).1
        exact ⟨g1.trans h1, g2.trans h2, g3.trans h3, g4.trans h4, g5.trans h5, g6.trans h6,
          fun _ => by dsimp only; omega⟩

theorem isilonWriteBuf_release_frame (fd : isilonFileDesc) :
    (isilonWriteBuf.release fd).1.offset = fd.offset
      ∧ (isilonWriteBuf.release fd).1.file_size = fd.file_size
      ∧ (isilonWriteBuf.release fd).1.path = fd.path
      ∧ (isilonWriteBuf.release fd).1.mode = fd.mode
      ∧ (isilonWriteBuf.release fd).1.buff_size = fd.buff_size
      ∧ (isilonWriteBuf.release fd).1.buff_offset = fd.buff_offset
      ∧ (isilonWriteBuf.release fd).1.buff = fd.buff
      ∧ (isilonWriteBuf.release fd).1.last_block = none
      ∧ ((isilonWriteBuf.release fd).2 = Outcome.ok ↔ fd.last_block = none)
      ∧ (fd.last_block ≠ none → (isilonWriteBuf.release fd).2 = Outcome.undefined)
      ∧ (fd.last_block = none → isilonWriteBuf.release fd = (fd, Outcome.ok)) := by
  obtain ⟨o, p, m, bf, bs, bo, fs, lb⟩ := fd
  cases lb with
  | none => simp [isilonWriteBuf.release, getLastBlock]
  | some b => simp [isilonWriteBuf.release, getLastBlock, releaseLastBlock]

theorem isilonWriteBuf_release_none (fd : isilonFileDesc) (h : fd.last_block = none) :
    isilonWriteBuf.release fd = (fd, Outcome.ok) :=
  (isilonWriteBuf_release_frame fd).2.2.2.2.2.2.2.2.2.2 h

theorem isilonWriteBuf_loop_offset {σ : Type} (api : hdfs σ) (buf : List Byte) :
    ∀ (fuel : Nat) (nn : σ) (fd : isilonFileDesc) (buf_offset len status : Int),
      fd.file_size = fd.offset →
      (isilonWriteBuf.loop api buf fuel nn fd buf_offset len status).result = Outcome.ok →
      (isilonWriteBuf.loop api buf fuel nn fd buf_offset len status).fd.file_size
          = (isilonWriteBuf.loop api buf fuel nn fd buf_offset len status).fd.offset
        ∧ (isilonWriteBuf.loop api buf fuel nn fd buf_offset len status).fd.offset
          = fd.offset + len := by
  intro fuel
  induction fuel with
  | zero =>
    intro nn fd buf_offset len status hfs hok
    unfold isilonWriteBuf.loop at hok ⊢
    split
    · rename_i h; simp [hfs, h]
    · rename_i h; simp [h] at hok
  | succ n ih =>
    intro nn fd buf_offset len status hfs hok
    unfold isilonWriteBuf.loop at hok ⊢
    split
    · rename_i h; simp [hfs, h]
    · rename_i h
      simp only [h, if_false] at hok
      obtain ⟨s1, s2, s3, s4, s5, s6, s7⟩ := isilonWriteBuf_step_frame fd buf buf_offset len
      generalize isilonWriteBuf.step fd buf buf_offset len = st at *
      simp only [] at hok ⊢
      split
      · rename_i hr; simp [hr] at hok
      · rename_i hr
        simp only [hr, if_false] at hok
        have hr' : st.result = Outcome.ok := by simpa using hr
        have hsum := s7 hr'
        split
        · rename_i w hw
          simp only [hw] at hok
          split
          · rename_i hc; simp [hc] at hok
          · rename_i hc
            simp only [hc, if_false] at hok
            obtain ⟨q1, _⟩ := isilonWriteBuf_release_frame st.fd
            generalize isilonWriteBuf.release st.fd = released at *
            split
            · rename_i hrel; simp [hrel] at hok
            · rename_i hrel
              simp only [hrel, if_false] at hok
              have := ih _ _ _ _ _ (by simp [setFileSize, setOffset, getOffset]) hok
              refine ⟨this.1, this.2.trans ?_⟩
              simp only [setFileSize, setOffset, getOffset, q1, s1]
              omega
        · rename_i hw
          simp only [hw] at hok
          have := ih _ _ _ _ _ (by simp [setFileSize, setOffset, getOffset]) hok
          refine ⟨this.1, this.2.trans ?_⟩
          simp only [setFileSize, setOffset, getOffset, s1]
          omega

/-- C4: a write call that returns success leaves `file_size == offset`, and both have
grown by exactly the length passed to the call (the call succeeds on write-mode
descriptors only, and only when `file_size == offset` held before). -/
theorem isilonWriteBuf_success_file_size_eq_offset {σ : Type} (api : hdfs σ) (fuel : Nat)
    (nn : σ) (fd : isilonFileDesc) (buf : List Byte) (len status : Int)
    (hok : (isilonWriteBuf.body api fuel nn fd buf len status).result = Outcome.ok) :
    (isilonWriteBuf.body api fuel nn fd buf len status).fd.file_size
        = (isilonWriteBuf.body api fuel nn fd buf len status).fd.offset
      ∧ (isilonWriteBuf.body api fuel nn fd buf len status).fd.offset = fd.offset + len
      ∧ (isilonWriteBuf.body api fuel nn fd buf len status).fd.file_size = fd.file_size + len
      ∧ fd.mode = ISILON_MODE_WRITE := by
  unfold isilonWriteBuf.body at hok ⊢
  split
  · rename_i h; simp [h] at hok
  · rename_i hmode
    simp only [hmode, if_false] at hok
    split
    · rename_i h; simp [h] at hok
    · rename_i hfs
      simp only [hfs, if_false] at hok
      have hfs' : fd.file_size = fd.offset := by simpa [getFileSize, getOffset] using hfs
      have := isilonWriteBuf_loop_offset api buf fuel nn fd 0 len status hfs' hok
      refine ⟨this.1, this.2, ?_, by simpa [getMode] using hmode⟩
      rw [this.1, this.2, hfs']

/-- Witness of C4: one write call of 20 bytes with buffer size 8 on a fresh descriptor. -/
theorem isilonWriteBuf_success_file_size_eq_offset_witness :
    (isilonWriteBuf.body SimStore.api 20 { blocks := [] }
        (isilonFileDesc.new ISILON_MODE_WRITE "/zone/file" 8 none) (List.range 20) 20 0).result
        = Outcome.ok
      ∧ written20.file_size = written20.offset ∧ written20.offset = 0 + 20 :=
  ⟨by decide,
    (isilonWriteBuf_success_file_size_eq_offset SimStore.api 20 { blocks := [] }
      (isilonFileDesc.new ISILON_MODE_WRITE "/zone/file" 8 none) (List.range 20) 20 0
      (by decide)).1,
    (isilonWriteBuf_success_file_size_eq_offset SimStore.api 20 { blocks := [] }
      (isilonFileDesc.new ISILON_MODE_WRITE "/zone/file" 8 none) (List.range 20) 20 0
      (by decide)).2.1⟩

/-! ### Read buffer engine: bounds of the offset -/

theorem readFromBuff_frame (fd : isilonFileDesc) (buf : List Byte) (o l : Int) :
    (fd.readFromBuff buf o l).1.offset = fd.offset
      ∧ (fd.readFromBuff buf o l).1.file_size = fd.file_size
      ∧ (fd.readFromBuff buf o l).1.last_block = fd.last_block
      ∧ (fd.readFromBuff buf o l).1.path = fd.path
      ∧ (fd.readFromBuff buf o l).1.mode = fd.mode
      ∧ (fd.readFromBuff buf o l).1.buff_size = fd.buff_size
      ∧ ((fd.readFromBuff buf o l).2.1 = Outcome.ok → 0 ≤ l) := by
  unfold readFromBuff
  split
  · exact ⟨rfl, rfl, rfl, rfl, rfl, rfl, fun h => by simp at h⟩
  · split
    · exact ⟨rfl, rfl, rfl, rfl, rfl, rfl, fun h => by simp at h⟩
    · rename_i hl
      split
      · exact ⟨rfl, rfl, rfl, rfl, rfl, rfl, fun _ => by omega⟩
      · split
        · exact ⟨rfl, rfl, rfl, rfl, rfl, rfl, fun _ => by omega⟩
        · exact ⟨rfl, rfl, rfl, rfl, rfl, rfl, fun _ => by omega⟩

theorem isilonReadBuf_step_frame (rbuff_size : Int) (fd : isilonFileDesc) (buf : List Byte)
    (bo to_read : Int) (hB : 0 ≤ rbuff_size) :
    (isilonReadBuf.step rbuff_size fd buf bo to_read).fd.offset = fd.offset
      ∧ (isilonReadBuf.step rbuff_size fd buf bo to_read).fd.file_size = fd.file_size
      ∧ (isilonReadBuf.step rbuff_size fd buf bo to_read).fd.last_block = fd.last_block
      ∧ (isilonReadBuf.step rbuff_size fd buf bo to_read).fd.path = fd.path
      ∧ (isilonReadBuf.step rbuff_size fd buf bo to_read).fd.mode = fd.mode
      ∧ (isilonReadBuf.step rbuff_size fd buf bo to_read).fd.buff_size = fd.buff_size
      ∧ ((isilonReadBuf.step rbuff_size fd buf bo to_read).result = Outcome.ok →
          0 ≤ (isilonReadBuf.step rbuff_size fd buf bo to_read).bytes_taken
            ∧ 0 ≤ (isilonReadBuf.step rbuff_size fd buf bo to_read).to_read
            ∧ (isilonReadBuf.step rbuff_size fd buf bo to_read).bytes_taken
              + (isilonReadBuf.step rbuff_size fd buf bo to_read).to_read = to_read) := by
  have hr := readFromBuff_frame fd buf bo
  unfold isilonReadBuf.step
  simp only []
  split
  · exact ⟨rfl, rfl, rfl, rfl, rfl, rfl, fun _ => by dsimp only; omega⟩
  · split
    · obtain ⟨h1, h2, h3, h4, h5, h6, h7⟩ := hr to_read
      exact ⟨h1, h2, h3, h4, h5, h6, fun h => by have := h7 h; dsimp only; omega⟩
    · obtain ⟨h1, h2, h3, h4, h5, h6, h7⟩ := hr (fd.getBuffOffset : Int)
      split
      · rename_i hne
        exact ⟨h1, h2, h3, h4, h5, h6, fun h => absurd h hne⟩
      · obtain ⟨g1, g2, g3, g4, g5, g6, _⟩ :=
          flushBuff_frame (fd.readFromBuff buf bo (fd.getBuffOffset : Int)).1
        exact ⟨g1.trans h1, g2.trans h2, g3.trans h3, g4.trans h4, g5.trans h5, g6.trans h6,
          fun _ => by dsimp only; omega⟩

theorem isilonReadBuf_fill_frame {σ : Type} (api : hdfs σ) (rbuff_size : Int) (nn : σ)
    (st : ReadStep) (status : Int) :
    (isilonReadBuf.fill api rbuff_size nn st status).fd.offset = st.fd.offset
      ∧ (isilonReadBuf.fill api rbuff_size nn st status).fd.file_size = st.fd.file_size
      ∧ (isilonReadBuf.fill api rbuff_size nn st status).fd.last_block = st.fd.last_block
      ∧ (isilonReadBuf.fill api rbuff_size nn st status).fd.path = st.fd.path
      ∧ (isilonReadBuf.fill api rbuff_size nn st status).fd.mode = st.fd.mode
      ∧ (isilonReadBuf.fill api rbuff_size nn st status).fd.buff_size = st.fd.buff_size
      ∧ (isilonReadBuf.fill api rbuff_size nn st status).fd.buff_offset = st.fd.buff_offset := by
  unfold isilonReadBuf.fill
  cases st.rbuff <;> simp only [] <;> repeat' split
  all_goals simp

/-- The offset stays within `[0, file_size]` along the read loop, whatever the remote
client answers and however the loop ends. -/
theorem isilonReadBuf_loop_offset_bounds {σ : Type} (api : hdfs σ) (rbuff_size : Int)
    (hB : 0 ≤ rbuff_size) :
    ∀ (fuel : Nat) (nn : σ) (fd : isilonFileDesc) (buf : List Byte) (bo to_read status : Int),
      0 ≤ fd.offset → fd.offset ≤ fd.file_size →
      (0 ≤ to_read → fd.offset + to_read ≤ fd.file_size) →
      0 ≤ (isilonReadBuf.loop api rbuff_size fuel nn fd buf bo to_read status).fd.offset
        ∧ (isilonReadBuf.loop api rbuff_size fuel nn fd buf bo to_read status).fd.offset
            ≤ fd.file_size
        ∧ (isilonReadBuf.loop api rbuff_size fuel nn fd buf bo to_read status).fd.file_size
            = fd.file_size
        ∧ (isilonReadBuf.loop api rbuff_size fuel nn fd buf bo to_read status).fd.last_block
            = fd.last_block
        ∧ (isilonReadBuf.loop api rbuff_size fuel nn fd buf bo to_read status).fd.buff_size
            = fd.buff_size
        ∧ (isilonReadBuf.loop api rbuff_size fuel nn fd buf bo to_read status).fd.mode
            = fd.mode := by
  intro fuel
  induction fuel with
  | zero =>
    intro nn fd buf bo to_read status h0 h1 h2
    unfold isilonReadBuf.loop
    split <;> exact ⟨h0, h1, rfl, rfl, rfl, rfl⟩
  | succ n ih =>
    intro nn fd buf bo to_read status h0 h1 h2
    unfold isilonReadBuf.loop
    split
    · exact ⟨h0, h1, rfl, rfl, rfl, rfl⟩
    · obtain ⟨s1, s2, s3, s4, s5, s6, s7⟩ :=
        isilonReadBuf_step_frame rbuff_size fd buf bo to_read hB
      generalize isilonReadBuf.step rbuff_size fd buf bo to_read = st at *
      simp only []
      split
      · exact ⟨by rw [s1]; exact h0, by rw [s1]; exact h1, s2, s3, s6, s5⟩
      · rename_i hr
        have hr' : st.result = Outcome.ok := by simpa using hr
        obtain ⟨t1, t2, t3⟩ := s7 hr'
        obtain ⟨f1, f2, f3, f4, f5, f6, f7⟩ := isilonReadBuf_fill_frame api rbuff_size nn st status
        generalize isilonReadBuf.fill api rbuff_size nn st status = g at *
        split
        · exact ⟨by rw [f1, s1]; exact h0, by rw [f1, s1]; exact h1, f2.trans s2, f3.trans s3,
            f6.trans s6, f5.trans s5⟩
        · have hfs : (g.fd.setOffset (g.fd.getOffset + st.bytes_taken)).file_size = fd.file_size := by
            simp [setOffset, f2, s2]
          have hoff : (g.fd.setOffset (g.fd.getOffset + st.bytes_taken)).offset
              = fd.offset + st.bytes_taken := by
            simp [setOffset, getOffset, f1, s1]
          have := ih g.nn (g.fd.setOffset (g.fd.getOffset + st.bytes_taken)) g.buf st.buf_offset
            st.to_read g.status (by rw [hoff]; omega) (by rw [hoff, hfs]; have := h2 (by omega); omega)
            (by intro _; rw [hoff, hfs]; have := h2 (by omega); omega)
          rw [hfs] at this
          obtain ⟨r1, r2, r3, r4, r5, r6⟩ := this
          refine ⟨r1, r2, r3, r4.trans ?_, r5.trans ?_, r6.trans ?_⟩
          · simp [setOffset, f3, s3]
          · simp [setOffset, f6, s6]
          · simp [setOffset, f5, s5]

theorem isilonReadBuf_body_offset_bounds {σ : Type} (api : hdfs σ) (fuel : Nat) (nn : σ)
    (fd : isilonFileDesc) (buf : List Byte) (len status : Int)
    (hlb : fd.last_block = none) (h0 : 0 ≤ fd.offset) (h1 : fd.offset ≤ fd.file_size) :
    0 ≤ (isilonReadBuf.body api fuel nn fd buf len status).fd.offset
      ∧ (isilonReadBuf.body api fuel nn fd buf len status).fd.offset ≤ fd.file_size
      ∧ (isilonReadBuf.body api fuel nn fd buf len status).fd.file_size = fd.file_size
      ∧ (isilonReadBuf.body api fuel nn fd buf len status).fd.last_block = none
      ∧ (isilonReadBuf.body api fuel nn fd buf len status).fd.buff_size = fd.buff_size
      ∧ (isilonReadBuf.body api fuel nn fd buf len status).fd.mode = fd.mode := by
  unfold isilonReadBuf.body
  split
  · exact ⟨h0, h1, rfl, hlb, rfl, rfl⟩
  · split
    · exact ⟨h0, h1, rfl, hlb, rfl, rfl⟩
    · have hB : (0 : Int) ≤ fd.getBuffSize := by simp [getBuffSize, hlb]
      have := isilonReadBuf_loop_offset_bounds api fd.getBuffSize hB fuel nn fd buf 0
        (if len < fd.getFileSize - fd.getOffset then len else fd.getFileSize - fd.getOffset)
        status h0 h1 (by intro _; simp only [getFileSize, getOffset]; split <;> omega)
      rw [hlb] at this
      exact this

theorem isilonFileLseekPlugin_body_offset_bounds (fd : isilonFileDesc) (delta whence : Int)
    (h0 : 0 ≤ fd.offset) (h1 : fd.offset ≤ fd.file_size) :
    0 ≤ (isilonFileLseekPlugin.body fd delta whence).1.offset
      ∧ (isilonFileLseekPlugin.body fd delta whence).1.offset ≤ fd.file_size
      ∧ (isilonFileLseekPlugin.body fd delta whence).1.file_size = fd.file_size
      ∧ (isilonFileLseekPlugin.body fd delta whence).1.last_block = fd.last_block
      ∧ (isilonFileLseekPlugin.body fd delta whence).1.buff_size = fd.buff_size
      ∧ (isilonFileLseekPlugin.body fd delta whence).1.mode = fd.mode := by
  by_cases hw : whence = SEEK_SET ∨ whence = SEEK_CUR ∨ whence = SEEK_END
  · rw [isilonFileLseekPlugin_body_eq fd delta whence hw]
    split
    · exact ⟨h0, h1, rfl, rfl, rfl, rfl⟩
    · rename_i h
      simp only [setOffset, seekBuff]
      split <;> exact ⟨by omega, by omega, rfl, rfl, rfl, rfl⟩
  · have h1' : ¬ whence = SEEK_SET := fun h => hw (Or.inl h)
    have h2' : ¬ whence = SEEK_CUR := fun h => hw (Or.inr (Or.inl h))
    have h3' : ¬ whence = SEEK_END := fun h => hw (Or.inr (Or.inr h))
    simp [isilonFileLseekPlugin.body, h1', h2', h3', h0, h1]

theorem runFileOps_offset_bounds {σ : Type} (api : hdfs σ) (fuel : Nat) (ops : List FileOp) :
    ∀ (nn : σ) (fd : isilonFileDesc), fd.last_block = none → 0 ≤ fd.offset →
      fd.offset ≤ fd.file_size →
      0 ≤ (runFileOps api fuel nn fd ops).2.offset
        ∧ (runFileOps api fuel nn fd ops).2.offset ≤ (runFileOps api fuel nn fd ops).2.file_size
        ∧ (runFileOps api fuel nn fd ops).2.file_size = fd.file_size := by
  induction ops with
  | nil => intro nn fd _ h0 h1; exact ⟨h0, h1, rfl⟩
  | cons op ops ih =>
    intro nn fd hlb h0 h1
    cases op with
    | read buf len =>
      obtain ⟨r1, r2, r3, r4, _, _⟩ :=
        isilonReadBuf_body_offset_bounds api fuel nn fd buf len 0 hlb h0 h1
      have := ih (isilonReadBuf.body api fuel nn fd buf len 0).nn
        (isilonReadBuf.body api fuel nn fd buf len 0).fd r4 r1 (by rw [r3]; exact r2)
      simp only [runFileOps]
      rw [r3] at this
      exact this
    | seek o w =>
      obtain ⟨r1, r2, r3, r4, _, _⟩ := isilonFileLseekPlugin_body_offset_bounds fd o w h0 h1
      have := ih nn (isilonFileLseekPlugin.body fd o w).1 (r4.trans hlb) r1 (by rw [r3]; exact r2)
      simp only [runFileOps]
      rw [r3] at this
      exact this

/-- C5: on a descriptor opened read-only (offset 0, file size `S ≥ 0`), after every sequence
of read and seek calls, for every remote client, every bound on the loop iterations and
whether the calls succeed or fail, `0 ≤ offset ≤ file_size` holds and the file size is
still `S`. -/
theorem read_mode_offset_within_file_size {σ : Type} (api : hdfs σ) (fuel : Nat) (nn : σ)
    (path : String) (buff_size : Nat) (S : Int) (ops : List FileOp) (hS : 0 ≤ S) :
    0 ≤ (runFileOps api fuel nn (openedReadOnly path buff_size S) ops).2.offset
      ∧ (runFileOps api fuel nn (openedReadOnly path buff_size S) ops).2.offset
          ≤ (runFileOps api fuel nn (openedReadOnly path buff_size S) ops).2.file_size
      ∧ (runFileOps api fuel nn (openedReadOnly path buff_size S) ops).2.file_size = S :=
  runFileOps_offset_bounds api fuel ops nn (openedReadOnly path buff_size S) rfl
    (le_refl _) hS

/-- Witness of C5: a read, a failing seek, a seek to the end and a read past the end on a
21 byte file. -/
theorem read_mode_offset_within_file_size_witness :
    (runFileOps SimStore.api 50 sampleStore (openedReadOnly "/zone/file" 8 21)
        [FileOp.read (List.replicate 5 0) 5, FileOp.seek (-1) SEEK_SET,
          FileOp.seek 19 SEEK_SET, FileOp.read (List.replicate 9 0) 9]).2.offset = 21
      ∧ (0 : Int) ≤ (runFileOps SimStore.api 50 sampleStore (openedReadOnly "/zone/file" 8 21)
        [FileOp.read (List.replicate 5 0) 5, FileOp.seek (-1) SEEK_SET,
          FileOp.seek 19 SEEK_SET, FileOp.read (List.replicate 9 0) 9]).2.offset :=
  ⟨by decide,
    (read_mode_offset_within_file_size SimStore.api 50 sampleStore "/zone/file" 8 21
      [FileOp.read (List.replicate 5 0) 5, FileOp.seek (-1) SEEK_SET,
        FileOp.seek 19 SEEK_SET, FileOp.read (List.replicate 9 0) 9] (by decide)).1⟩

/-! ### Read buffer engine: range fetches -/

theorem fetchLengths_append (a b : List hdfs_call) :
    fetchLengths (a ++ b) = fetchLengths a ++ fetchLengths b := by
  simp [fetchLengths, List.filterMap_append]

theorem isilonFillBufferFromHDFS_blocks_preserves {σ X : Type} (api : hdfs σ) (f : σ → X)
    (hnew : ∀ s b, f (api.datanode_new s b).1 = f s)
    (hread : ∀ s b o l, f (api.datanode_read s b o l).1 = f s)
    (offset len : Int) (blocks : List located_block) :
    ∀ (nn : σ) (dest : List Byte) (pos to_read : Int),
      f (isilonFillBufferFromHDFS.blocks api offset len blocks nn dest pos to_read).nn = f nn := by
  induction blocks with
  | nil => intro nn dest pos to_read; rfl
  | cons block rest ih =>
    intro nn dest pos to_read
    unfold isilonFillBufferFromHDFS.blocks
    simp only []
    split
    · rfl
    · split
      · rename_i nn1 h1
        exact (congrArg (fun p => f p.1) h1).symm.trans (hnew _ _)
      · rename_i nn1 h1
        have e1 : f nn1 = f nn := (congrArg (fun p => f p.1) h1).symm.trans (hnew _ _)
        split
        · rename_i nn2 h2
          have e2 : f nn2 = f nn1 := (congrArg (fun p => f p.1) h2).symm.trans (hread _ _ _ _)
          exact e2.trans e1
        · rename_i nn2 bytes h2
          have e2 : f nn2 = f nn1 := (congrArg (fun p => f p.1) h2).symm.trans (hread _ _ _ _)
          repeat' split
          all_goals first | exact e2.trans e1 | exact (ih _ _ _ _).trans (e2.trans e1)

theorem isilonFillBufferFromHDFS_fetchLengths {σ : Type} (api : hdfs σ)
    (nn : σ × List hdfs_call) (path : String) (dest : List Byte) (pos offset len : Int) :
    fetchLengths (isilonFillBufferFromHDFS api.traced nn path dest pos offset len).nn.2
      = fetchLengths nn.2 ++ [len] := by
  have hb := isilonFillBufferFromHDFS_blocks_preserves api.traced
    (fun s : σ × List hdfs_call => fetchLengths s.2)
    (by intro s b; simp [hdfs.traced, fetchLengths_append, fetchLengths])
    (by intro s b o l; simp [hdfs.traced, fetchLengths_append, fetchLengths]) offset len
  have hg : fetchLengths (api.traced.getBlockLocations nn path offset len).1.2
      = fetchLengths nn.2 ++ [len] := by
    simp [hdfs.traced, fetchLengths_append, fetchLengths]
  unfold isilonFillBufferFromHDFS
  split
  · rename_i nn1 e h; rw [h] at hg; exact hg
  · rename_i nn1 h; rw [h] at hg; exact hg
  · rename_i nn1 bs h
    rw [h] at hg
    exact (hb bs nn1 dest pos len).trans hg

theorem isilonReadBuf_to_get_nonneg (rbuff_size : Int) (st : ReadStep) (hB : 0 ≤ rbuff_size)
    (hbt : 0 ≤ st.bytes_taken) (h : st.fd.offset + st.bytes_taken ≤ st.fd.file_size) :
    0 ≤ isilonReadBuf.to_get rbuff_size st := by
  unfold isilonReadBuf.to_get isilonReadBuf.fetchOffset
  simp only [getFileSize, getOffset]
  repeat' split
  all_goals omega

theorem isilonReadBuf_fill_fetchLengths {σ : Type} (api : hdfs σ) (rbuff_size : Int)
    (nn : σ × List hdfs_call) (st : ReadStep) (status : Int) (hB : 0 ≤ rbuff_size)
    (hbt : 0 ≤ st.bytes_taken) (h : st.fd.offset + st.bytes_taken ≤ st.fd.file_size)
    (hJ : ∀ l ∈ fetchLengths nn.2, 1 ≤ l) :
    ∀ l ∈ fetchLengths (isilonReadBuf.fill api.traced rbuff_size nn st status).nn.2, 1 ≤ l := by
  have hto := isilonReadBuf_to_get_nonneg rbuff_size st hB hbt h
  unfold isilonReadBuf.fill
  generalize isilonReadBuf.to_get rbuff_size st = to_get at *
  cases st.rbuff with
  | null => exact hJ
  | caller pos =>
    simp only []
    split
    · rename_i hne
      intro l hl
      rw [isilonFillBufferFromHDFS_fetchLengths] at hl
      rcases List.mem_append.mp hl with h1 | h1
      · exact hJ l h1
      · have : l = to_get := by simpa using h1
        omega
    · exact hJ
  | own =>
    simp only []
    split
    · rename_i hne
      intro l hl
      rw [isilonFillBufferFromHDFS_fetchLengths] at hl
      rcases List.mem_append.mp hl with h1 | h1
      · exact hJ l h1
      · have : l = to_get := by simpa using h1
        omega
    · exact hJ

theorem isilonReadBuf_loop_fetchLengths {σ : Type} (api : hdfs σ) (rbuff_size : Int)
    (hB : 0 ≤ rbuff_size) :
    ∀ (fuel : Nat) (nn : σ × List hdfs_call) (fd : isilonFileDesc) (buf : List Byte)
      (bo to_read status : Int),
      (0 ≤ to_read → fd.offset + to_read ≤ fd.file_size) →
      (∀ l ∈ fetchLengths nn.2, 1 ≤ l) →
      ∀ l ∈ fetchLengths
          (isilonReadBuf.loop api.traced rbuff_size fuel nn fd buf bo to_read status).nn.2,
        1 ≤ l := by
  intro fuel
  induction fuel with
  | zero =>
    intro nn fd buf bo to_read status _ hJ
    unfold isilonReadBuf.loop
    split <;> exact hJ
  | succ n ih =>
    intro nn fd buf bo to_read status h2 hJ
    unfold isilonReadBuf.loop
    split
    · exact hJ
    · obtain ⟨s1, s2, s3, s4, s5, s6, s7⟩ :=
        isilonReadBuf_step_frame rbuff_size fd buf bo to_read hB
      generalize isilonReadBuf.step rbuff_size fd buf bo to_read = st at *
      simp only []
      split
      · exact hJ
      · rename_i hr
        have hr' : st.result = Outcome.ok := by simpa using hr
        obtain ⟨t1, t2, t3⟩ := s7 hr'
        have hle : st.fd.offset + st.bytes_taken ≤ st.fd.file_size := by
          rw [s1, s2]; have := h2 (by omega); omega
        have hJ' := isilonReadBuf_fill_fetchLengths api rbuff_size nn st status hB t1 hle hJ
        obtain ⟨f1, f2, f3, f4, f5, f6, f7⟩ :=
          isilonReadBuf_fill_frame api.traced rbuff_size nn st status
        generalize isilonReadBuf.fill api.traced rbuff_size nn st status = g at *
        split
        · exact hJ'
        · exact ih g.nn _ g.buf st.buf_offset st.to_read g.status
            (by intro _; simp only [setOffset, getOffset, f1, f2]; omega) hJ'

/-- C8: every range fetch issued by a read has length at least 1, for every remote client,
every descriptor without a pending last block (read-mode descriptors have none), every
requested length and every bound on the loop iterations; and on a read-mode descriptor a
seek to exactly the file size succeeds, after which a read of `len ≥ 0` bytes returns 0
bytes, makes no remote call at all and leaves the offset at the file size. -/
theorem isilonReadBuf_never_fetches_zero_bytes {σ : Type} (api : hdfs σ) (fuel : Nat) (nn : σ)
    (fd : isilonFileDesc) (buf : List Byte) (len status : Int)
    (hlb : fd.last_block = none) :
    (∀ l ∈ fetchLengths (isilonReadBuf.body api.traced fuel (nn, []) fd buf len status).nn.2,
        1 ≤ l)
      ∧ (fd.mode = ISILON_MODE_READ → 0 ≤ fd.file_size → 0 ≤ len →
          (isilonFileLseekPlugin.body fd fd.file_size SEEK_SET).2 = Except.ok fd.file_size
            ∧ (isilonReadBuf.body api.traced fuel (nn, [])
                (isilonFileLseekPlugin.body fd fd.file_size SEEK_SET).1 buf len status).result
              = Outcome.ok
            ∧ (isilonReadBuf.body api.traced fuel (nn, [])
                (isilonFileLseekPlugin.body fd fd.file_size SEEK_SET).1 buf len status).bytes_read
              = 0
            ∧ (isilonReadBuf.body api.traced fuel (nn, [])
                (isilonFileLseekPlugin.body fd fd.file_size SEEK_SET).1 buf len status).nn
              = (nn, [])
            ∧ (isilonReadBuf.body api.traced fuel (nn, [])
                (isilonFileLseekPlugin.body fd fd.file_size SEEK_SET).1 buf len status).fd.offset
              = fd.file_size
            ∧ (isilonReadBuf.body api.traced fuel (nn, [])
                (isilonFileLseekPlugin.body fd fd.file_size SEEK_SET).1 buf len status).buf
              = buf) := by
  constructor
  · unfold isilonReadBuf.body
    split
    · simp [fetchLengths]
    · split
      · simp [fetchLengths]
      · have hB : (0 : Int) ≤ fd.getBuffSize := by simp [getBuffSize, hlb]
        exact isilonReadBuf_loop_fetchLengths api fd.getBuffSize hB fuel (nn, []) fd buf 0 _
          status (by intro _; simp only [getFileSize, getOffset]; split <;> omega)
          (by simp [fetchLengths])
  · intro hmode hfs hlen
    obtain ⟨b1, b2, b3, b4, b5, b6⟩ :
        (isilonFileLseekPlugin.body fd fd.file_size SEEK_SET).2 = Except.ok fd.file_size
          ∧ (isilonFileLseekPlugin.body fd fd.file_size SEEK_SET).1.offset = fd.file_size
          ∧ (isilonFileLseekPlugin.body fd fd.file_size SEEK_SET).1.file_size = fd.file_size
          ∧ (isilonFileLseekPlugin.body fd fd.file_size SEEK_SET).1.mode = fd.mode
          ∧ True ∧ True := by
      have h1 : resolvedTarget fd fd.file_size SEEK_SET = fd.file_size := by
        simp [resolvedTarget]
      rw [isilonFileLseekPlugin_body_eq fd fd.file_size SEEK_SET (Or.inl rfl), h1,
        if_neg (by omega)]
      simp only [setOffset, seekBuff]
      split <;> simp
    generalize (isilonFileLseekPlugin.body fd fd.file_size SEEK_SET).1 = fd1 at *
    refine ⟨b1, ?_⟩
    have hto : (if len < fd1.getFileSize - fd1.getOffset then len
        else fd1.getFileSize - fd1.getOffset) = 0 := by
      simp only [getFileSize, getOffset, b2, b3]
      split <;> omega
    unfold isilonReadBuf.body
    simp only [getMode, b4, hmode, ne_eq, not_true_eq_false, if_false, getFileSize, getOffset,
      b2, b3, ge_iff_le, le_refl, not_true_eq_false]
    simp only [getFileSize, getOffset, b2, b3] at hto
    rw [hto]
    unfold isilonReadBuf.loop
    simp [b2]

/-- Witness of C8: a read of the whole 21 byte file with buffer size 8 issues three fetches,
of 8, 8 and 5 bytes. -/
theorem isilonReadBuf_never_fetches_zero_bytes_witness :
    fetchLengths (isilonReadBuf.body SimStore.api.traced 50 (sampleStore, [])
        (openedReadOnly "/zone/file" 8 21) (List.replicate 21 0) 21 0).nn.2 = [8, 8, 5]
      ∧ ∀ l ∈ fetchLengths (isilonReadBuf.body SimStore.api.traced 50 (sampleStore, [])
        (openedReadOnly "/zone/file" 8 21) (List.replicate 21 0) 21 0).nn.2, 1 ≤ l :=
  ⟨by decide,
    (isilonReadBuf_never_fetches_zero_bytes SimStore.api 50 sampleStore
      (openedReadOnly "/zone/file" 8 21) (List.replicate 21 0) 21 0 rfl).1⟩

/-! ### Write buffer engine: committed chunks -/

theorem memcpyInto_length (dst src : List Byte) (pos : Nat)
    (h : pos + src.length ≤ dst.length) : (memcpyInto dst pos src).length = dst.length := by
  simp only [memcpyInto, List.length_append, List.length_take, List.length_drop]
  omega

theorem memcpyInto_take (dst src : List Byte) (pos : Nat) (h : pos ≤ dst.length) :
    (memcpyInto dst pos src).take (pos + src.length) = dst.take pos ++ src := by
  have h1 : (dst.take pos ++ src).length = pos + src.length := by
    simp [List.length_take, Nat.min_eq_left h]
  unfold memcpyInto
  rw [← h1, List.take_left']
  rfl

theorem writeToBuff_ok (B : Nat) (fd : isilonFileDesc) (pending buf : List Byte) (bo n : Int)
    (hinv : WriteInv B fd pending) (hbo : 0 ≤ bo) (hn : 0 ≤ n)
    (hfit : (pending.length : Int) + n ≤ B) (hsrc : bo + n ≤ buf.length) :
    (fd.writeToBuff buf bo n).2 = Outcome.ok
      ∧ (fd.writeToBuff buf bo n).1 =
          { fd with
            buff := some (memcpyInto fd.allocBuff pending.length
                      ((buf.drop bo.toNat).take n.toNat)),
            buff_offset := pending.length + n.toNat } := by
  obtain ⟨h1, h2, h3, h4, h5, h6, h7, h8, h9⟩ := hinv
  unfold writeToBuff
  rw [if_neg (by simp [h1]), if_neg (by omega), if_neg (by rw [h5, h3]; omega),
    if_neg (by omega), h5]
  exact ⟨rfl, rfl⟩

theorem isilonWriteBuf_loop_iteration {σ : Type} (api : hdfs σ)
    (chunks : σ → List (List Byte)) (hapi : CommitsAppend api chunks) (buf : List Byte)
    (B : Nat) (hB : 1 ≤ B) (n : Nat) (nn : σ) (fd : isilonFileDesc) (bo len status : Int)
    (pending : List Byte) (hinv : WriteInv B fd pending) (hbo : 0 ≤ bo) (hlen : 0 < len)
    (hsrc : bo + len = buf.length) :
    ∃ (nn' : σ) (fd' : isilonFileDesc) (bo' len' status' : Int) (cs : List (List Byte))
      (pending' : List Byte),
      isilonWriteBuf.loop api buf (n + 1) nn fd bo len status
          = isilonWriteBuf.loop api buf n nn' fd' bo' len' status'
        ∧ WriteInv B fd' pending' ∧ chunks nn' = chunks nn ++ cs
        ∧ (∀ c ∈ cs, c.length = B)
        ∧ cs.flatten ++ pending' ++ buf.drop bo'.toNat = pending ++ buf.drop bo.toNat
        ∧ 0 ≤ bo' ∧ 0 ≤ len' ∧ len' < len ∧ bo' + len' = buf.length
        ∧ fd'.offset + len' = fd.offset + len := by
  have hinv' := hinv
  obtain ⟨h1, h2, h3, h4, h5, h6, h7, h8, h9⟩ := hinv
  have hgs : fd.getBuffSize = (B : Int) := by simp [getBuffSize, h2, h3]
  have hgo : (fd.getBuffOffset : Int) = (pending.length : Int) := by simp [getBuffOffset, h5]
  have hne : ¬ len = 0 := by omega
  rw [isilonWriteBuf.loop]
  simp only [hne, if_false]
  by_cases hA : len ≥ fd.getBuffSize ∧ (fd.getBuffOffset : Int) = 0
  · -- bypass
    have hp : pending = [] := by
      have : pending.length = 0 := by omega
      exact List.length_eq_zero.mp this
    have hst : isilonWriteBuf.step fd buf bo len
        = { fd := fd, result := Outcome.ok, wbuff := some (buf.drop bo.toNat),
            buf_offset := bo + fd.getBuffSize, bytes_added := fd.getBuffSize,
            len := len - fd.getBuffSize } := by
      simp only [isilonWriteBuf.step, hA, and_self, if_true]
    rw [hst]
    have hdl : ((buf.drop bo.toNat).length : Int) = len := by
      rw [List.length_drop]; omega
    obtain ⟨c1, c2⟩ := hapi.1 nn fd.getPath (buf.drop bo.toNat) fd.getBuffSize (by omega)
      (by omega)
    simp only [getLastBlock, h2, ne_eq, not_true_eq_false, if_false, c1, Option.isSome_none,
      Bool.false_eq_true, isilonWriteBuf_release_none fd h2]
    refine ⟨_, _, _, _, _, [(buf.drop bo.toNat).take B], [], rfl, ?_, ?_, ?_, ?_, ?_, ?_, ?_,
      ?_, ?_⟩
    · subst hp
      exact ⟨h1, h2, h3, by simp [setFileSize, setOffset, getOffset], h5, h6, h7, h8, h9⟩
    · rw [c2, hgs]; simp
    · intro c hc
      have : c = (buf.drop bo.toNat).take B := by simpa using hc
      rw [this, List.length_take]; omega
    · subst hp
      simp only [List.flatten_cons, List.flatten_nil, List.append_nil, List.nil_append]
      have : (bo + fd.getBuffSize).toNat = bo.toNat + B := by omega
      rw [this, ← List.drop_drop, List.take_append_drop]
    · omega
    · omega
    · omega
    · omega
    · simp only [setFileSize, setOffset, getOffset]; omega
  · by_cases hBc : fd.getBuffSize - (fd.getBuffOffset : Int) > len
    · -- plain buffering
      obtain ⟨w1, w2⟩ := writeToBuff_ok B fd pending buf bo len hinv' hbo (by omega)
        (by omega) (by omega)
      have hst : isilonWriteBuf.step fd buf bo len
          = { fd := (fd.writeToBuff buf bo len).1, result := (fd.writeToBuff buf bo len).2,
              wbuff := none, buf_offset := bo + len, bytes_added := len, len := 0 } := by
        simp only [isilonWriteBuf.step, hA, if_false, hBc, if_true]
      rw [hst]
      simp only [w1, ne_eq, not_true_eq_false, if_false]
      refine ⟨_, _, _, _, _, [], pending ++ (buf.drop bo.toNat).take len.toNat, rfl, ?_, ?_,
        ?_, ?_, ?_, ?_, ?_, ?_, ?_⟩
      · rw [w2]
        have hl : ((buf.drop bo.toNat).take len.toNat).length = len.toNat := by
          rw [List.length_take, List.length_drop]; omega
        refine ⟨h1, h2, h3, by simp [setFileSize, setOffset, getOffset], ?_, ?_, ?_, ?_, ?_⟩
        · simp [setFileSize, setOffset, hl]
        · simp only [List.length_append, hl]; omega
        · show (memcpyInto fd.allocBuff pending.length
              ((buf.drop bo.toNat).take len.toNat)).length = B
          rw [memcpyInto_length _ _ _ (by rw [hl, h7]; omega)]
          exact h7
        · show (memcpyInto fd.allocBuff pending.length
              ((buf.drop bo.toNat).take len.toNat)).take
                (pending ++ (buf.drop bo.toNat).take len.toNat).length = _
          rw [List.length_append, memcpyInto_take _ _ _ (by omega), h8]
        · intro _; rfl
      · simp
      · simp
      · simp only [List.flatten_nil, List.nil_append, List.append_assoc]
        have : (bo + len).toNat = bo.toNat + len.toNat := by omega
        rw [this, ← List.drop_drop, List.take_append_drop]
      · omega
      · omega
      · omega
      · omega
      · rw [w2]; simp only [setFileSize, setOffset, getOffset]; omega
    · -- fill up the buffer and flush
      have havail : (0 : Int) ≤ fd.getBuffSize - (fd.getBuffOffset : Int) := by omega
      obtain ⟨w1, w2⟩ := writeToBuff_ok B fd pending buf bo
        (fd.getBuffSize - (fd.getBuffOffset : Int)) hinv' hbo havail (by omega) (by omega)
      have hl : ((buf.drop bo.toNat).take (fd.getBuffSize - (fd.getBuffOffset : Int)).toNat).length
          = B - pending.length := by
        rw [List.length_take, List.length_drop]; omega
      have hX : memcpyInto fd.allocBuff pending.length
            ((buf.drop bo.toNat).take (fd.getBuffSize - (fd.getBuffOffset : Int)).toNat)
          = pending
            ++ (buf.drop bo.toNat).take (fd.getBuffSize - (fd.getBuffOffset : Int)).toNat := by
        have hd : fd.allocBuff.drop (pending.length + (B - pending.length)) = [] :=
          List.drop_eq_nil_of_le (by omega)
        unfold memcpyInto
        rw [h8, hl, hd, List.append_nil]
      rw [hX] at w2
      have hst : isilonWriteBuf.step fd buf bo len
          = { fd := { fd with
                      buff := some (pending ++ (buf.drop bo.toNat).take
                                (fd.getBuffSize - (fd.getBuffOffset : Int)).toNat),
                      buff_offset := 0 },
              result := Outcome.ok,
              wbuff := some (pending ++ (buf.drop bo.toNat).take
                                (fd.getBuffSize - (fd.getBuffOffset : Int)).toNat),
              buf_offset := bo + (fd.getBuffSize - (fd.getBuffOffset : Int)),
              bytes_added := fd.getBuffSize - (fd.getBuffOffset : Int),
              len := len - (fd.getBuffSize - (fd.getBuffOffset : Int)) } := by
        unfold isilonWriteBuf.step
        simp only []
        rw [if_neg hA, if_neg hBc, if_neg (by simp [w1])]
        simp only [w2, flushBuff, h1, reduceCtorEq, if_false, if_true]
      rw [hst]
      have hXl : ((pending ++ (buf.drop bo.toNat).take
          (fd.getBuffSize - (fd.getBuffOffset : Int)).toNat).length : Int) = B := by
        rw [List.length_append, hl]; omega
      obtain ⟨c1, c2⟩ := hapi.1 nn fd.getPath
        (pending ++ (buf.drop bo.toNat).take (fd.getBuffSize - (fd.getBuffOffset : Int)).toNat)
        fd.getBuffSize (by omega) (by omega)
      have hrel := isilonWriteBuf_release_none
        { fd with
          buff := some (pending ++ (buf.drop bo.toNat).take
                    (fd.getBuffSize - (fd.getBuffOffset : Int)).toNat),
          buff_offset := 0 } h2
      simp only [getLastBlock, getPath, h2, ne_eq, not_true_eq_false, if_false,
        Option.isSome_none, Bool.false_eq_true] at c1 c2 hrel ⊢
      simp only [c1, not_true_eq_false, if_false, hrel]
      refine ⟨_, _, _, _, _,
        [pending ++ (buf.drop bo.toNat).take (fd.getBuffSize - (fd.getBuffOffset : Int)).toNat],
        [], rfl, ?_, ?_, ?_, ?_, ?_, ?_, ?_, ?_, ?_⟩
      · refine ⟨h1, rfl, h3, by simp [setFileSize, setOffset, getOffset], rfl, by simp; omega,
          ?_, rfl, by simp⟩
        show (pending ++ (buf.drop bo.toNat).take
          (fd.getBuffSize - (fd.getBuffOffset : Int)).toNat).length = B
        omega
      · rw [c2]
        congr 2
        apply List.take_of_length_le
        omega
      · intro c hc
        have : c = pending ++ (buf.drop bo.toNat).take
            (fd.getBuffSize - (fd.getBuffOffset : Int)).toNat := by simpa using hc
        rw [this]; omega
      · simp only [List.flatten_cons, List.flatten_nil, List.append_nil, List.append_assoc]
        have : (bo + (fd.getBuffSize - (fd.getBuffOffset : Int))).toNat
            = bo.toNat + (fd.getBuffSize - (fd.getBuffOffset : Int)).toNat := by omega
        rw [this, ← List.drop_drop, List.take_append_drop]
      · omega
      · omega
      · omega
      · omega
      · simp only [setFileSize, setOffset, getOffset]; omega

theorem isilonWriteBuf_loop_chunks {σ : Type} (api : hdfs σ)
    (chunks : σ → List (List Byte)) (hapi : CommitsAppend api chunks) (buf : List Byte)
    (B : Nat) (hB : 1 ≤ B) :
    ∀ (fuel : Nat) (nn : σ) (fd : isilonFileDesc) (bo len status : Int) (pending : List Byte),
      WriteInv B fd pending → 0 ≤ bo → 0 ≤ len → bo + len = buf.length → len.toNat ≤ fuel →
      ∃ (cs : List (List Byte)) (pending' : List Byte),
        (isilonWriteBuf.loop api buf fuel nn fd bo len status).result = Outcome.ok
          ∧ WriteInv B (isilonWriteBuf.loop api buf fuel nn fd bo len status).fd pending'
          ∧ chunks (isilonWriteBuf.loop api buf fuel nn fd bo len status).nn = chunks nn ++ cs
          ∧ (∀ c ∈ cs, c.length = B)
          ∧ cs.flatten ++ pending' = pending ++ buf.drop bo.toNat
          ∧ (isilonWriteBuf.loop api buf fuel nn fd bo len status).fd.offset
              = fd.offset + len := by
  have hzero : ∀ (fuel : Nat) (nn : σ) (fd : isilonFileDesc) (bo status : Int)
      (pending : List Byte), WriteInv B fd pending → 0 ≤ bo → bo + 0 = buf.length →
      ∃ (cs : List (List Byte)) (pending' : List Byte),
        (isilonWriteBuf.loop api buf fuel nn fd bo 0 status).result = Outcome.ok
          ∧ WriteInv B (isilonWriteBuf.loop api buf fuel nn fd bo 0 status).fd pending'
          ∧ chunks (isilonWriteBuf.loop api buf fuel nn fd bo 0 status).nn = chunks nn ++ cs
          ∧ (∀ c ∈ cs, c.length = B)
          ∧ cs.flatten ++ pending' = pending ++ buf.drop bo.toNat
          ∧ (isilonWriteBuf.loop api buf fuel nn fd bo 0 status).fd.offset = fd.offset + 0 := by
    intro fuel nn fd bo status pending hinv hbo hsrc
    have hd : buf.drop bo.toNat = [] := List.drop_eq_nil_of_le (by omega)
    have e : isilonWriteBuf.loop api buf fuel nn fd bo 0 status
        = { nn := nn, fd := fd, result := Outcome.ok, status := status } := by
      unfold isilonWriteBuf.loop
      simp
    rw [e]
    exact ⟨[], pending, rfl, hinv, by simp, by simp, by simp [hd], by simp⟩
  intro fuel
  induction fuel with
  | zero =>
    intro nn fd bo len status pending hinv hbo hlen hsrc hfuel
    have : len = 0 := by omega
    subst this
    exact hzero 0 nn fd bo status pending hinv hbo hsrc
  | succ n ih =>
    intro nn fd bo len status pending hinv hbo hlen hsrc hfuel
    by_cases hl0 : len = 0
    · subst hl0
      exact hzero (n + 1) nn fd bo status pending hinv hbo hsrc
    · obtain ⟨nn', fd', bo', len', status', cs, pending', e, i1, i2, i3, i4, i5, i6, i7, i8, i9⟩ :=
        isilonWriteBuf_loop_iteration api chunks hapi buf B hB n nn fd bo len status pending
          hinv hbo (by omega) hsrc
      obtain ⟨cs2, pending2, r1, r2, r3, r4, r5, r6⟩ :=
        ih nn' fd' bo' len' status' pending' i1 i5 i6 i8 (by omega)
      rw [e]
      refine ⟨cs ++ cs2, pending2, r1, r2, ?_, ?_, ?_, ?_⟩
      · rw [r3, i2, List.append_assoc]
      · intro c hc
        rcases List.mem_append.mp hc with h | h
        · exact i3 c h
        · exact r4 c h
      · rw [List.flatten_append, List.append_assoc, r5, ← List.append_assoc, i4]
      · rw [r6]; omega

theorem isilonWriteBuf_body_chunks {σ : Type} (api : hdfs σ)
    (chunks : σ → List (List Byte)) (hapi : CommitsAppend api chunks) (B : Nat) (hB : 1 ≤ B)
    (fuel : Nat) (nn : σ) (fd : isilonFileDesc) (data : List Byte) (status : Int)
    (pending : List Byte) (hinv : WriteInv B fd pending) (hfuel : data.length ≤ fuel) :
    ∃ (cs : List (List Byte)) (pending' : List Byte),
      (isilonWriteBuf.body api fuel nn fd data data.length status).result = Outcome.ok
        ∧ WriteInv B (isilonWriteBuf.body api fuel nn fd data data.length status).fd pending'
        ∧ chunks (isilonWriteBuf.body api fuel nn fd data data.length status).nn
            = chunks nn ++ cs
        ∧ (∀ c ∈ cs, c.length = B)
        ∧ cs.flatten ++ pending' = pending ++ data := by
  obtain ⟨cs, pending', r1, r2, r3, r4, r5, _⟩ :=
    isilonWriteBuf_loop_chunks api chunks hapi data B hB fuel nn fd 0 data.length status
      pending hinv (le_refl _) (by omega) (by omega) (by omega)
  have hm : ¬ fd.getMode ≠ ISILON_MODE_WRITE := by simp [getMode, hinv.1]
  have hf : ¬ fd.getFileSize ≠ fd.getOffset := by
    simp [getFileSize, getOffset, hinv.2.2.2.1]
  unfold isilonWriteBuf.body
  rw [if_neg hm, if_neg hf]
  exact ⟨cs, pending', r1, r2, r3, r4, by simpa using r5⟩

theorem writeCalls_chunks {σ : Type} (api : hdfs σ)
    (chunks : σ → List (List Byte)) (hapi : CommitsAppend api chunks) (B : Nat) (hB : 1 ≤ B)
    (fuel : Nat) (datas : List (List Byte)) :
    ∀ (nn : σ) (fd : isilonFileDesc) (pending : List Byte), WriteInv B fd pending →
      (∀ d ∈ datas, d.length ≤ fuel) →
      ∃ (cs : List (List Byte)) (pending' : List Byte),
        (writeCalls api fuel nn fd datas).result = Outcome.ok
          ∧ WriteInv B (writeCalls api fuel nn fd datas).fd pending'
          ∧ chunks (writeCalls api fuel nn fd datas).nn = chunks nn ++ cs
          ∧ (∀ c ∈ cs, c.length = B)
          ∧ cs.flatten ++ pending' = pending ++ datas.flatten := by
  induction datas with
  | nil =>
    intro nn fd pending hinv _
    exact ⟨[], pending, rfl, hinv, by simp [writeCalls], by simp, by simp⟩
  | cons d ds ih =>
    intro nn fd pending hinv hfuel
    obtain ⟨cs, pending', r1, r2, r3, r4, r5⟩ :=
      isilonWriteBuf_body_chunks api chunks hapi B hB fuel nn fd d 0 pending hinv
        (hfuel d (List.mem_cons_self _ _))
    obtain ⟨cs2, pending2, q1, q2, q3, q4, q5⟩ :=
      ih (isilonWriteBuf.body api fuel nn fd d d.length 0).nn
        (isilonWriteBuf.body api fuel nn fd d d.length 0).fd pending' r2
        (fun x hx => hfuel x (List.mem_cons_of_mem _ hx))
    unfold writeCalls
    rw [if_neg (by simp [r1])]
    refine ⟨cs ++ cs2, pending2, q1, q2, ?_, ?_, ?_⟩
    · rw [q3, r3, List.append_assoc]
    · intro c hc
      rcases List.mem_append.mp hc with h | h
      · exact r4 c h
      · exact q4 c h
    · rw [List.flatten_append, List.append_assoc, q5, ← List.append_assoc, r5,
        List.flatten_cons, List.append_assoc]

theorem isilonCloseFile_body_chunks {σ : Type} (api : hdfs σ)
    (chunks : σ → List (List Byte)) (hapi : CommitsAppend api chunks) (B : Nat)
    (nn : σ) (path : String) (fd : isilonFileDesc) (pending : List Byte)
    (hinv : WriteInv B fd pending) :
    (isilonCloseFile.body api nn (char_ptr.live path) fd).result = Outcome.ok
      ∧ chunks (isilonCloseFile.body api nn (char_ptr.live path) fd).nn
          = chunks nn ++ (if pending = [] then [] else [pending]) := by
  obtain ⟨h1, h2, h3, h4, h5, h6, h7, h8, h9⟩ := hinv
  unfold isilonCloseFile.body
  simp only [getMode, h1, if_true, getBuffOffset, h5]
  by_cases hp : pending = []
  · subst hp
    obtain ⟨c1, c2⟩ := hapi.2 nn path
    simp only [List.length_nil, Nat.cast_zero, ne_eq, not_true_eq_false, if_false, if_true]
    generalize api.complete nn path = r at *
    obtain ⟨nn1, a⟩ := r
    simp only at c1 c2
    subst c1
    simp [c2]
  · have hk : ¬ ((pending.length : Int) = 0) := by
      have : pending.length ≠ 0 := fun h => hp (List.length_eq_zero.mp h)
      omega
    obtain ⟨b, hb⟩ := Option.isSome_iff_exists.mp (h9 hp)
    have hab : fd.allocBuff = b := by simp [allocBuff, hb]
    rw [hab] at h7 h8
    obtain ⟨c1, c2⟩ := hapi.1 nn path b (pending.length : Int) (by omega)
      (by rw [h7]; omega)
    simp only [ne_eq, hk, not_false_eq_true, if_true, flushBuff, h1, reduceCtorEq, if_false,
      hb, getLastBlock, h2, c1, not_true_eq_false, isilonWriteBuf_release_none fd h2]
    obtain ⟨d1, d2⟩ := hapi.2 (isilonCommitBufferToHDFS api nn (char_ptr.live path) (some b)
      (pending.length : Int) none).nn path
    generalize api.complete (isilonCommitBufferToHDFS api nn (char_ptr.live path) (some b)
      (pending.length : Int) none).nn path = r at *
    obtain ⟨nn1, a⟩ := r
    simp only at d1 d2
    subst d1
    simp [d2, c2, hp, h8]

theorem isilonCloseFile_body_dangling {σ : Type} (api : hdfs σ) (nn : σ)
    (fd : isilonFileDesc) (h : fd.mode = ISILON_MODE_WRITE) :
    (isilonCloseFile.body api nn char_ptr.dangling fd).result = Outcome.undefined := by
  obtain ⟨o, p, m, bf, bs, bo, fs, lb⟩ := fd
  simp only at h
  subst h
  unfold isilonCloseFile.body
  by_cases hk : ((bo : Nat) : Int) = 0
  · simp [getMode, getBuffOffset, hk]
  · cases lb with
    | none =>
      simp [getMode, getBuffOffset, hk, flushBuff, getLastBlock, isilonCommitBufferToHDFS,
        isilonWriteBuf.release]
    | some b =>
      simp [getMode, getBuffOffset, hk, flushBuff, getLastBlock, isilonWriteBuf.release,
        releaseLastBlock]

theorem committedChunks_append (a b : List hdfs_call) :
    committedChunks (a ++ b) = committedChunks a ++ committedChunks b := by
  simp [committedChunks, List.filterMap_append]

theorem hdfs_traced_commitsAppend {σ : Type} (api : hdfs σ) (hs : api.Succeeds) :
    CommitsAppend api.traced (fun s => committedChunks s.2) := by
  obtain ⟨s1, s2, s3, s4⟩ := hs
  constructor
  · intro nn path bytes len h0 h1
    obtain ⟨b, hb⟩ := s1 nn.1 path
    have hn := s2 (api.addBlock nn.1 path).1 b
    have hw := s3 (api.datanode_new (api.addBlock nn.1 path).1 b).1 b (bytes.take len.toNat)
    have hlt : ¬ (len < 0 ∨ (bytes.length : Int) < len) := by omega
    simp [isilonCommitBufferToHDFS, isilonCommitBufferToHDFS.block, hdfs.traced, hb, hn, hw,
      hlt, committedChunks_append, committedChunks]
  · intro nn path
    simp [hdfs.traced, s4, committedChunks_append, committedChunks]

theorem WriteInv_new (path : String) (B : Nat) (hB : 1 ≤ B) :
    WriteInv B (isilonFileDesc.new ISILON_MODE_WRITE path B none) [] := by
  refine ⟨rfl, rfl, rfl, rfl, rfl, by simpa using hB, ?_, rfl, by simp⟩
  simp [isilonFileDesc.new, allocBuff]

/-- C2 (the defect): the close that follows the write calls is undefined.  On a fresh
write-mode descriptor without pending last block and with buffer size `B ≥ 1`, for every
sequence of write calls against every remote client whose calls all succeed: the write
calls succeed, every chunk committed during them has length exactly `B`, and the committed
chunks, concatenated in order, followed by the fewer than `B` bytes that are still in the
buffer, are the data of the write calls.  The close that follows reads the path of the
file through the pointer `path`, which dangles since its declaration (`hdfs_addBlock` for
the commit of the buffered bytes, `hdfs_complete` when the buffer is empty): its outcome is
undefined, so the one further chunk is not committed by defined behaviour. -/
theorem write_calls_commit_full_blocks_close_undefined {σ : Type} (api : hdfs σ) (nn : σ)
    (path : String) (B : Nat) (datas : List (List Byte)) (fuel : Nat)
    (hs : api.Succeeds) (hB : 1 ≤ B) (hfuel : ∀ d ∈ datas, d.length ≤ fuel) :
    (writeCalls api.traced fuel (nn, [])
        (isilonFileDesc.new ISILON_MODE_WRITE path B none) datas).result = Outcome.ok
      ∧ (∀ chunk ∈ committedChunks
            (writeCalls api.traced fuel (nn, [])
              (isilonFileDesc.new ISILON_MODE_WRITE path B none) datas).nn.2,
          chunk.length = B)
      ∧ (∃ pending : List Byte,
          (committedChunks (writeCalls api.traced fuel (nn, [])
              (isilonFileDesc.new ISILON_MODE_WRITE path B none) datas).nn.2).flatten
              ++ pending = datas.flatten
            ∧ pending.length < B
            ∧ (writeCalls api.traced fuel (nn, [])
                (isilonFileDesc.new ISILON_MODE_WRITE path B none) datas).fd.buff_offset
                = pending.length)
      ∧ (isilonCloseFile.body api.traced
          (writeCalls api.traced fuel (nn, [])
            (isilonFileDesc.new ISILON_MODE_WRITE path B none) datas).nn
          char_ptr.dangling
          (writeCalls api.traced fuel (nn, [])
            (isilonFileDesc.new ISILON_MODE_WRITE path B none) datas).fd).result
          = Outcome.undefined := by
  have hapi := hdfs_traced_commitsAppend api hs
  obtain ⟨cs, pending, r1, r2, r3, r4, r5⟩ :=
    writeCalls_chunks api.traced (fun s => committedChunks s.2) hapi B hB fuel datas (nn, [])
      (isilonFileDesc.new ISILON_MODE_WRITE path B none) [] (WriteInv_new path B hB) hfuel
  have hcs : committedChunks (writeCalls api.traced fuel (nn, [])
      (isilonFileDesc.new ISILON_MODE_WRITE path B none) datas).nn.2 = cs := by
    simpa [committedChunks] using r3
  refine ⟨r1, ?_, ⟨pending, ?_, r2.2.2.2.2.2.1, r2.2.2.2.2.1⟩,
    isilonCloseFile_body_dangling _ _ _ r2.1⟩
  · rw [hcs]; exact r4
  · rw [hcs]
    simpa using r5

/-- Witness of C2's defect: writes of 5, 7 and 9 bytes with buffer size 8 against the
simulated store commit two chunks of 8 bytes and leave 5 bytes in the buffer; the close is
undefined. -/
theorem write_calls_commit_full_blocks_close_undefined_witness :
    committedChunks (writeCalls SimStore.api.traced 9 ({ blocks := [] }, [])
        (isilonFileDesc.new ISILON_MODE_WRITE "/zone/file" 8 none)
        [List.range 5, List.range 7, List.range 9]).nn.2
      = [[0, 1, 2, 3, 4, 0, 1, 2], [3, 4, 5, 6, 0, 1, 2, 3]]
    ∧ (writeCalls SimStore.api.traced 9 ({ blocks := [] }, [])
        (isilonFileDesc.new ISILON_MODE_WRITE "/zone/file" 8 none)
        [List.range 5, List.range 7, List.range 9]).fd.buff_offset = 5
    ∧ (isilonCloseFile.body SimStore.api.traced
        (writeCalls SimStore.api.traced 9 ({ blocks := [] }, [])
          (isilonFileDesc.new ISILON_MODE_WRITE "/zone/file" 8 none)
          [List.range 5, List.range 7, List.range 9]).nn
        char_ptr.dangling
        (writeCalls SimStore.api.traced 9 ({ blocks := [] }, [])
          (isilonFileDesc.new ISILON_MODE_WRITE "/zone/file" 8 none)
          [List.range 5, List.range 7, List.range 9]).fd).result = Outcome.undefined :=
  ⟨by decide, by decide,
    (write_calls_commit_full_blocks_close_undefined SimStore.api { blocks := [] }
      "/zone/file" 8 [List.range 5, List.range 7, List.range 9] 9
      ⟨fun _ _ => ⟨_, rfl⟩, fun _ _ => rfl, fun _ _ _ => rfl, fun _ _ => rfl⟩
      (by decide) (by decide)).2.2.2⟩

/-! ### Read buffer engine: delivered bytes -/

theorem allocBuff_with_buff (offset : Int) (path : String) (mode : isilonFileMode)
    (b : List Byte) (buff_size buff_offset : Nat) (file_size : Int)
    (last_block : Option located_block) :
    (isilonFileDesc.mk offset path mode (some b) buff_size buff_offset file_size
      last_block).allocBuff = b := rfl

/-- The bytes that the buffer serves next are the bytes of the file at the offset. -/
theorem ReadInv_buffer_front (path : String) (B : Nat) (content : List Byte)
    (fd : isilonFileDesc) (hinv : ReadInv path B content fd) (t : Nat)
    (ht : t ≤ fd.buff_offset) (hfile : fd.offset.toNat + t ≤ content.length) :
    (fd.allocBuff.drop (B - fd.buff_offset)).take t = (content.drop fd.offset.toNat).take t := by
  obtain ⟨h1, h2, h3, hp, h4, h5, h6, h7, h8, h9⟩ := hinv
  by_cases hk : 0 < fd.buff_offset
  · obtain ⟨v1, v2⟩ := h9 hk
    have e := congrArg (fun l => (l.drop (B - fd.buff_offset)).take t) v2
    simp only [List.drop_take, List.take_take, List.drop_drop] at e
    have a1 : min t (content.length - (fd.offset.toNat - (B - fd.buff_offset))
        - (B - fd.buff_offset)) = t := by omega
    have a2 : min t (B - (B - fd.buff_offset)) = t := by omega
    have a3 : fd.offset.toNat - (B - fd.buff_offset) + (B - fd.buff_offset)
        = fd.offset.toNat := by omega
    rw [a1, a2, a3] at e
    exact e
  · have : t = 0 := by omega
    subst this
    simp

theorem readFromBuff_ok (path : String) (B : Nat) (content : List Byte) (fd : isilonFileDesc)
    (buf : List Byte) (bo n : Int) (hinv : ReadInv path B content fd) (hbo : 0 ≤ bo)
    (hn : 0 ≤ n) (hk : n ≤ fd.buff_offset) (hdst : bo + n ≤ buf.length) :
    (fd.readFromBuff buf bo n).2.1 = Outcome.ok
      ∧ (fd.readFromBuff buf bo n).1 =
          { fd with buff := some fd.allocBuff, buff_offset := fd.buff_offset - n.toNat }
      ∧ (fd.readFromBuff buf bo n).2.2
          = memcpyInto buf bo.toNat ((fd.allocBuff.drop (B - fd.buff_offset)).take n.toNat) := by
  obtain ⟨h1, h2, h3, hp, h4, h5, h6, h7, h8, h9⟩ := hinv
  unfold readFromBuff
  rw [if_neg (by simp [h1]), if_neg (by omega), if_neg (by omega), if_neg (by omega), h3]
  exact ⟨rfl, rfl, rfl⟩

theorem isilonReadBuf_loop_iteration {σ : Type} (api : hdfs σ) (path : String)
    (content : List Byte) (Inv : σ → Prop) (hf : FetchesContent api path content Inv)
    (B : Nat) (hB : 1 ≤ B) (n : Nat) (nn : σ) (fd : isilonFileDesc) (buf : List Byte)
    (bo to_read status : Int) (hinv : ReadInv path B content fd) (hnn : Inv nn)
    (hbo : 0 ≤ bo) (hto : 0 < to_read) (hfile : fd.offset + to_read ≤ content.length)
    (hdst : bo + to_read ≤ buf.length) :
    ∃ (nn' : σ) (fd' : isilonFileDesc) (buf' : List Byte) (bo' to_read' status' : Int),
      isilonReadBuf.loop api B (n + 1) nn fd buf bo to_read status
          = isilonReadBuf.loop api B n nn' fd' buf' bo' to_read' status'
        ∧ ReadInv path B content fd' ∧ Inv nn' ∧ bo ≤ bo' ∧ 0 ≤ to_read'
        ∧ fd'.offset + to_read' = fd.offset + to_read ∧ bo' + to_read' = bo + to_read
        ∧ buf'.length = buf.length
        ∧ buf'.take bo'.toNat
            = buf.take bo.toNat ++ (content.drop fd.offset.toNat).take (bo' - bo).toNat
        ∧ 2 * to_read'.toNat + (if fd'.buff_offset = 0 then 1 else 0)
            < 2 * to_read.toNat + (if fd.buff_offset = 0 then 1 else 0) := by
  have hinv' := hinv
  obtain ⟨h1, h2, h3, hp, h4, h5, h6, h7, h8, h9⟩ := hinv
  have hgo : (fd.getBuffOffset : Int) = (fd.buff_offset : Int) := rfl
  have hne : ¬ to_read = 0 := by omega
  rw [isilonReadBuf.loop]
  simp only [hne, if_false]
  by_cases hA : to_read ≥ (B : Int) ∧ (fd.getBuffOffset : Int) = 0
  · -- bypass: fetch `B` bytes straight to the caller's buffer
    have hk : fd.buff_offset = 0 := by omega
    have hst : isilonReadBuf.step B fd buf bo to_read
        = { fd := fd, result := Outcome.ok, buf := buf, rbuff := rbuffPtr.caller bo,
            buf_offset := bo + B, bytes_taken := B, to_read := to_read - B } := by
      simp only [isilonReadBuf.step, hA, and_self, if_true]
    rw [hst]
    have hfo : isilonReadBuf.fetchOffset
        { fd := fd, result := Outcome.ok, buf := buf, rbuff := rbuffPtr.caller bo,
          buf_offset := bo + B, bytes_taken := B, to_read := to_read - B } = fd.offset := by
      simp [isilonReadBuf.fetchOffset, getBuffOffset, hk, getOffset]
    have htg : isilonReadBuf.to_get B
        { fd := fd, result := Outcome.ok, buf := buf, rbuff := rbuffPtr.caller bo,
          buf_offset := bo + B, bytes_taken := B, to_read := to_read - B } = B := by
      simp only [isilonReadBuf.to_get, hfo, getFileSize, h4]
      split <;> omega
    obtain ⟨g1, g2, g3⟩ := hf nn buf bo fd.offset B hnn hbo h5 (by omega) (by omega) (by omega)
    have hfill : isilonReadBuf.fill api B nn
        { fd := fd, result := Outcome.ok, buf := buf, rbuff := rbuffPtr.caller bo,
          buf_offset := bo + B, bytes_taken := B, to_read := to_read - B } status
        = { nn := (isilonFillBufferFromHDFS api nn path buf bo fd.offset B).nn, fd := fd,
            buf := memcpyInto buf bo.toNat ((content.drop fd.offset.toNat).take B),
            result := Outcome.ok,
            status := (isilonFillBufferFromHDFS api nn path buf bo fd.offset B).status } := by
      have hB' : ¬ ((B : Int) = 0) := by omega
      simp only [isilonReadBuf.fill, hfo, htg, ne_eq, hB', not_false_eq_true, if_true,
        getPath, hp, g1, g2, Int.toNat_ofNat]
    rw [hfill]
    simp only [ne_eq, not_true_eq_false, if_false]
    have hpl : ((content.drop fd.offset.toNat).take B).length = B := by
      rw [List.length_take, List.length_drop]; omega
    refine ⟨_, _, _, _, _, _, rfl, ?_, g3, by omega, by omega, ?_, by omega, ?_, ?_, ?_⟩
    · refine ⟨h1, h2, h3, hp, h4, ?_, ?_, h7, h8, ?_⟩
      · simp only [setOffset, getOffset]; omega
      · simp only [setOffset, getOffset]; omega
      · intro hk'
        simp only [setOffset] at hk'
        omega
    · simp only [setOffset, getOffset]; omega
    · exact memcpyInto_length _ _ _ (by rw [hpl]; omega)
    · have e1 : (bo + (B : Int)).toNat = bo.toNat + ((content.drop fd.offset.toNat).take B).length := by
        rw [hpl]; omega
      have e2 : (bo + (B : Int) - bo).toNat = B := by omega
      rw [e1, memcpyInto_take _ _ _ (by omega), e2]
    · simp only [setOffset, hk, if_true]
      omega
  · by_cases hBc : (fd.getBuffOffset : Int) > to_read
    · -- serve the whole request from the buffer
      obtain ⟨w1, w2, w3⟩ := readFromBuff_ok path B content fd buf bo to_read hinv' hbo
        (by omega) (by omega) hdst
      have hfront := ReadInv_buffer_front path B content fd hinv' to_read.toNat (by omega)
        (by omega)
      rw [hfront] at w3
      have hst : isilonReadBuf.step B fd buf bo to_read
          = { fd := { fd with buff := some fd.allocBuff,
                              buff_offset := fd.buff_offset - to_read.toNat },
              result := Outcome.ok,
              buf := memcpyInto buf bo.toNat ((content.drop fd.offset.toNat).take to_read.toNat),
              rbuff := rbuffPtr.null, buf_offset := bo + to_read, bytes_taken := to_read,
              to_read := 0 } := by
        unfold isilonReadBuf.step
        simp only []
        rw [if_neg hA, if_pos hBc, w1, w2, w3]
      rw [hst]
      simp only [isilonReadBuf.fill, ne_eq, not_true_eq_false, if_false]
      have hpl : ((content.drop fd.offset.toNat).take to_read.toNat).length = to_read.toNat := by
        rw [List.length_take, List.length_drop]; omega
      refine ⟨_, _, _, _, _, _, rfl, ?_, hnn, by omega, le_refl _, ?_, by omega, ?_, ?_, ?_⟩
      · have hk : 0 < fd.buff_offset := by omega
        obtain ⟨v1, v2⟩ := h9 hk
        refine ⟨h1, h2, h3, hp, h4, ?_, ?_, ?_, h8, ?_⟩
        · simp only [setOffset, getOffset]; omega
        · simp only [setOffset, getOffset]; omega
        · show fd.buff_offset - to_read.toNat ≤ B
          omega
        · intro _
          show B - (fd.buff_offset - to_read.toNat) ≤ (fd.offset + to_read).toNat
            ∧ fd.allocBuff.take (content.length
                  - ((fd.offset + to_read).toNat - (B - (fd.buff_offset - to_read.toNat))))
                = (content.drop ((fd.offset + to_read).toNat
                    - (B - (fd.buff_offset - to_read.toNat)))).take B
          have e : (fd.offset + to_read).toNat - (B - (fd.buff_offset - to_read.toNat))
              = fd.offset.toNat - (B - fd.buff_offset) := by omega
          rw [e]
          exact ⟨by omega, v2⟩
      · simp only [setOffset, getOffset]; omega
      · exact memcpyInto_length _ _ _ (by rw [hpl]; omega)
      · have e1 : (bo + to_read).toNat
            = bo.toNat + ((content.drop fd.offset.toNat).take to_read.toNat).length := by
          rw [hpl]; omega
        have e2 : (bo + to_read - bo).toNat = to_read.toNat := by omega
        rw [e1, memcpyInto_take _ _ _ (by omega), e2]
      · simp only [setOffset, Int.toNat_zero, Nat.mul_zero, Nat.zero_add]
        have : ¬ (fd.buff_offset - to_read.toNat = 0) := by omega
        have hk0 : ¬ (fd.buff_offset = 0) := by omega
        simp only [this, hk0, if_false]
        omega
    · -- drain the buffer, flush it and refill it from the file
      have hkle : (fd.buff_offset : Int) ≤ to_read := by omega
      obtain ⟨w1, w2, w3⟩ := readFromBuff_ok path B content fd buf bo (fd.getBuffOffset : Int)
        hinv' hbo (by omega) (by omega) (by omega)
      have hfront := ReadInv_buffer_front path B content fd hinv' fd.buff_offset (le_refl _)
        (by omega)
      have hkn : ((fd.getBuffOffset : Int)).toNat = fd.buff_offset := by simp [getBuffOffset]
      rw [hkn] at w2 w3
      rw [hfront] at w3
      rw [Nat.sub_self] at w2
      have hst : isilonReadBuf.step B fd buf bo to_read
          = { fd := { fd with buff := some fd.allocBuff, buff_offset := B },
              result := Outcome.ok,
              buf := memcpyInto buf bo.toNat
                      ((content.drop fd.offset.toNat).take fd.buff_offset),
              rbuff := rbuffPtr.own, buf_offset := bo + (fd.getBuffOffset : Int),
              bytes_taken := (fd.getBuffOffset : Int),
              to_read := to_read - (fd.getBuffOffset : Int) } := by
        unfold isilonReadBuf.step
        simp only []
        rw [if_neg hA, if_neg hBc, if_neg (by simp [w1]), w2, w3]
        simp only [flushBuff, h1, if_true, Option.isSome_some, h3]
      rw [hst]
      simp only [ne_eq, not_true_eq_false, if_false]
      have hfo : isilonReadBuf.fetchOffset
          { fd := { fd with buff := some fd.allocBuff, buff_offset := B },
            result := Outcome.ok,
            buf := memcpyInto buf bo.toNat
                    ((content.drop fd.offset.toNat).take fd.buff_offset),
            rbuff := rbuffPtr.own, buf_offset := bo + (fd.getBuffOffset : Int),
            bytes_taken := (fd.getBuffOffset : Int),
            to_read := to_read - (fd.getBuffOffset : Int) }
          = fd.offset + fd.buff_offset := by
        have hB0 : ¬ (B = 0) := by omega
        simp [isilonReadBuf.fetchOffset, getBuffOffset, getOffset, hB0]
      have htg : isilonReadBuf.to_get B
          { fd := { fd with buff := some fd.allocBuff, buff_offset := B },
            result := Outcome.ok,
            buf := memcpyInto buf bo.toNat
                    ((content.drop fd.offset.toNat).take fd.buff_offset),
            rbuff := rbuffPtr.own, buf_offset := bo + (fd.getBuffOffset : Int),
            bytes_taken := (fd.getBuffOffset : Int),
            to_read := to_read - (fd.getBuffOffset : Int) }
          = ((min B (content.length - (fd.offset.toNat + fd.buff_offset)) : Nat) : Int) := by
        unfold isilonReadBuf.to_get
        rw [hfo]
        simp only [getFileSize, h4]
        split <;> omega
      have hpl : ((content.drop fd.offset.toNat).take fd.buff_offset).length
          = fd.buff_offset := by
        rw [List.length_take, List.length_drop]; omega
      have hbuf1 : (memcpyInto buf bo.toNat
          ((content.drop fd.offset.toNat).take fd.buff_offset)).length = buf.length :=
        memcpyInto_length _ _ _ (by rw [hpl]; omega)
      have htake1 : (memcpyInto buf bo.toNat
            ((content.drop fd.offset.toNat).take fd.buff_offset)).take
              (bo + (fd.getBuffOffset : Int)).toNat
          = buf.take bo.toNat
            ++ (content.drop fd.offset.toNat).take
                (bo + (fd.getBuffOffset : Int) - bo).toNat := by
        have e1 : (bo + (fd.getBuffOffset : Int)).toNat
            = bo.toNat + ((content.drop fd.offset.toNat).take fd.buff_offset).length := by
          rw [hpl]; omega
        have e2 : (bo + (fd.getBuffOffset : Int) - bo).toNat = fd.buff_offset := by omega
        rw [e1, memcpyInto_take _ _ _ (by omega), e2]
      by_cases hg : min B (content.length - (fd.offset.toNat + fd.buff_offset)) = 0
      · -- nothing left in the file: no fetch
        have hfill : isilonReadBuf.fill api B nn
            { fd := { fd with buff := some fd.allocBuff, buff_offset := B },
              result := Outcome.ok,
              buf := memcpyInto buf bo.toNat
                      ((content.drop fd.offset.toNat).take fd.buff_offset),
              rbuff := rbuffPtr.own, buf_offset := bo + (fd.getBuffOffset : Int),
              bytes_taken := (fd.getBuffOffset : Int),
              to_read := to_read - (fd.getBuffOffset : Int) } status
            = { nn := nn, fd := { fd with buff := some fd.allocBuff, buff_offset := B },
                buf := memcpyInto buf bo.toNat
                        ((content.drop fd.offset.toNat).take fd.buff_offset),
                result := Outcome.ok, status := status } := by
          simp only [isilonReadBuf.fill, htg, hg, Nat.cast_zero, ne_eq, not_true_eq_false,
            if_false]
        rw [hfill]
        simp only [ne_eq, not_true_eq_false, if_false]
        refine ⟨_, _, _, _, _, _, rfl, ?_, hnn, by omega, by omega, ?_, by omega, hbuf1,
          htake1, ?_⟩
        · refine ⟨h1, h2, h3, hp, h4, ?_, ?_, le_refl _, h8, ?_⟩
          · simp only [setOffset, getOffset]; omega
          · simp only [setOffset, getOffset]; omega
          · intro _
            show B - B ≤ (fd.offset + (fd.getBuffOffset : Int)).toNat
              ∧ fd.allocBuff.take (content.length
                    - ((fd.offset + (fd.getBuffOffset : Int)).toNat - (B - B)))
                  = (content.drop ((fd.offset + (fd.getBuffOffset : Int)).toNat
                      - (B - B))).take B
            have e : (fd.offset + (fd.getBuffOffset : Int)).toNat - (B - B)
                = content.length := by omega
            rw [e, Nat.sub_self, List.drop_eq_nil_of_le (le_refl _)]
            simp
        · simp only [setOffset, getOffset]; omega
        · have hB0 : ¬ (B = 0) := by omega
          simp only [setOffset, hB0, if_false]
          split <;> omega
      · -- refill the buffer
        have hgpos : (1 : Int)
            ≤ ((min B (content.length - (fd.offset.toNat + fd.buff_offset)) : Nat) : Int) := by
          omega
        obtain ⟨g1, g2, g3⟩ := hf nn fd.allocBuff 0 (fd.offset + fd.buff_offset)
          ((min B (content.length - (fd.offset.toNat + fd.buff_offset)) : Nat) : Int) hnn
          (le_refl _) (by omega) hgpos (by omega) (by omega)
        have hfill : isilonReadBuf.fill api B nn
            { fd := { fd with buff := some fd.allocBuff, buff_offset := B },
              result := Outcome.ok,
              buf := memcpyInto buf bo.toNat
                      ((content.drop fd.offset.toNat).take fd.buff_offset),
              rbuff := rbuffPtr.own, buf_offset := bo + (fd.getBuffOffset : Int),
              bytes_taken := (fd.getBuffOffset : Int),
              to_read := to_read - (fd.getBuffOffset : Int) } status
            = { nn := (isilonFillBufferFromHDFS api nn path fd.allocBuff 0
                        (fd.offset + fd.buff_offset)
                        ((min B (content.length - (fd.offset.toNat + fd.buff_offset)) : Nat)
                          : Int)).nn,
                fd := { fd with
                        buff := some (memcpyInto fd.allocBuff 0
                          ((content.drop (fd.offset.toNat + fd.buff_offset)).take
                            (min B (content.length - (fd.offset.toNat + fd.buff_offset))))),
                        buff_offset := B },
                buf := memcpyInto buf bo.toNat
                        ((content.drop fd.offset.toNat).take fd.buff_offset),
                result := Outcome.ok,
                status := (isilonFillBufferFromHDFS api nn path fd.allocBuff 0
                        (fd.offset + fd.buff_offset)
                        ((min B (content.length - (fd.offset.toNat + fd.buff_offset)) : Nat)
                          : Int)).status } := by
          have hne0 : ¬ (((min B (content.length - (fd.offset.toNat + fd.buff_offset)) : Nat)
              : Int) = 0) := by omega
          have e1 : (fd.offset + (fd.buff_offset : Int)).toNat
              = fd.offset.toNat + fd.buff_offset := by omega
          simp only [isilonReadBuf.fill, htg, hfo, ne_eq, hne0, not_false_eq_true, if_true]
          simp only [getPath, hp, allocBuff_with_buff, g1, g2, Int.toNat_zero, Int.toNat_ofNat,
            e1]
        rw [hfill]
        simp only [ne_eq, not_true_eq_false, if_false]
        have hp2 : ((content.drop (fd.offset.toNat + fd.buff_offset)).take
            (min B (content.length - (fd.offset.toNat + fd.buff_offset)))).length
            = min B (content.length - (fd.offset.toNat + fd.buff_offset)) := by
          rw [List.length_take, List.length_drop]; omega
        have hXl : (memcpyInto fd.allocBuff 0
            ((content.drop (fd.offset.toNat + fd.buff_offset)).take
              (min B (content.length - (fd.offset.toNat + fd.buff_offset))))).length = B := by
          rw [memcpyInto_length _ _ _ (by rw [hp2]; omega)]
          exact h8
        have hXt := memcpyInto_take fd.allocBuff
            ((content.drop (fd.offset.toNat + fd.buff_offset)).take
              (min B (content.length - (fd.offset.toNat + fd.buff_offset)))) 0 (by omega)
        rw [hp2, Nat.zero_add, List.take_zero, List.nil_append] at hXt
        refine ⟨_, _, _, _, _, _, rfl, ?_, g3, by omega, by omega, ?_, by omega, hbuf1,
          htake1, ?_⟩
        · refine ⟨h1, h2, h3, hp, h4, ?_, ?_, le_refl _, hXl, ?_⟩
          · simp only [setOffset, getOffset]; omega
          · simp only [setOffset, getOffset]; omega
          · intro _
            show B - B ≤ (fd.offset + (fd.getBuffOffset : Int)).toNat
              ∧ (memcpyInto fd.allocBuff 0
                  ((content.drop (fd.offset.toNat + fd.buff_offset)).take
                    (min B (content.length - (fd.offset.toNat + fd.buff_offset))))).take
                    (content.length
                      - ((fd.offset + (fd.getBuffOffset : Int)).toNat - (B - B)))
                  = (content.drop ((fd.offset + (fd.getBuffOffset : Int)).toNat
                      - (B - B))).take B
            have e : (fd.offset + (fd.getBuffOffset : Int)).toNat - (B - B)
                = fd.offset.toNat + fd.buff_offset := by omega
            rw [e]
            refine ⟨by omega, ?_⟩
            rw [show (memcpyInto fd.allocBuff 0
                  ((content.drop (fd.offset.toNat + fd.buff_offset)).take
                    (min B (content.length - (fd.offset.toNat + fd.buff_offset))))).take
                    (content.length - (fd.offset.toNat + fd.buff_offset))
                = (memcpyInto fd.allocBuff 0
                  ((content.drop (fd.offset.toNat + fd.buff_offset)).take
                    (min B (content.length - (fd.offset.toNat + fd.buff_offset))))).take
                    (min B (content.length - (fd.offset.toNat + fd.buff_offset))) from by
                  rw [List.take_eq_take, hXl]; omega]
            rw [hXt, List.take_eq_take, List.length_drop]
            omega
        · simp only [setOffset, getOffset]; omega
        · have hB0 : ¬ (B = 0) := by omega
          simp only [setOffset, hB0, if_false]
          split <;> omega

theorem isilonReadBuf_loop_post {σ : Type} (api : hdfs σ) (path : String)
    (content : List Byte) (Inv : σ → Prop) (hf : FetchesContent api path content Inv)
    (B : Nat) (hB : 1 ≤ B) :
    ∀ (fuel : Nat) (nn : σ) (fd : isilonFileDesc) (buf : List Byte) (bo to_read status : Int),
      ReadInv path B content fd → Inv nn → 0 ≤ bo → 0 ≤ to_read →
      fd.offset + to_read ≤ content.length → bo + to_read ≤ buf.length →
      (2 * to_read.toNat + (if fd.buff_offset = 0 then 1 else 0) ≤ fuel →
          (isilonReadBuf.loop api B fuel nn fd buf bo to_read status).result = Outcome.ok)
        ∧ ((isilonReadBuf.loop api B fuel nn fd buf bo to_read status).result = Outcome.ok →
          ReadInv path B content (isilonReadBuf.loop api B fuel nn fd buf bo to_read status).fd
            ∧ Inv (isilonReadBuf.loop api B fuel nn fd buf bo to_read status).nn
            ∧ (isilonReadBuf.loop api B fuel nn fd buf bo to_read status).bytes_read
                = bo + to_read
            ∧ (isilonReadBuf.loop api B fuel nn fd buf bo to_read status).fd.offset
                = fd.offset + to_read
            ∧ (isilonReadBuf.loop api B fuel nn fd buf bo to_read status).buf.length
                = buf.length
            ∧ (isilonReadBuf.loop api B fuel nn fd buf bo to_read status).buf.take
                  (bo + to_read).toNat
                = buf.take bo.toNat ++ (content.drop fd.offset.toNat).take to_read.toNat) := by
  have hzero : ∀ (fuel : Nat) (nn : σ) (fd : isilonFileDesc) (buf : List Byte)
      (bo status : Int),
      isilonReadBuf.loop api B fuel nn fd buf bo 0 status
        = { nn := nn, fd := fd, buf := buf, bytes_read := bo, result := Outcome.ok,
            status := status } := by
    intro fuel nn fd buf bo status
    unfold isilonReadBuf.loop
    simp
  intro fuel
  induction fuel with
  | zero =>
    intro nn fd buf bo to_read status hinv hnn hbo hto hfile hdst
    by_cases h0 : to_read = 0
    · subst h0
      rw [hzero]
      exact ⟨fun _ => rfl, fun _ => ⟨hinv, hnn, by simp, by simp, rfl, by simp⟩⟩
    · have e : (isilonReadBuf.loop api B 0 nn fd buf bo to_read status).result
          = Outcome.unfinished := by
        unfold isilonReadBuf.loop
        simp [h0]
      rw [e]
      exact ⟨fun h => by omega, fun h => by cases h⟩
  | succ n ih =>
    intro nn fd buf bo to_read status hinv hnn hbo hto hfile hdst
    by_cases h0 : to_read = 0
    · subst h0
      rw [hzero]
      exact ⟨fun _ => rfl, fun _ => ⟨hinv, hnn, by simp, by simp, rfl, by simp⟩⟩
    · obtain ⟨nn', fd', buf', bo', to_read', status', e, i1, i2, i3, i4, i5, i6, i7, i8, i9⟩ :=
        isilonReadBuf_loop_iteration api path content Inv hf B hB n nn fd buf bo to_read status
          hinv hnn hbo (by omega) hfile hdst
      obtain ⟨t1, t2⟩ := ih nn' fd' buf' bo' to_read' status' i1 i2 (by omega) i4
        (by omega) (by omega)
      rw [e]
      refine ⟨fun h => t1 (by omega), fun h => ?_⟩
      obtain ⟨r1, r2, r3, r4, r5, r6⟩ := t2 h
      refine ⟨r1, r2, by omega, by omega, by omega, ?_⟩
      have e1 : (bo + to_read).toNat = (bo' + to_read').toNat := by omega
      have e2 : to_read.toNat = (bo' - bo).toNat + to_read'.toNat := by omega
      have e3 : fd'.offset.toNat = fd.offset.toNat + (bo' - bo).toNat := by
        have := i1.2.2.2.2.2.1
        have := hinv.2.2.2.2.2.1
        omega
      rw [e1, r6, i8, e2, List.take_add, List.drop_drop, e3, List.append_assoc]

theorem isilonReadBuf_body_post {σ : Type} (api : hdfs σ) (path : String)
    (content : List Byte) (Inv : σ → Prop) (hf : FetchesContent api path content Inv)
    (B : Nat) (hB : 1 ≤ B) (fuel : Nat) (nn : σ) (fd : isilonFileDesc) (buf : List Byte)
    (len status : Int) (hinv : ReadInv path B content fd) (hnn : Inv nn) (hlen : 0 ≤ len)
    (hdst : len ≤ buf.length) :
    (2 * (min len (fd.file_size - fd.offset)).toNat + 1 ≤ fuel →
        (isilonReadBuf.body api fuel nn fd buf len status).result = Outcome.ok)
      ∧ ((isilonReadBuf.body api fuel nn fd buf len status).result = Outcome.ok →
        ReadInv path B content (isilonReadBuf.body api fuel nn fd buf len status).fd
          ∧ Inv (isilonReadBuf.body api fuel nn fd buf len status).nn
          ∧ (isilonReadBuf.body api fuel nn fd buf len status).bytes_read
              = min len (fd.file_size - fd.offset)
          ∧ (isilonReadBuf.body api fuel nn fd buf len status).fd.offset
              = fd.offset + min len (fd.file_size - fd.offset)
          ∧ (isilonReadBuf.body api fuel nn fd buf len status).buf.take
                (min len (fd.file_size - fd.offset)).toNat
              = (content.drop fd.offset.toNat).take
                  (min len (fd.file_size - fd.offset)).toNat) := by
  have hinv' := hinv
  obtain ⟨h1, h2, h3, hp, h4, h5, h6, h7, h8, h9⟩ := hinv
  have hto : (if len < fd.getFileSize - fd.getOffset then len
      else fd.getFileSize - fd.getOffset) = min len (fd.file_size - fd.offset) := by
    simp only [getFileSize, getOffset]
    split <;> omega
  have hgs : fd.getBuffSize = (B : Int) := by simp [getBuffSize, h2, h3]
  have e : isilonReadBuf.body api fuel nn fd buf len status
      = isilonReadBuf.loop api B fuel nn fd buf 0 (min len (fd.file_size - fd.offset))
          status := by
    unfold isilonReadBuf.body
    rw [if_neg (by simp [getMode, h1]), if_neg (by simp [getFileSize, getOffset]; omega)]
    simp only [hto, hgs]
  rw [e]
  obtain ⟨t1, t2⟩ := isilonReadBuf_loop_post api path content Inv hf B hB fuel nn fd buf 0
    (min len (fd.file_size - fd.offset)) status hinv' hnn (le_refl _) (by omega) (by omega)
    (by omega)
  refine ⟨fun h => t1 (by split <;> omega), fun h => ?_⟩
  obtain ⟨r1, r2, r3, r4, r5, r6⟩ := t2 h
  refine ⟨r1, r2, by omega, r4, ?_⟩
  simpa using r6

theorem isilonFileLseekPlugin_body_readInv (path : String) (B : Nat) (content : List Byte)
    (fd : isilonFileDesc) (delta whence : Int) (hinv : ReadInv path B content fd)
    (hok : (isilonFileLseekPlugin.body fd delta whence).2
        = Except.ok (resolvedTarget fd delta whence)) :
    ReadInv path B content (isilonFileLseekPlugin.body fd delta whence).1 := by
  obtain ⟨h1, h2, h3, hp, h4, h5, h6, h7, h8, h9⟩ := hinv
  have hgs : fd.getBuffSize = (B : Int) := by simp [getBuffSize, h2, h3]
  by_cases hw : whence = SEEK_SET ∨ whence = SEEK_CUR ∨ whence = SEEK_END
  · rw [isilonFileLseekPlugin_body_eq fd delta whence hw] at hok ⊢
    split at hok
    · cases hok
    · rename_i hr
      rw [if_neg hr]
      generalize resolvedTarget fd delta whence = target at *
      simp only [hgs]
      by_cases hk : (fd.buff_offset : Int) ≠ 0
      · rw [if_pos hk]
        have hk' : 0 < fd.buff_offset := by omega
        obtain ⟨v1, v2⟩ := h9 hk'
        by_cases hd : target - fd.offset > 0
        · rw [if_pos hd]
          by_cases hdk : (fd.buff_offset : Int) > target - fd.offset
          · rw [if_pos hdk]
            refine ⟨h1, h2, h3, hp, h4, by simp [setOffset]; omega, by simp [setOffset]; omega,
              ?_, h8, ?_⟩
            · show ((fd.buff_offset : Int) - (target - fd.offset)).toNat ≤ B
              omega
            · intro _
              show B - ((fd.buff_offset : Int) - (target - fd.offset)).toNat ≤ target.toNat
                ∧ fd.allocBuff.take (content.length - (target.toNat
                    - (B - ((fd.buff_offset : Int) - (target - fd.offset)).toNat)))
                  = (content.drop (target.toNat
                    - (B - ((fd.buff_offset : Int) - (target - fd.offset)).toNat))).take B
              have e : target.toNat - (B - ((fd.buff_offset : Int) - (target - fd.offset)).toNat)
                  = fd.offset.toNat - (B - fd.buff_offset) := by omega
              rw [e]
              exact ⟨by omega, v2⟩
          · rw [if_neg hdk]
            refine ⟨h1, h2, h3, hp, h4, by simp [setOffset]; omega, by simp [setOffset]; omega,
              by simp [setOffset, seekBuff], h8, ?_⟩
            intro h
            simp [setOffset, seekBuff] at h
        · rw [if_neg hd]
          by_cases hdk : (fd.buff_offset : Int) - (target - fd.offset) ≤ (B : Int)
          · rw [if_pos hdk]
            refine ⟨h1, h2, h3, hp, h4, by simp [setOffset]; omega, by simp [setOffset]; omega,
              ?_, h8, ?_⟩
            · show ((fd.buff_offset : Int) - (target - fd.offset)).toNat ≤ B
              omega
            · intro _
              show B - ((fd.buff_offset : Int) - (target - fd.offset)).toNat ≤ target.toNat
                ∧ fd.allocBuff.take (content.length - (target.toNat
                    - (B - ((fd.buff_offset : Int) - (target - fd.offset)).toNat)))
                  = (content.drop (target.toNat
                    - (B - ((fd.buff_offset : Int) - (target - fd.offset)).toNat))).take B
              have e : target.toNat - (B - ((fd.buff_offset : Int) - (target - fd.offset)).toNat)
                  = fd.offset.toNat - (B - fd.buff_offset) := by omega
              rw [e]
              exact ⟨by omega, v2⟩
          · rw [if_neg hdk]
            refine ⟨h1, h2, h3, hp, h4, by simp [setOffset]; omega, by simp [setOffset]; omega,
              by simp [setOffset, seekBuff], h8, ?_⟩
            intro h
            simp [setOffset, seekBuff] at h
      · rw [if_neg hk]
        refine ⟨h1, h2, h3, hp, h4, by simp [setOffset]; omega, by simp [setOffset]; omega,
          h7, h8, ?_⟩
        intro h
        simp only [setOffset] at h
        omega
  · have h1' : ¬ whence = SEEK_SET := fun h => hw (Or.inl h)
    have h2' : ¬ whence = SEEK_CUR := fun h => hw (Or.inr (Or.inl h))
    have h3' : ¬ whence = SEEK_END := fun h => hw (Or.inr (Or.inr h))
    simp [isilonFileLseekPlugin.body, h1', h2', h3'] at hok

theorem ReadInv_openedReadOnly (path : String) (B : Nat) (content : List Byte) :
    ReadInv path B content (openedReadOnly path B content.length) := by
  refine ⟨rfl, rfl, rfl, rfl, rfl, le_refl _, ?_, Nat.zero_le _, ?_, ?_⟩
  · show (0 : Int) ≤ content.length
    omega
  · simp [openedReadOnly, isilonFileDesc.new, setFileSize, allocBuff]
  · intro h
    exact absurd h (Nat.lt_irrefl 0)

theorem runSuccessfulOps_readInv {σ : Type} (api : hdfs σ) (path : String)
    (content : List Byte) (Inv : σ → Prop) (hf : FetchesContent api path content Inv)
    (B : Nat) (hB : 1 ≤ B) (fuel : Nat) (ops : List FileOp) :
    ∀ (nn : σ) (fd : isilonFileDesc) (nn' : σ) (fd' : isilonFileDesc),
      ReadInv path B content fd → Inv nn →
      runSuccessfulOps api fuel nn fd ops = some (nn', fd') →
      ReadInv path B content fd' ∧ Inv nn' := by
  induction ops with
  | nil =>
    intro nn fd nn' fd' hinv hnn h
    simp only [runSuccessfulOps, Option.some.injEq, Prod.mk.injEq] at h
    obtain ⟨rfl, rfl⟩ := h
    exact ⟨hinv, hnn⟩
  | cons op ops ih =>
    intro nn fd nn' fd' hinv hnn h
    cases op with
    | read buf len =>
      simp only [runSuccessfulOps] at h
      split at h
      · rename_i hc
        obtain ⟨c1, c2, c3⟩ := hc
        obtain ⟨r1, r2, _⟩ :=
          (isilonReadBuf_body_post api path content Inv hf B hB fuel nn fd buf len 0 hinv hnn
            c1 c2).2 c3
        exact ih _ _ nn' fd' r1 r2 h
      · cases h
    | seek o w =>
      simp only [runSuccessfulOps] at h
      split at h
      · rename_i hc
        exact ih _ _ nn' fd' (isilonFileLseekPlugin_body_readInv path B content fd o w hinv hc)
          hnn h
      · cases h

/-- C3: on every read-mode descriptor reached from a read-only open of a file by a
sequence of successful read and seek calls, with range fetches that return the true file
content and a buffer size of at least 1, a read of `len ≥ 0` bytes into a buffer with room
for them succeeds (once the loop is allowed `2 * len + 1` iterations), reports
`n = min(len, file_size - offset)` bytes, the first `n` bytes of the buffer are the bytes
of the file at `[offset, offset + n)`, and the offset has advanced by `n`. -/
theorem isilonReadBuf_delivers_file_content {σ : Type} (api : hdfs σ) (path : String)
    (content : List Byte) (Inv : σ → Prop) (B : Nat) (nn0 : σ) (ops : List FileOp)
    (fuel0 : Nat) (nn : σ) (fd : isilonFileDesc) (buf : List Byte) (len : Int) (fuel : Nat)
    (hf : FetchesContent api path content Inv) (h0 : Inv nn0) (hB : 1 ≤ B)
    (hreach : runSuccessfulOps api fuel0 nn0 (openedReadOnly path B content.length) ops
        = some (nn, fd))
    (hlen : 0 ≤ len) (hbuf : len ≤ buf.length) (hfuel : 2 * len.toNat + 1 ≤ fuel) :
    (isilonReadBuf.body api fuel nn fd buf len 0).result = Outcome.ok
      ∧ (isilonReadBuf.body api fuel nn fd buf len 0).bytes_read
          = min len (fd.file_size - fd.offset)
      ∧ (isilonReadBuf.body api fuel nn fd buf len 0).buf.take
            (min len (fd.file_size - fd.offset)).toNat
          = (content.drop fd.offset.toNat).take (min len (fd.file_size - fd.offset)).toNat
      ∧ (isilonReadBuf.body api fuel nn fd buf len 0).fd.offset
          = fd.offset + min len (fd.file_size - fd.offset)
      ∧ fd.file_size = content.length ∧ 0 ≤ fd.offset ∧ fd.offset ≤ fd.file_size := by
  obtain ⟨hinv, hnn⟩ := runSuccessfulOps_readInv api path content Inv hf B hB fuel0 ops nn0
    (openedReadOnly path B content.length) nn fd (ReadInv_openedReadOnly path B content) h0
    hreach
  obtain ⟨t1, t2⟩ := isilonReadBuf_body_post api path content Inv hf B hB fuel nn fd buf len 0
    hinv hnn hlen hbuf
  have hok := t1 (by
    have : (min len (fd.file_size - fd.offset)).toNat ≤ len.toNat := by omega
    omega)
  obtain ⟨_, _, r3, r4, r5⟩ := t2 hok
  obtain ⟨_, _, _, _, h4, h5, h6, _⟩ := hinv
  exact ⟨hok, r3, r5, r4, h4, h5, by omega⟩

/-! ### The simulated store -/

theorem memcpyInto_memcpyInto (dst a c : List Byte) (pos : Nat) (h : pos ≤ dst.length) :
    memcpyInto (memcpyInto dst pos a) (pos + a.length) c = memcpyInto dst pos (a ++ c) := by
  have h1 : (dst.take pos ++ a).length = pos + a.length := by
    simp [List.length_take, Nat.min_eq_left h]
  have e1 : (dst.take pos ++ a ++ dst.drop (pos + a.length)).take (pos + a.length)
      = dst.take pos ++ a := by
    rw [← h1, List.take_left']
    rfl
  have e2 : (dst.take pos ++ a ++ dst.drop (pos + a.length)).drop (pos + a.length + c.length)
      = dst.drop (pos + (a ++ c).length) := by
    rw [← h1, List.drop_append, List.drop_drop, h1, List.length_append]
    congr 1
    omega
  unfold memcpyInto
  rw [e1, e2, List.append_assoc (dst.take pos) a c]

theorem memcpyInto_nil (dst : List Byte) (pos : Nat) : memcpyInto dst pos [] = dst := by
  simp [memcpyInto]

theorem SimStore_api_datanode_new (s : SimStore) (b : located_block) :
    SimStore.api.datanode_new s b = (s, true) := rfl

theorem SimStore_api_datanode_read (s : SimStore) (b : located_block) (offset len : Int) :
    SimStore.api.datanode_read s b offset len
      = (s, some (((s.blocks.getD b.id []).drop offset.toNat).take len.toNat)) := rfl

theorem SimStore_blocks_fetch (s : SimStore) (offset len : Int) (bs : List (List Byte)) :
    ∀ (o i : Nat) (dest : List Byte) (pos to_read : Int),
      s.blocks.drop i = bs → 0 ≤ pos → 1 ≤ to_read → to_read ≤ len →
      (o : Int) ≤ offset + len - to_read → ((o : Int) < offset + len - to_read → to_read = len) →
      offset + len ≤ (o : Int) + bs.flatten.length →
      pos + to_read ≤ dest.length →
      isilonFillBufferFromHDFS.blocks SimStore.api offset len
          ((SimStore.locate bs o i).filter
            (fun b => decide (b.offset + b.len > offset ∧ b.offset < offset + len)))
          s dest pos to_read
        = { nn := s,
            dest := memcpyInto dest pos.toNat
              ((bs.flatten.drop (offset + len - to_read - o).toNat).take to_read.toNat),
            result := Outcome.ok, status := 0 } := by
  induction bs with
  | nil =>
    intro o i dest pos to_read _ _ h1 _ h2 _ h3 _
    simp only [List.flatten_nil, List.length_nil] at h3
    omega
  | cons b rest ih =>
    intro o i dest pos to_read hdrop hpos h1 hle ho hstart hdata hdst
    have hrest : s.blocks.drop (i + 1) = rest := by
      have := congrArg (List.drop 1) hdrop
      simpa [List.drop_drop, Nat.add_comm] using this
    have hget : s.blocks.getD i [] = b := by
      have := congrArg (fun l => l.getD 0 []) hdrop
      simpa [List.getD_eq_getElem?_getD] using this
    have hfl : (b :: rest).flatten = b ++ rest.flatten := rfl
    simp only [SimStore.locate, List.filter_cons]
    by_cases hin : (o : Int) + (b.length : Int) > offset
    · -- the block reaches into the range
      have hp : decide ((o : Int) + (b.length : Int) > offset ∧ (o : Int) < offset + len)
          = true := by
        simp only [decide_eq_true_eq]; omega
      simp only [hp, if_true]
      unfold isilonFillBufferFromHDFS.blocks
      have hchk : ¬ ¬ ((o : Int) + (b.length : Int) > offset ∧ (o : Int) < offset + len) := by
        omega
      simp only [hchk, if_false, SimStore_api_datanode_new, SimStore_api_datanode_read, hget]
      have hbegin : (if (o : Int) < offset then offset - (o : Int) else 0)
          = offset + len - to_read - o := by
        split <;> omega
      rw [hbegin]
      by_cases hend : (o : Int) + (b.length : Int) > offset + len
      · -- the range ends inside the block
        simp only [hend, if_true]
        have hn : offset + len - (o : Int) - (offset + len - to_read - o) = to_read := by omega
        rw [hn]
        have hbl : ((List.take to_read.toNat
            (List.drop (offset + len - to_read - ↑o).toNat b)).length : Int) = to_read := by
          rw [List.length_take, List.length_drop]; omega
        rw [if_neg (by rw [hbl]; omega)]
        simp only [sub_self, if_true]
        congr 2
        rw [hfl, List.drop_append_of_le_length (by omega),
          List.take_append_of_le_length (by rw [List.length_drop]; omega)]
      · -- the block ends inside the range
        simp only [hend, if_false]
        have hbl : (List.take ((b.length : Int) - (offset + len - to_read - o)).toNat
            (List.drop (offset + len - to_read - ↑o).toNat b)).length
            = b.length - (offset + len - to_read - o).toNat := by
          rw [List.length_take, List.length_drop]; omega
        have hbt : List.take ((b.length : Int) - (offset + len - to_read - o)).toNat
            (List.drop (offset + len - to_read - ↑o).toNat b)
            = List.drop (offset + len - to_read - ↑o).toNat b := by
          apply List.take_of_length_le
          rw [List.length_drop]; omega
        rw [if_neg (by rw [hbl]; omega)]
        by_cases hdone : to_read - ((b.length : Int) - (offset + len - to_read - o)) = 0
        · simp only [hdone, if_true]
          congr 2
          rw [hbt, hfl, List.drop_append_of_le_length (by omega),
            List.take_append_of_le_length (by rw [List.length_drop]; omega)]
          symm
          apply List.take_of_length_le
          rw [List.length_drop]; omega
        · simp only [hdone, if_false]
          have hih := ih (o + b.length) (i + 1) (memcpyInto dest pos.toNat
              (List.take ((b.length : Int) - (offset + len - to_read - o)).toNat
                (List.drop (offset + len - to_read - ↑o).toNat b)))
            (pos + ((b.length : Int) - (offset + len - to_read - o)))
            (to_read - ((b.length : Int) - (offset + len - to_read - o))) hrest (by omega)
            (by omega) (by omega) (by push_cast; omega) (by push_cast; omega)
            (by rw [hfl, List.length_append] at hdata; push_cast at hdata ⊢; omega)
            (by rw [memcpyInto_length _ _ _ (by rw [hbl]; omega)]; omega)
          rw [Nat.cast_add] at hih
          rw [hih]
          congr 1
          have e1 : (pos + ((b.length : Int) - (offset + len - to_read - o))).toNat
              = pos.toNat + (List.take ((b.length : Int) - (offset + len - to_read - o)).toNat
                  (List.drop (offset + len - to_read - ↑o).toNat b)).length := by
            rw [hbl]; omega
          rw [e1, memcpyInto_memcpyInto _ _ _ _ (by omega)]
          congr 1
          rw [hbt, hfl, List.drop_append_of_le_length (by omega)]
          have e2 : (offset + len - (to_read - ((b.length : Int) - (offset + len - to_read - o)))
              - ((o : Int) + (b.length : Int))).toNat = 0 := by omega
          have e3 : to_read.toNat
              = (List.drop (offset + len - to_read - ↑o).toNat b).length
                + (to_read - ((b.length : Int) - (offset + len - to_read - o))).toNat := by
            rw [List.length_drop]; omega
          rw [e2, List.drop_zero, e3, List.take_append]
    · -- the block lies before the range
      have hp : decide ((o : Int) + (b.length : Int) > offset ∧ (o : Int) < offset + len)
          = false := by
        simp only [decide_eq_false_iff_not]; omega
      simp only [hp]
      have hih := ih (o + b.length) (i + 1) dest pos to_read hrest hpos h1 hle
        (by push_cast; omega) (by intro _; omega)
        (by rw [hfl, List.length_append] at hdata; push_cast at hdata ⊢; omega) hdst
      simp only [Bool.false_eq_true, if_false]
      rw [Nat.cast_add] at hih
      rw [hih]
      congr 2
      rw [hfl]
      have e : (offset + len - to_read - (o : Int)).toNat
          = b.length + (offset + len - to_read - ((o : Int) + (b.length : Int))).toNat := by
        omega
      rw [e, List.drop_append]

/-- Range fetches against the simulated store return the content of the stored file and
leave the store as it is. -/
theorem SimStore_fetchesContent (s : SimStore) (path : String) :
    FetchesContent SimStore.api path s.content (fun nn => nn = s) := by
  intro nn dest pos offset len hnn hpos hoff hlen hfile hdst
  subst hnn
  have e : isilonFillBufferFromHDFS SimStore.api nn path dest pos offset len
      = isilonFillBufferFromHDFS.blocks SimStore.api offset len
          ((SimStore.locate nn.blocks 0 0).filter
            (fun b => decide (b.offset + b.len > offset ∧ b.offset < offset + len)))
          nn dest pos len := rfl
  have h := SimStore_blocks_fetch nn offset len nn.blocks 0 0 dest pos len rfl hpos hlen
    (le_refl _) (by push_cast; omega) (fun _ => rfl)
    (by simp only [SimStore.content] at hfile; push_cast; omega) hdst
  simp only [Nat.cast_zero, sub_zero, add_sub_cancel_right] at h
  rw [e, h]
  exact ⟨rfl, rfl, rfl⟩

/-- Witness of C3: after `sampleOps` on the 21 byte file, a read of 12 bytes delivers the
bytes 9 to 20. -/
theorem isilonReadBuf_delivers_file_content_witness :
    runSuccessfulOps SimStore.api 50 sampleStore
        (openedReadOnly "/zone/file" 8 sampleStore.content.length) sampleOps
        = some (sampleStore, sampleReached)
      ∧ (isilonReadBuf.body SimStore.api 50 sampleStore sampleReached
          (List.replicate 12 0) 12 0).buf = List.range' 9 12
      ∧ (isilonReadBuf.body SimStore.api 50 sampleStore sampleReached
          (List.replicate 12 0) 12 0).result = Outcome.ok :=
  ⟨by decide, by decide,
    (isilonReadBuf_delivers_file_content SimStore.api "/zone/file" sampleStore.content
      (fun nn => nn = sampleStore) 8 sampleStore sampleOps 50 sampleStore sampleReached
      (List.replicate 12 0) 12 50 (SimStore_fetchesContent sampleStore "/zone/file") rfl
      (by decide) (by decide) (by decide) (by decide) (by decide)).1⟩

/-! ### Round trip through the descriptor table -/

theorem SimStore_commitsAppend : CommitsAppend SimStore.api (fun s => s.blocks) := by
  constructor
  · intro nn path bytes len h0 h1
    have hlt : ¬ (len < 0 ∨ (bytes.length : Int) < len) := by omega
    simp [isilonCommitBufferToHDFS, isilonCommitBufferToHDFS.block, SimStore.api, hlt]
  · intro nn path
    simp [SimStore.api]

theorem ObjDescTable_find_fresh (t : ObjDescTable)
    (h : ∀ k ∈ t.ids, k < t.NEXT_OBJ_DESC_NUM) : t.find t.NEXT_OBJ_DESC_NUM = none := by
  simp only [ObjDescTable.find, Option.map_eq_none', List.find?_eq_none]
  intro e he
  have := h e.1 (by simp only [ObjDescTable.ids, List.mem_map]; exact ⟨e, he, rfl⟩)
  simp only [decide_eq_true_eq]
  omega

theorem ObjDescTable_find_insert (t : ObjDescTable) (key : Int) (val : isilonObjectDesc)
    (h : t.find key = none) : (t.insert key val).find key = some val := by
  unfold ObjDescTable.insert
  rw [if_neg (by simp [h])]
  simp [ObjDescTable.find]

theorem ObjDescTable_find_store (t : ObjDescTable) (key : Int) (old val : isilonObjectDesc)
    (h : t.find key = some old) : (t.store key val).find key = some val := by
  obtain ⟨n, l⟩ := t
  simp only [ObjDescTable.find, ObjDescTable.store] at h ⊢
  induction l with
  | nil => simp at h
  | cons e l ih =>
    by_cases he : e.1 = key
    · simp [he]
    · simp only [List.map_cons, he, if_false, List.find?_cons, decide_False] at h ⊢
      exact ih h

theorem ObjDescTable_ids_store (t : ObjDescTable) (key : Int) (val : isilonObjectDesc) :
    (t.store key val).ids = t.ids := by
  simp only [ObjDescTable.ids, ObjDescTable.store, List.map_map]
  apply List.map_congr_left
  intro e _
  by_cases he : e.1 = key
  · simp [he]
  · simp [he]

theorem isilonNewFileDesc_fresh (t : ObjDescTable) (mode : isilonFileMode) (path : String)
    (buf_size : Nat) (last_block : Option located_block)
    (h : ∀ k ∈ t.ids, k < t.NEXT_OBJ_DESC_NUM) :
    (isilonNewFileDesc t mode path buf_size last_block).2 = t.NEXT_OBJ_DESC_NUM
      ∧ (isilonNewFileDesc t mode path buf_size last_block).1.find t.NEXT_OBJ_DESC_NUM
          = some (isilonObjectDesc.file (isilonFileDesc.new mode path buf_size last_block)) := by
  have hf := ObjDescTable_find_fresh t h
  have hi := ObjDescTable_find_insert t t.NEXT_OBJ_DESC_NUM
    (isilonObjectDesc.file (isilonFileDesc.new mode path buf_size last_block)) hf
  have hn := ObjDescTable_next_insert t t.NEXT_OBJ_DESC_NUM
    (isilonObjectDesc.file (isilonFileDesc.new mode path buf_size last_block))
  exact ⟨hn, hi⟩

theorem isilonGetFileDescByID_of_find (t : ObjDescTable) (num : Int) (fd : isilonFileDesc)
    (h : t.find num = some (isilonObjectDesc.file fd)) :
    isilonGetFileDescByID false t num = (Outcome.ok, some fd) := by
  simp [isilonGetFileDescByID, isilonIsObjIDValid, h]

theorem isilonWriteBuf_of_find {σ : Type} (api : hdfs σ) (fuel : Nat) (nn : σ)
    (t : ObjDescTable) (id : Int) (buf : List Byte) (len status : Int) (fd : isilonFileDesc)
    (h : t.find id = some (isilonObjectDesc.file fd)) :
    isilonWriteBuf api fuel nn t id buf len status
      = { nn := (isilonWriteBuf.body api fuel nn fd buf len status).nn,
          table := t.store id
            (isilonObjectDesc.file (isilonWriteBuf.body api fuel nn fd buf len status).fd),
          result := (isilonWriteBuf.body api fuel nn fd buf len status).result,
          status := (isilonWriteBuf.body api fuel nn fd buf len status).status } := by
  simp only [isilonWriteBuf, isilonGetFileDescByID_of_find t id fd h]

theorem isilonReadBuf_of_find {σ : Type} (api : hdfs σ) (fuel : Nat) (nn : σ)
    (t : ObjDescTable) (id : Int) (buf : List Byte) (len status : Int) (fd : isilonFileDesc)
    (h : t.find id = some (isilonObjectDesc.file fd)) :
    isilonReadBuf api fuel nn t id buf len status
      = { nn := (isilonReadBuf.body api fuel nn fd buf len status).nn,
          table := t.store id
            (isilonObjectDesc.file (isilonReadBuf.body api fuel nn fd buf len status).fd),
          buf := (isilonReadBuf.body api fuel nn fd buf len status).buf,
          bytes_read := (isilonReadBuf.body api fuel nn fd buf len status).bytes_read,
          result := (isilonReadBuf.body api fuel nn fd buf len status).result,
          status := (isilonReadBuf.body api fuel nn fd buf len status).status } := by
  simp only [isilonReadBuf, isilonGetFileDescByID_of_find t id fd h]

theorem isilonCloseFile_of_find {σ : Type} (api : hdfs σ) (nn : σ) (t : ObjDescTable)
    (id : Int) (fd : isilonFileDesc) (h : t.find id = some (isilonObjectDesc.file fd)) :
    isilonCloseFile api nn t id
      = { nn := (isilonCloseFile.body api nn char_ptr.dangling fd).nn, table := t.erase id,
          result := (isilonCloseFile.body api nn char_ptr.dangling fd).result,
          status := (isilonCloseFile.body api nn char_ptr.dangling fd).status } := by
  simp [isilonCloseFile, isilonGetFileDescByID_of_find t id fd h, isilonDestroyObjDesc,
    isilonIsObjIDValid, h]

theorem writeFileCalls_of_find {σ : Type} (api : hdfs σ) (fuel : Nat) (id : Int)
    (datas : List (List Byte)) :
    ∀ (nn : σ) (t : ObjDescTable) (fd : isilonFileDesc),
      t.find id = some (isilonObjectDesc.file fd) →
      (writeFileCalls api fuel nn t id datas).nn = (writeCalls api fuel nn fd datas).nn
        ∧ (writeFileCalls api fuel nn t id datas).result
            = (writeCalls api fuel nn fd datas).result
        ∧ (writeFileCalls api fuel nn t id datas).table.find id
            = some (isilonObjectDesc.file (writeCalls api fuel nn fd datas).fd)
        ∧ (writeFileCalls api fuel nn t id datas).table.ids = t.ids
        ∧ (writeFileCalls api fuel nn t id datas).table.NEXT_OBJ_DESC_NUM
            = t.NEXT_OBJ_DESC_NUM := by
  induction datas with
  | nil =>
    intro nn t fd h
    exact ⟨rfl, rfl, h, rfl, rfl⟩
  | cons d ds ih =>
    intro nn t fd h
    have e := isilonWriteBuf_of_find api fuel nn t id d d.length 0 fd h
    have hs := ObjDescTable_find_store t id _
      (isilonObjectDesc.file (isilonWriteBuf.body api fuel nn fd d d.length 0).fd) h
    have hi := ObjDescTable_ids_store t id
      (isilonObjectDesc.file (isilonWriteBuf.body api fuel nn fd d d.length 0).fd)
    unfold writeFileCalls writeCalls
    simp only [isilonWriteFile, e]
    by_cases hr : (isilonWriteBuf.body api fuel nn fd d d.length 0).result = Outcome.ok
    · simp only [hr, ne_eq, not_true_eq_false, if_false]
      obtain ⟨i1, i2, i3, i4, i5⟩ := ih (isilonWriteBuf.body api fuel nn fd d d.length 0).nn
        (t.store id
          (isilonObjectDesc.file (isilonWriteBuf.body api fuel nn fd d d.length 0).fd))
        (isilonWriteBuf.body api fuel nn fd d d.length 0).fd hs
      exact ⟨i1, i2, i3, i4.trans hi, i5⟩
    · simp only [hr, ne_eq, not_false_eq_true, if_true]
      exact ⟨trivial, trivial, hs, hi, rfl⟩

theorem isilonOpenFile_readOnly (s : SimStore) (t : ObjDescTable) (path : String) (B : Nat)
    (h : ∀ k ∈ t.ids, k < t.NEXT_OBJ_DESC_NUM) :
    (isilonOpenFile SimStore.api s t path O_RDONLY B).result = Outcome.ok
      ∧ (isilonOpenFile SimStore.api s t path O_RDONLY B).nn = s
      ∧ (isilonOpenFile SimStore.api s t path O_RDONLY B).file_id = t.NEXT_OBJ_DESC_NUM
      ∧ (isilonOpenFile SimStore.api s t path O_RDONLY B).table.find t.NEXT_OBJ_DESC_NUM
          = some (isilonObjectDesc.file (openedReadOnly path B s.content.length)) := by
  obtain ⟨n1, n2⟩ := isilonNewFileDesc_fresh t ISILON_MODE_READ path B none h
  have hg := isilonGetFileDescByID_of_find _ _ _ n2
  have hst := ObjDescTable_find_store _ t.NEXT_OBJ_DESC_NUM _
    (isilonObjectDesc.file
      ((isilonFileDesc.new ISILON_MODE_READ path B none).setFileSize s.content.length)) n2
  have hrw : O_RDONLY &&& O_RDWR = 0 := by decide
  have hw : O_RDONLY &&& O_WRONLY = 0 := by decide
  unfold isilonOpenFile
  simp only [isilonGetHDFSFileInfo, SimStore.api, hrw, hw, if_false, if_true, n1, hg,
    ne_eq, not_true_eq_false, or_self, false_and]
  exact ⟨trivial, trivial, trivial, hst⟩

theorem List_length_le_flatten (datas : List (List Byte)) :
    ∀ d ∈ datas, d.length ≤ datas.flatten.length := by
  induction datas with
  | nil => intro d hd; simp at hd
  | cons a l ih =>
    intro d hd
    simp only [List.flatten_cons, List.length_append]
    rcases List.mem_cons.mp hd with h | h
    · subst h; omega
    · have := ih d h
      omega

/-- C1 (the defect): the round trip stops at close.  For every buffer size `B ≥ 1`, every
list `datas` of write payloads and every descriptor table whose live ids are below its
counter, on the simulated store (a commit appends one block, `getBlockLocations` answers
the blocks that intersect the range in ascending order): create and one `isilonWriteFile`
call for each payload succeed and leave a write-mode descriptor under the new id; the
store then holds the full blocks of `B` bytes committed by the write calls and not yet the
fewer than `B` bytes that are left in the buffer.  `isilonCloseFile`, which has to commit
those bytes and to complete the file, reads the path through a pointer to a temporary that
was destroyed at the declaration of `path`: its outcome is undefined for every payload and
every path, so the bytes written are not read back by defined behaviour. -/
theorem write_close_round_trip_close_undefined (B fuel : Nat) (s0 : SimStore)
    (t0 : ObjDescTable) (path : String) (overwrite : Bool) (datas : List (List Byte))
    (hB : 1 ≤ B) (ht : ∀ k ∈ t0.ids, k < t0.NEXT_OBJ_DESC_NUM)
    (hfuel : datas.flatten.length ≤ fuel) :
    (roundTripCreated B s0 t0 path overwrite).result = Outcome.ok
      ∧ (roundTripWritten fuel B s0 t0 path overwrite datas).result = Outcome.ok
      ∧ (∃ fd, (roundTripWritten fuel B s0 t0 path overwrite datas).table.find
            (roundTripCreated B s0 t0 path overwrite).file_id
            = some (isilonObjectDesc.file fd)
          ∧ fd.mode = ISILON_MODE_WRITE ∧ fd.buff_offset < B
          ∧ (roundTripWritten fuel B s0 t0 path overwrite datas).nn.content
              = datas.flatten.take (datas.flatten.length - fd.buff_offset))
      ∧ (∀ block ∈ (roundTripWritten fuel B s0 t0 path overwrite datas).nn.blocks,
          block.length = B)
      ∧ (roundTripClosed fuel B s0 t0 path overwrite datas).result = Outcome.undefined := by
  have hN := isilonNewFileDesc_fresh t0 ISILON_MODE_WRITE path B none ht
  have hC : roundTripCreated B s0 t0 path overwrite
      = { nn := { blocks := [] },
          table := (isilonNewFileDesc t0 ISILON_MODE_WRITE path B none).1,
          file_id := (isilonNewFileDesc t0 ISILON_MODE_WRITE path B none).2,
          result := Outcome.ok, status := 0 } := rfl
  generalize isilonNewFileDesc t0 ISILON_MODE_WRITE path B none = N at hN hC
  obtain ⟨n1, n2⟩ := hN
  rw [n1] at hC
  -- the write calls
  have hW : roundTripWritten fuel B s0 t0 path overwrite datas
      = writeFileCalls SimStore.api fuel { blocks := [] } N.1 t0.NEXT_OBJ_DESC_NUM datas := by
    unfold roundTripWritten
    rw [hC]
  obtain ⟨w1, w2, w3, w4, w5⟩ := writeFileCalls_of_find SimStore.api fuel
    t0.NEXT_OBJ_DESC_NUM datas { blocks := [] } N.1 _ n2
  obtain ⟨cs, pending, c1, c2, c3, c4, c5⟩ := writeCalls_chunks SimStore.api
    (fun s => s.blocks) SimStore_commitsAppend B hB fuel datas { blocks := [] }
    (isilonFileDesc.new ISILON_MODE_WRITE path B none) [] (WriteInv_new path B hB)
    (fun d hd => by have := List_length_le_flatten datas d hd; omega)
  rw [← hW] at w1 w2 w3 w4 w5
  simp only [List.nil_append] at c3 c5
  -- close
  have hK : roundTripClosed fuel B s0 t0 path overwrite datas
      = isilonCloseFile SimStore.api (roundTripWritten fuel B s0 t0 path overwrite datas).nn
          (roundTripWritten fuel B s0 t0 path overwrite datas).table
          t0.NEXT_OBJ_DESC_NUM := by
    unfold roundTripClosed
    rw [hC]
  rw [isilonCloseFile_of_find _ _ _ _ _ w3, w1] at hK
  have hid : (roundTripCreated B s0 t0 path overwrite).file_id = t0.NEXT_OBJ_DESC_NUM := by
    rw [hC]
  refine ⟨by rw [hC], by rw [w2]; exact c1, ⟨_, by rw [hid]; exact w3, c2.1, ?_, ?_⟩, ?_, ?_⟩
  · rw [c2.2.2.2.2.1]
    exact c2.2.2.2.2.2.1
  · rw [w1]
    show SimStore.content _ = _
    unfold SimStore.content
    rw [c3, c2.2.2.2.2.1, ← c5]
    simp
  · rw [w1, c3]
    exact c4
  · rw [hK]
    exact isilonCloseFile_body_dangling _ _ _ c2.1

/-- Witness of C1's defect: buffer size 4, ten bytes written by calls of 3, 6 and 1 bytes
to a path that held the 21 byte file before; the write calls leave two blocks of 4 bytes
in the store and two bytes in the buffer, and the close is undefined. -/
theorem write_close_round_trip_close_undefined_witness :
    (roundTripWritten 21 4 sampleStore ObjDescTable.initial "/zone/file" false
        [[1, 2, 3], [4, 5, 6, 7, 8, 9], [10]]).nn.blocks = [[1, 2, 3, 4], [5, 6, 7, 8]]
      ∧ (roundTripClosed 21 4 sampleStore ObjDescTable.initial "/zone/file" false
          [[1, 2, 3], [4, 5, 6, 7, 8, 9], [10]]).result = Outcome.undefined :=
  ⟨by decide,
    (write_close_round_trip_close_undefined 4 21 sampleStore ObjDescTable.initial
      "/zone/file" false [[1, 2, 3], [4, 5, 6, 7, 8, 9], [10]] (by decide) (by decide)
      (by decide)).2.2.2.2⟩

/-! ### Lookup by id -/

theorem isilonGetDirDescByID_of_find (ISILON_DEBUG : Bool) (t : ObjDescTable) (num : Int)
    (dd : isilonDirDesc) (h : t.find num = some (isilonObjectDesc.dir dd)) :
    isilonGetDirDescByID ISILON_DEBUG t num = (Outcome.ok, some dd) := by
  simp [isilonGetDirDescByID, isilonIsObjIDValid, h]

theorem isilonGetFileDescByID_of_find_any (ISILON_DEBUG : Bool) (t : ObjDescTable)
    (num : Int) (fd : isilonFileDesc) (h : t.find num = some (isilonObjectDesc.file fd)) :
    isilonGetFileDescByID ISILON_DEBUG t num = (Outcome.ok, some fd) := by
  simp [isilonGetFileDescByID, isilonIsObjIDValid, h]

/-- C11: the lookup of a file descriptor by id answers the unknown-descriptor error exactly
when the id is not in the table, and so does the lookup of a directory descriptor; a live
id of the right kind is found in every build; and in a build with `ISILON_DEBUG` a live id
of the other kind (a directory for `isilonGetFileDescByID`, a file for
`isilonGetDirDescByID`) is the unexpected-object-type error. -/
theorem isilonGetFileDescByID_unknown_iff_absent (ISILON_DEBUG : Bool) (t : ObjDescTable)
    (num : Int) :
    ((isilonGetFileDescByID ISILON_DEBUG t num).1
        = Outcome.error ISILON_ERR_UNKNOWN_OBJ_DESC ↔ t.find num = none)
      ∧ ((isilonGetDirDescByID ISILON_DEBUG t num).1
        = Outcome.error ISILON_ERR_UNKNOWN_OBJ_DESC ↔ t.find num = none)
      ∧ (∀ fd, t.find num = some (isilonObjectDesc.file fd) →
          isilonGetFileDescByID ISILON_DEBUG t num = (Outcome.ok, some fd)
            ∧ isilonGetDirDescByID true t num
                = (Outcome.error ISILON_ERR_UNEXPECTED_OBJECT_TYPE, none))
      ∧ (∀ dd, t.find num = some (isilonObjectDesc.dir dd) →
          isilonGetDirDescByID ISILON_DEBUG t num = (Outcome.ok, some dd)
            ∧ isilonGetFileDescByID true t num
                = (Outcome.error ISILON_ERR_UNEXPECTED_OBJECT_TYPE, none)) := by
  refine ⟨?_, ?_, ?_, ?_⟩
  · cases h : t.find num with
    | none => simp [isilonGetFileDescByID, isilonIsObjIDValid, h]
    | some o =>
      cases o <;> cases ISILON_DEBUG <;> simp [isilonGetFileDescByID, isilonIsObjIDValid, h]
  · cases h : t.find num with
    | none => simp [isilonGetDirDescByID, isilonIsObjIDValid, h]
    | some o =>
      cases o <;> cases ISILON_DEBUG <;> simp [isilonGetDirDescByID, isilonIsObjIDValid, h]
  · intro fd h
    exact ⟨isilonGetFileDescByID_of_find_any ISILON_DEBUG t num fd h,
      by simp [isilonGetDirDescByID, isilonIsObjIDValid, h]⟩
  · intro dd h
    exact ⟨isilonGetDirDescByID_of_find ISILON_DEBUG t num dd h,
      by simp [isilonGetFileDescByID, isilonIsObjIDValid, h]⟩

/-- Witness of C11: in `sampleTable` id 0 is a file, id 1 a directory and id 2 is absent. -/
theorem isilonGetFileDescByID_unknown_iff_absent_witness :
    (isilonGetFileDescByID true sampleTable 2).1 = Outcome.error ISILON_ERR_UNKNOWN_OBJ_DESC
      ∧ (isilonGetDirDescByID false sampleTable 2).1
          = Outcome.error ISILON_ERR_UNKNOWN_OBJ_DESC
      ∧ isilonGetFileDescByID true sampleTable 1
          = (Outcome.error ISILON_ERR_UNEXPECTED_OBJECT_TYPE, none)
      ∧ (isilonGetFileDescByID false sampleTable 0).1 = Outcome.ok :=
  ⟨(isilonGetFileDescByID_unknown_iff_absent true sampleTable 2).1.mpr (by decide),
    (isilonGetFileDescByID_unknown_iff_absent false sampleTable 2).2.1.mpr (by decide),
    by decide, by decide⟩

/-! ### Directory listing -/

theorem isilonReaddir_entry (ISILON_DEBUG : Bool) (t : ObjDescTable) (num : Int)
    (de : Option rodsDirent) (path : String) (names : List String) (k : Nat)
    (h : t.find num = some (isilonObjectDesc.dir
      { offset := k, path := path, dir_list := names })) (hk : k < names.length) :
    isilonReaddir ISILON_DEBUG t num de
      = { table := t.store num (isilonObjectDesc.dir
            { offset := (k : Int) + 1, path := path, dir_list := names }),
          result := Outcome.ok,
          de_ptr := some { d_name := names.getD k "", d_ino := 0, d_offset := 0,
                           d_namlen := (names.getD k "").utf8ByteSize },
          is_end := false } := by
  have h1 : ¬ ((k : Int) = (names.length : Int)) := by omega
  have h2 : ¬ ((k : Int) < 0 ∨ (names.length : Int) < (k : Int)) := by omega
  simp only [isilonReaddir, isilonGetDirDescByID_of_find ISILON_DEBUG t num _ h, h1, h2,
    if_false, Int.toNat_ofNat]

theorem isilonReaddir_end (ISILON_DEBUG : Bool) (t : ObjDescTable) (num : Int)
    (de : Option rodsDirent) (path : String) (names : List String)
    (h : t.find num = some (isilonObjectDesc.dir
      { offset := names.length, path := path, dir_list := names })) :
    isilonReaddir ISILON_DEBUG t num de
      = { table := t, result := Outcome.ok, de_ptr := de, is_end := true } := by
  simp only [isilonReaddir, isilonGetDirDescByID_of_find ISILON_DEBUG t num _ h, if_true]

theorem readdirCalls_from (ERR : Int) (ISILON_DEBUG : Bool) (id : Int) (path : String)
    (names : List String) (count : Nat) :
    ∀ (t : ObjDescTable) (k : Nat) (de : Option rodsDirent),
      t.find id = some (isilonObjectDesc.dir
        { offset := k, path := path, dir_list := names }) → k ≤ names.length →
      (readdirCalls ERR ISILON_DEBUG count t (1 + id) de).2
          = ((names.drop k).take count).map
              (fun nm => { result := Outcome.ok, code := 0, name := some nm })
            ++ List.replicate (count - (names.length - k))
              { result := Outcome.ok, code := -1, name := none }
        ∧ (readdirCalls ERR ISILON_DEBUG count t (1 + id) de).1.find id
            = some (isilonObjectDesc.dir
                { offset := (min (k + count) names.length : Nat), path := path,
                  dir_list := names }) := by
  induction count with
  | zero =>
    intro t k de h hk
    simp only [readdirCalls, List.take_zero, List.map_nil, Nat.zero_sub, List.replicate_zero,
      List.append_nil, Nat.add_zero, true_and]
    rw [min_eq_left hk]
    exact h
  | succ count ih =>
    intro t k de h hk
    have hid : (1 : Int) + id - 1 = id := by omega
    rcases Nat.lt_or_ge k names.length with hlt | hge
    · have e := isilonReaddir_entry ISILON_DEBUG t id de path names k h hlt
      have hs := ObjDescTable_find_store t id _ (isilonObjectDesc.dir
        { offset := (k : Int) + 1, path := path, dir_list := names }) h
      have hs' : (t.store id (isilonObjectDesc.dir
          { offset := (k : Int) + 1, path := path, dir_list := names })).find id
          = some (isilonObjectDesc.dir
            { offset := ((k + 1 : Nat) : Int), path := path, dir_list := names }) := by
        rw [hs]; simp
      obtain ⟨i1, i2⟩ := ih _ (k + 1)
        (some ⟨0, 0, (names.getD k "").utf8ByteSize, names.getD k ""⟩) hs' hlt
      simp only [readdirCalls, isilonFileReaddirPlugin.body, hid, e]
      refine ⟨?_, ?_⟩
      · simp only [Bool.false_eq_true, if_false, and_self, if_true, Option.map_some']
        rw [i1]
        have hd : names.drop k = names.getD k "" :: names.drop (k + 1) := by
          rw [List.getD_eq_getElem _ _ hlt]
          exact List.drop_eq_getElem_cons hlt
        rw [hd, List.take_succ_cons, List.map_cons, List.cons_append]
        have hc : count + 1 - (names.length - k) = count - (names.length - (k + 1)) := by
          omega
        rw [hc]
      · simp only [Bool.false_eq_true, if_false]
        rw [i2]
        have hm : min (k + 1 + count) names.length = min (k + (count + 1)) names.length := by
          omega
        rw [hm]
    · have hkn : k = names.length := by omega
      subst hkn
      have e := isilonReaddir_end ISILON_DEBUG t id de path names h
      obtain ⟨i1, i2⟩ := ih t names.length de h (le_refl _)
      simp only [readdirCalls, isilonFileReaddirPlugin.body, hid, e]
      refine ⟨?_, ?_⟩
      · simp only [if_true]
        rw [i1]
        simp only [List.drop_length, List.take_nil, List.map_nil, List.nil_append,
          Nat.sub_self, Nat.sub_zero]
        simp [List.replicate_succ]
      · simp only [if_true]
        rw [i2]
        have hm : min (names.length + count) names.length
            = min (names.length + (count + 1)) names.length := by omega
        rw [hm]

theorem isilonNewDirDesc_fresh (t : ObjDescTable) (path : String) (dir_list : List String)
    (h : ∀ k ∈ t.ids, k < t.NEXT_OBJ_DESC_NUM) :
    (isilonNewDirDesc t path dir_list).2 = t.NEXT_OBJ_DESC_NUM
      ∧ (isilonNewDirDesc t path dir_list).1.find t.NEXT_OBJ_DESC_NUM
          = some (isilonObjectDesc.dir { offset := 0, path := path, dir_list := dir_list }) := by
  have hf := ObjDescTable_find_fresh t h
  have hi := ObjDescTable_find_insert t t.NEXT_OBJ_DESC_NUM
    (isilonObjectDesc.dir { offset := 0, path := path, dir_list := dir_list }) hf
  have hn := ObjDescTable_next_insert t t.NEXT_OBJ_DESC_NUM
    (isilonObjectDesc.dir { offset := 0, path := path, dir_list := dir_list })
  exact ⟨hn, hi⟩

/-- C16: on the directory descriptor that `isilonNewDirDesc` creates for opendir over a
listing `names` of `n` entries (in a table whose live ids are below the counter), the
answers of any number `count` of readdir calls are: for the calls `i ≤ n` the name of entry
`i - 1` with code 0, in order, and for every later call the end of the listing (code `-1`,
no entry); after the calls the index is `min count n`, so each call with `i ≤ n` advances
it to `i` and the later ones leave it at `n`. -/
theorem readdir_returns_snapshot_in_order (ISILON_ERR_CODE_FILE_READDIR_ERR : Int)
    (ISILON_DEBUG : Bool) (t : ObjDescTable) (path : String) (names : List String)
    (de : Option rodsDirent) (count : Nat) (ht : ∀ k ∈ t.ids, k < t.NEXT_OBJ_DESC_NUM) :
    (readdirCalls ISILON_ERR_CODE_FILE_READDIR_ERR ISILON_DEBUG count
        (isilonNewDirDesc t path names).1 (1 + (isilonNewDirDesc t path names).2) de).2
        = (names.take count).map
            (fun nm => { result := Outcome.ok, code := 0, name := some nm })
          ++ List.replicate (count - names.length)
            { result := Outcome.ok, code := -1, name := none }
      ∧ (readdirCalls ISILON_ERR_CODE_FILE_READDIR_ERR ISILON_DEBUG count
          (isilonNewDirDesc t path names).1 (1 + (isilonNewDirDesc t path names).2)
          de).1.find (isilonNewDirDesc t path names).2
          = some (isilonObjectDesc.dir
              { offset := (min count names.length : Nat), path := path,
                dir_list := names }) := by
  obtain ⟨n1, n2⟩ := isilonNewDirDesc_fresh t path names ht
  rw [n1]
  have h := readdirCalls_from ISILON_ERR_CODE_FILE_READDIR_ERR ISILON_DEBUG
    t.NEXT_OBJ_DESC_NUM path names count (isilonNewDirDesc t path names).1 0 de
    (by simpa using n2) (Nat.zero_le _)
  simpa using h

/-- Witness of C16: five readdir calls after opendir over the listing `a`, `b`, `c` in a
fresh process. -/
theorem readdir_returns_snapshot_in_order_witness :
    (readdirCalls (-100) false 5 (isilonNewDirDesc ObjDescTable.initial "/zone/dir"
        ["a", "b", "c"]).1 (1 + (isilonNewDirDesc ObjDescTable.initial "/zone/dir"
        ["a", "b", "c"]).2) none).2
      = [{ result := Outcome.ok, code := 0, name := some "a" },
         { result := Outcome.ok, code := 0, name := some "b" },
         { result := Outcome.ok, code := 0, name := some "c" },
         { result := Outcome.ok, code := -1, name := none },
         { result := Outcome.ok, code := -1, name := none }] :=
  (readdir_returns_snapshot_in_order (-100) false ObjDescTable.initial "/zone/dir"
    ["a", "b", "c"] none 5 (by decide)).1

/-- C17 (the defect): `isilonReaddir` drops the answer of the descriptor lookup, so for an
id that is not in the table the call does not return the unknown-descriptor error: it goes
on to `dd->getDirList()` through the null pointer, which is undefined, in every build and
also through the plugin interface. -/
theorem isilonReaddir_undefined_on_unknown_id (ISILON_ERR_CODE_FILE_READDIR_ERR : Int)
    (ISILON_DEBUG : Bool) (t : ObjDescTable) (num : Int) (de : Option rodsDirent)
    (h : t.find num = none) :
    (isilonGetDirDescByID ISILON_DEBUG t num).1 = Outcome.error ISILON_ERR_UNKNOWN_OBJ_DESC
      ∧ (isilonReaddir ISILON_DEBUG t num de).result = Outcome.undefined
      ∧ (isilonFileReaddirPlugin.body ISILON_ERR_CODE_FILE_READDIR_ERR ISILON_DEBUG t
          (num + 1) de).result = Outcome.undefined := by
  have hg : isilonGetDirDescByID ISILON_DEBUG t num
      = (Outcome.error ISILON_ERR_UNKNOWN_OBJ_DESC, none) := by
    simp [isilonGetDirDescByID, isilonIsObjIDValid, h]
  have hr : isilonReaddir ISILON_DEBUG t num de
      = { table := t, result := Outcome.undefined, de_ptr := de, is_end := false } := by
    simp only [isilonReaddir, hg]
  have hid : num + 1 - 1 = num := by omega
  refine ⟨by rw [hg], by rw [hr], ?_⟩
  simp only [isilonFileReaddirPlugin.body, hid, hr]

/-- Witness of C17: readdir on id 2 of `sampleTable`, whose live ids are 0 and 1. -/
theorem isilonReaddir_undefined_on_unknown_id_witness :
    sampleTable.find 2 = none
      ∧ (isilonReaddir false sampleTable 2 none).result = Outcome.undefined :=
  ⟨by decide, (isilonReaddir_undefined_on_unknown_id (-100) false sampleTable 2 none
    (by decide)).2.1⟩

/-! ### Open and close by id -/

/-- C18: when `getFileInfo` answers that the file does not exist (an object of type
`H_NULL`), `isilonOpenFile` fails, for every value of the flags, with the file-not-exist
error and `*status = ENOENT`; the plugin interface sets the code
`ISILON_ERR_CODE_FILE_OPEN_ERR - ENOENT` and the file descriptor `-1`; the descriptor table
with its counter is unchanged, and the only remote call made is that `getFileInfo`. -/
theorem isilonOpenFile_missing_file_is_ENOENT {σ : Type}
    (ISILON_ERR_CODE_FILE_OPEN_ERR : Int) (api : hdfs σ) (nn : σ) (t : ObjDescTable)
    (path : String) (flags : Nat) (buff_size : Nat)
    (h : (api.getFileInfo nn path).2 = Except.ok none) :
    (isilonOpenFile api.traced (nn, []) t path flags buff_size).result
        = Outcome.error ISILON_ERR_FILE_NOT_EXIST
      ∧ (isilonOpenFile api.traced (nn, []) t path flags buff_size).status = ENOENT
      ∧ (isilonOpenFile api.traced (nn, []) t path flags buff_size).table = t
      ∧ (isilonOpenFile api.traced (nn, []) t path flags buff_size).nn.2
          = [hdfs_call.getFileInfo path]
      ∧ (isilonFileOpenPlugin.body ISILON_ERR_CODE_FILE_OPEN_ERR api.traced (nn, []) t path
          flags buff_size).code = ISILON_ERR_CODE_FILE_OPEN_ERR - ENOENT
      ∧ (isilonFileOpenPlugin.body ISILON_ERR_CODE_FILE_OPEN_ERR api.traced (nn, []) t path
          flags buff_size).file_descriptor = -1
      ∧ (isilonFileOpenPlugin.body ISILON_ERR_CODE_FILE_OPEN_ERR api.traced (nn, []) t path
          flags buff_size).table = t := by
  have e : isilonOpenFile api.traced (nn, []) t path flags buff_size
      = { nn := ((api.getFileInfo nn path).1, [hdfs_call.getFileInfo path]), table := t,
          file_id := 0, result := Outcome.error ISILON_ERR_FILE_NOT_EXIST,
          status := ENOENT } := by
    simp [isilonOpenFile, isilonGetHDFSFileInfo, hdfs.traced, h]
  simp [isilonFileOpenPlugin.body, e]

/-- Witness of C18: a read-only open on the simulated store that holds no file. -/
theorem isilonOpenFile_missing_file_is_ENOENT_witness :
    (isilonFileOpenPlugin.body (-730000) SimStore.apiNoFile.traced (sampleStore, [])
        sampleTable "/zone/none" O_RDONLY 8).code = -730000 - ENOENT
      ∧ (isilonOpenFile SimStore.apiNoFile.traced (sampleStore, []) sampleTable "/zone/none"
          O_RDONLY 8).table = sampleTable :=
  ⟨(isilonOpenFile_missing_file_is_ENOENT (-730000) SimStore.apiNoFile sampleStore
      sampleTable "/zone/none" O_RDONLY 8 rfl).2.2.2.2.1,
    by decide⟩

theorem exactCover_le : ∀ (blocks : List located_block) (start stop : Int),
    exactCover blocks start stop → start ≤ stop := by
  intro blocks
  induction blocks with
  | nil => intro start stop h; exact le_of_eq h
  | cons b rest ih =>
    intro start stop h
    have := ih _ _ h.2.2
    have := h.2.1
    omega

theorem isilonFillBufferFromHDFS_blocks_exactCover {σ : Type} (api : hdfs σ)
    (data : located_block → List Byte) (Inv : σ → Prop) (offset len : Int)
    (extra : List located_block) :
    ∀ (blocks : List located_block) (start : Int) (s : σ) (j : List hdfs_call)
      (dest : List Byte) (pos to_read : Int),
      blocks ≠ [] → exactCover blocks start (offset + len) → offset ≤ start →
      to_read = offset + len - start → 0 ≤ pos → pos + to_read ≤ dest.length → Inv s →
      (∀ s, Inv s → ∀ b ∈ blocks,
        (api.datanode_new s b).2 = true ∧ Inv (api.datanode_new s b).1) →
      (∀ s, Inv s → ∀ b ∈ blocks, (api.datanode_read s b 0 b.len).2 = some (data b)
        ∧ ((data b).length : Int) = b.len ∧ Inv (api.datanode_read s b 0 b.len).1) →
      (isilonFillBufferFromHDFS.blocks api.traced offset len (blocks ++ extra) (s, j) dest
          pos to_read).result = Outcome.ok
        ∧ (isilonFillBufferFromHDFS.blocks api.traced offset len (blocks ++ extra) (s, j)
            dest pos to_read).dest = memcpyInto dest pos.toNat (blocks.map data).flatten
        ∧ (isilonFillBufferFromHDFS.blocks api.traced offset len (blocks ++ extra) (s, j)
            dest pos to_read).nn.2 = j ++ wholeBlockReads blocks := by
  intro blocks
  induction blocks with
  | nil => intro _ _ _ _ _ _ h; exact absurd rfl h
  | cons b rest ih =>
    intro start s j dest pos to_read _ hcov hstart hto hpos hdst hinv hnew hread
    obtain ⟨c1, c2, c3⟩ := hcov
    have hle := exactCover_le rest _ _ c3
    have hmem : b ∈ b :: rest := List.mem_cons_self _ _
    obtain ⟨n1, n2⟩ := hnew s hinv b hmem
    obtain ⟨r1, r2, r3⟩ := hread (api.datanode_new s b).1 n2 b hmem
    have hn : api.traced.datanode_new (s, j) b
        = (((api.datanode_new s b).1, j ++ [hdfs_call.datanode_new b]), true) :=
      Prod.ext rfl n1
    have hr : api.traced.datanode_read
          ((api.datanode_new s b).1, j ++ [hdfs_call.datanode_new b]) b 0 b.len
        = (((api.datanode_read (api.datanode_new s b).1 b 0 b.len).1,
            j ++ [hdfs_call.datanode_new b] ++ [hdfs_call.datanode_read b 0 b.len]),
           some (data b)) :=
      Prod.ext rfl r1
    have hchk : b.offset + b.len > offset ∧ b.offset < offset + len := by omega
    have hb0 : ¬ (b.offset < offset) := by omega
    have hb1 : ¬ (b.offset + b.len > offset + len) := by omega
    have hfit : ¬ (pos < 0 ∨ (dest.length : Int) < pos + ((data b).length : Int)) := by omega
    rw [List.cons_append, isilonFillBufferFromHDFS.blocks]
    simp only [hchk, and_self, not_true_eq_false, if_false, hn, hb0, hb1, sub_zero, hr, hfit]
    by_cases hrest : rest = []
    · subst hrest
      have hz : to_read - b.len = 0 := by
        simp only [exactCover] at c3
        omega
      simp only [hz, if_true, List.map_cons, List.map_nil, List.flatten_cons,
        List.flatten_nil, List.append_nil, wholeBlockReads, List.flatMap_cons,
        List.flatMap_nil, true_and]
      simp
    · have hnz : ¬ (to_read - b.len = 0) := by
        cases rest with
        | nil => exact absurd rfl hrest
        | cons b2 rest2 =>
          have h2 := exactCover_le rest2 _ _ c3.2.2
          have h3 := c3.2.1
          have h4 := c3.1
          omega
      simp only [hnz, if_false]
      have hlen : (memcpyInto dest pos.toNat (data b)).length = dest.length := by
        apply memcpyInto_length
        omega
      obtain ⟨i1, i2, i3⟩ := ih (start + b.len)
        (api.datanode_read (api.datanode_new s b).1 b 0 b.len).1
        (j ++ [hdfs_call.datanode_new b] ++ [hdfs_call.datanode_read b 0 b.len])
        (memcpyInto dest pos.toNat (data b)) (pos + b.len) (to_read - b.len) hrest c3
        (by omega) (by omega) (by omega) (by rw [hlen]; omega) r3
        (fun s hs b' hb' => hnew s hs b' (List.mem_cons_of_mem _ hb'))
        (fun s hs b' hb' => hread s hs b' (List.mem_cons_of_mem _ hb'))
      refine ⟨i1, ?_, ?_⟩
      · rw [i2]
        have hp : (pos + b.len).toNat = pos.toNat + (data b).length := by omega
        rw [hp, memcpyInto_memcpyInto dest _ _ _ (by omega)]
        simp
      · rw [i3]
        simp [wholeBlockReads]

theorem exactCover_flatten_length (data : located_block → List Byte) :
    ∀ (blocks : List located_block) (start stop : Int), exactCover blocks start stop →
      (∀ b ∈ blocks, ((data b).length : Int) = b.len) →
      (((blocks.map data).flatten.length : Nat) : Int) = stop - start := by
  intro blocks
  induction blocks with
  | nil =>
    intro start stop h _
    simp only [exactCover] at h
    simp [h]
  | cons b rest ih =>
    intro start stop h hd
    have h1 := ih _ _ h.2.2 (fun b' hb' => hd b' (List.mem_cons_of_mem _ hb'))
    have h2 := hd b (List.mem_cons_self _ _)
    simp only [List.map_cons, List.flatten_cons, List.length_append, Nat.cast_add]
    omega

/-- C19: let the placement response to a range fetch of `[offset, offset + len)` be
`N ≥ 1` blocks, ascending, contiguous, each of at least one byte and together covering
exactly the range, followed by one more entry `trailing`, which may be anything.  If the
block servers of the `N` blocks can be reached and serve the blocks whole (`data b` for
block `b`), the fetch succeeds, the `len` bytes stored at the destination are the data of
the `N` blocks in order, and the remote calls are the placement request and then, for each
of the `N` blocks in turn, one connection and one read: nothing is done with the trailing
entry, whose range is not even checked, since the answer does not depend on it. -/
theorem isilonFillBufferFromHDFS_ignores_trailing_entry {σ : Type} (api : hdfs σ)
    (data : located_block → List Byte) (Inv : σ → Prop) (nn : σ) (path : String)
    (dest : List Byte) (pos offset len : Int) (blocks : List located_block)
    (trailing : located_block) (hne : blocks ≠ [])
    (hcov : exactCover blocks offset (offset + len))
    (hget : (api.getBlockLocations nn path offset len).2
      = Except.ok (some (blocks ++ [trailing])))
    (hinv : Inv (api.getBlockLocations nn path offset len).1)
    (hnew : ∀ s, Inv s → ∀ b ∈ blocks,
      (api.datanode_new s b).2 = true ∧ Inv (api.datanode_new s b).1)
    (hread : ∀ s, Inv s → ∀ b ∈ blocks, (api.datanode_read s b 0 b.len).2 = some (data b)
      ∧ ((data b).length : Int) = b.len ∧ Inv (api.datanode_read s b 0 b.len).1)
    (hpos : 0 ≤ pos) (hdst : pos + len ≤ dest.length) :
    (isilonFillBufferFromHDFS api.traced (nn, []) path dest pos offset len).result
        = Outcome.ok
      ∧ (isilonFillBufferFromHDFS api.traced (nn, []) path dest pos offset len).dest
          = memcpyInto dest pos.toNat (blocks.map data).flatten
      ∧ (((blocks.map data).flatten.length : Nat) : Int) = len
      ∧ (isilonFillBufferFromHDFS api.traced (nn, []) path dest pos offset len).nn.2
          = hdfs_call.getBlockLocations path offset len :: wholeBlockReads blocks := by
  have hg : api.traced.getBlockLocations (nn, []) path offset len
      = (((api.getBlockLocations nn path offset len).1,
          [hdfs_call.getBlockLocations path offset len]),
         Except.ok (some (blocks ++ [trailing]))) :=
    Prod.ext rfl hget
  have hl := exactCover_flatten_length data blocks _ _ hcov
    (fun b hb => (hread _ hinv b hb).2.1)
  obtain ⟨i1, i2, i3⟩ := isilonFillBufferFromHDFS_blocks_exactCover api data Inv offset len
    [trailing] blocks offset (api.getBlockLocations nn path offset len).1
    [hdfs_call.getBlockLocations path offset len] dest pos len hne hcov (le_refl _)
    (by omega) hpos hdst hinv hnew hread
  simp only [isilonFillBufferFromHDFS, hg]
  exact ⟨i1, i2, by omega, by simpa using i3⟩

/-- Witness of C19: a fetch of the bytes 8 to 20 of the 21 byte file; the response holds
the blocks of 8 and 5 bytes and then `sampleTrailing`. -/
theorem isilonFillBufferFromHDFS_ignores_trailing_entry_witness :
    (isilonFillBufferFromHDFS (SimStore.apiTrailing sampleTrailing).traced (sampleStore, [])
        "/zone/file" (List.replicate 13 0) 0 8 13).dest = List.range' 8 13
      ∧ (isilonFillBufferFromHDFS (SimStore.apiTrailing sampleTrailing).traced
          (sampleStore, []) "/zone/file" (List.replicate 13 0) 0 8 13).nn.2
          = [hdfs_call.getBlockLocations "/zone/file" 8 13,
             hdfs_call.datanode_new { offset := 8, len := 8, id := 1 },
             hdfs_call.datanode_read { offset := 8, len := 8, id := 1 } 0 8,
             hdfs_call.datanode_new { offset := 16, len := 5, id := 2 },
             hdfs_call.datanode_read { offset := 16, len := 5, id := 2 } 0 5] :=
  ⟨by decide,
    (isilonFillBufferFromHDFS_ignores_trailing_entry (SimStore.apiTrailing sampleTrailing)
      (fun b => sampleStore.blocks.getD b.id []) (fun s => s = sampleStore) sampleStore
      "/zone/file" (List.replicate 13 0) 0 8 13
      [{ offset := 8, len := 8, id := 1 }, { offset := 16, len := 5, id := 2 }]
      sampleTrailing (by decide) (by decide) (by decide) rfl
      (by
        intro s hs b hb
        subst hs
        simp only [List.mem_cons, List.mem_singleton, List.not_mem_nil, or_false] at hb
        rcases hb with rfl | rfl <;> exact ⟨by decide, rfl⟩)
      (by
        intro s hs b hb
        subst hs
        simp only [List.mem_cons, List.mem_singleton, List.not_mem_nil, or_false] at hb
        rcases hb with rfl | rfl <;> exact ⟨by decide, by decide, rfl⟩)
      (by decide) (by decide)).2.2.2⟩

/-! ### Connection properties -/

theorem isDigit_toNat (c : Char) (h : c.isDigit = true) : 48 ≤ c.toNat ∧ c.toNat ≤ 57 := by
  simp only [Char.isDigit, Bool.and_eq_true, decide_eq_true_eq] at h
  obtain ⟨h1, h2⟩ := h
  have e1 : (48 : UInt32).toNat ≤ c.val.toNat := h1
  have e2 : c.val.toNat ≤ (57 : UInt32).toNat := h2
  exact ⟨e1, e2⟩

theorem isspace_of_isDigit (c : Char) (h : c.isDigit = true) : isspace c = false := by
  obtain ⟨h1, h2⟩ := isDigit_toNat c h
  simp only [isspace, Bool.or_eq_false_iff, decide_eq_false_iff_not, Bool.and_eq_false_iff]
  omega

theorem strtoul_digits (digits : List Char) (hne : digits ≠ [])
    (hd : ∀ c ∈ digits, c.isDigit = true) :
    strtoul digits
      = if decimalValue digits > ULONG_MAX then
          { value := ULONG_MAX, reminder := digits.length, errno := true }
        else { value := decimalValue digits, reminder := digits.length, errno := false } := by
  obtain ⟨d, rest, rfl⟩ := List.exists_cons_of_ne_nil hne
  have hdd := hd d (List.mem_cons_self _ _)
  have hsp := isspace_of_isDigit d hdd
  have hn := isDigit_toNat d hdd
  have hm : ¬ (d = '-') := by
    intro h
    rw [h] at hn
    exact absurd hn.1 (by decide)
  have hp : ¬ (d = '+') := by
    intro h
    rw [h] at hn
    exact absurd hn.1 (by decide)
  have ht : (d :: rest).takeWhile Char.isDigit = d :: rest :=
    List.takeWhile_eq_self_iff.mpr hd
  simp only [strtoul, List.takeWhile_cons, hsp, List.dropWhile_cons, Bool.false_eq_true,
    if_false, List.head?_cons, Option.some.injEq, hm, hp, or_self, decide_False, ht,
    List.length_nil, Nat.sub_self, Nat.zero_add, reduceCtorEq]

theorem c_str_digits (s : String) (hd : ∀ c ∈ s.toList, c.isDigit = true) :
    c_str s = s.toList := by
  apply List.takeWhile_eq_self_iff.mpr
  intro c hc
  have hn := isDigit_toNat c (hd c hc)
  simp only [ne_eq, decide_not, Bool.not_eq_true', decide_eq_false_iff_not]
  intro h
  rw [h] at hn
  exact absurd hn.1 (by decide)

theorem isilonParseConnectionProps_buf_size (prop_map : plugin_property_map) :
    (isilonParseConnectionProps prop_map).2.buf_size
      = match prop_map.get_string ISILON_BUFSIZE_KEY with
        | none => 64 * 2 ^ 20
        | some s =>
          if (strtoul (c_str s)).errno = true ∨ (strtoul (c_str s)).reminder = 0
              ∨ (strtoul (c_str s)).reminder < (c_str s).length then 64 * 2 ^ 20
          else clampedBufferSize (strtoul (c_str s)).value := by
  simp only [isilonParseConnectionProps]
  cases prop_map.get_string ISILON_BUFSIZE_KEY with
  | none => simp only []; norm_num
  | some s =>
    simp only [clampedBufferSize, ULONG_MAX]
    generalize strtoul (c_str s) = r
    split
    · norm_num
    · split
      · have : r.value = 0 := by omega
        simp [this]
      · split
        · rw [max_eq_left (by omega), min_eq_right (by omega)]
          norm_num
        · rw [max_eq_left (by omega), min_eq_left (by omega)]
          have h1 : r.value * 1024 * 1024 < 2 ^ 64 - 1 + 1 := by omega
          rw [Nat.mod_eq_of_lt h1]
          ring

theorem clampedBufferSize_range (v : Nat) :
    2 ^ 20 ≤ clampedBufferSize v ∧ clampedBufferSize v ≤ 256 * 2 ^ 20 := by
  simp only [clampedBufferSize]
  constructor
  · calc 2 ^ 20 = 1 * 2 ^ 20 := by norm_num
      _ ≤ min (max v 1) 256 * 2 ^ 20 := Nat.mul_le_mul_right _ (by omega)
  · exact Nat.mul_le_mul_right _ (by omega)

theorem takeWhile_length_lt_of_mem {α : Type} (p : α → Bool) :
    ∀ (l : List α), (∃ c ∈ l, p c = false) → (l.takeWhile p).length < l.length := by
  intro l
  induction l with
  | nil => rintro ⟨c, hc, _⟩; simp at hc
  | cons a l ih =>
    rintro ⟨c, hc, hp⟩
    by_cases ha : p a = true
    · rw [List.takeWhile_cons, if_pos ha]
      rcases List.mem_cons.mp hc with h | h
      · subst h
        rw [ha] at hp
        exact absurd hp (by simp)
      · have := ih ⟨c, h, hp⟩
        simp only [List.length_cons]
        omega
    · rw [List.takeWhile_cons, if_neg ha]
      simp

theorem strtoul_unparsable (cs : List Char)
    (hhead : ∀ c, cs.head? = some c → isspace c = false ∧ c ≠ '+' ∧ c ≠ '-')
    (hnd : cs = [] ∨ ∃ c ∈ cs, c.isDigit = false) :
    (strtoul cs).errno = true ∨ (strtoul cs).reminder = 0
      ∨ (strtoul cs).reminder < cs.length := by
  cases cs with
  | nil => right; left; simp [strtoul]
  | cons c rest =>
    obtain ⟨h1, h2, h3⟩ := hhead c rfl
    have hnd' : ∃ x ∈ c :: rest, x.isDigit = false := by
      rcases hnd with h | h
      · exact absurd h (List.cons_ne_nil _ _)
      · exact h
    have hlt := takeWhile_length_lt_of_mem Char.isDigit (c :: rest) hnd'
    by_cases hc : c.isDigit = true
    · rw [List.takeWhile_cons, if_pos hc] at hlt
      simp only [strtoul, List.takeWhile_cons, h1, List.dropWhile_cons, Bool.false_eq_true,
        if_false, List.head?_cons, Option.some.injEq, h2, h3, or_self, decide_False,
        List.length_nil, Nat.sub_self, Nat.zero_add, reduceCtorEq, hc, if_true]
      split
      · left; rfl
      · right; right
        exact hlt
    · right; left
      simp only [strtoul, List.takeWhile_cons, h1, List.dropWhile_cons, Bool.false_eq_true,
        if_false, List.head?_cons, Option.some.injEq, h2, h3, or_self, decide_False,
        List.length_nil, Nat.sub_self, Nat.zero_add, reduceCtorEq, hc, if_true]

/-- C15, amended: for every property map `isilonParseConnectionProps` succeeds and yields a
buffer size between `2^20` and `256 * 2^20` bytes.  It is `64 * 2^20` when the buffer-size
property is absent, and when the property, read as a C string, does not start with white
space or a sign and is empty or holds a character that is not a decimal digit.  For a
non-empty string of decimal digits of value `v` it is `clamp(v, 1, 256) * 2^20` when
`v ≤ ULONG_MAX` and `64 * 2^20` when `v > ULONG_MAX`. -/
theorem isilonParseConnectionProps_buf_size_clamped (prop_map : plugin_property_map) :
    (isilonParseConnectionProps prop_map).1 = Outcome.ok
      ∧ 2 ^ 20 ≤ (isilonParseConnectionProps prop_map).2.buf_size
      ∧ (isilonParseConnectionProps prop_map).2.buf_size ≤ 256 * 2 ^ 20
      ∧ (prop_map.get_string ISILON_BUFSIZE_KEY = none →
          (isilonParseConnectionProps prop_map).2.buf_size = 64 * 2 ^ 20)
      ∧ (∀ s, prop_map.get_string ISILON_BUFSIZE_KEY = some s →
          (∀ c, (c_str s).head? = some c → isspace c = false ∧ c ≠ '+' ∧ c ≠ '-') →
          (c_str s = [] ∨ ∃ c ∈ c_str s, c.isDigit = false) →
          (isilonParseConnectionProps prop_map).2.buf_size = 64 * 2 ^ 20)
      ∧ (∀ s, prop_map.get_string ISILON_BUFSIZE_KEY = some s → s.toList ≠ [] →
          (∀ c ∈ s.toList, c.isDigit = true) →
          (isilonParseConnectionProps prop_map).2.buf_size
            = if decimalValue s.toList ≤ ULONG_MAX then
                clampedBufferSize (decimalValue s.toList)
              else 64 * 2 ^ 20) := by
  have e := isilonParseConnectionProps_buf_size prop_map
  refine ⟨rfl, ?_, ?_, ?_, ?_, ?_⟩
  · rw [e]
    split
    · norm_num
    · split
      · norm_num
      · exact (clampedBufferSize_range _).1
  · rw [e]
    split
    · norm_num
    · split
      · norm_num
      · exact (clampedBufferSize_range _).2
  · intro h
    rw [e, h]
  · intro s h hhead hnd
    rw [e, h]
    exact if_pos (strtoul_unparsable (c_str s) hhead hnd)
  · intro s h hne hd
    rw [e, h]
    dsimp only
    rw [c_str_digits s hd]
    have hs := strtoul_digits s.toList hne hd
    by_cases hv : decimalValue s.toList > ULONG_MAX
    · have hv' : ¬ (decimalValue s.toList ≤ ULONG_MAX) := by omega
      rw [if_pos hv] at hs
      rw [hs, if_neg hv']
      exact if_pos (Or.inl rfl)
    · have hv' : decimalValue s.toList ≤ ULONG_MAX := by omega
      have hl : s.toList.length ≠ 0 := fun h0 => hne (List.length_eq_zero.mp h0)
      rw [if_neg hv] at hs
      rw [hs, if_pos hv']
      apply if_neg
      intro h
      rcases h with h | h | h
      · exact Bool.false_ne_true h
      · exact hl h
      · exact lt_irrefl _ h

/-- Witness of C15 (amended): the buffer-size property `300` gives 256 MiB and the
buffer-size property `12x` gives the default 64 MiB. -/
theorem isilonParseConnectionProps_buf_size_clamped_witness :
    (bufsizeProperty "300").get_string ISILON_BUFSIZE_KEY = some "300"
      ∧ (isilonParseConnectionProps (bufsizeProperty "300")).2.buf_size = 256 * 2 ^ 20
      ∧ (bufsizeProperty "12x").get_string ISILON_BUFSIZE_KEY = some "12x"
      ∧ (isilonParseConnectionProps (bufsizeProperty "12x")).2.buf_size = 64 * 2 ^ 20 :=
  ⟨by decide,
    ((isilonParseConnectionProps_buf_size_clamped (bufsizeProperty "300")).2.2.2.2.2 "300"
      (by decide) (by decide) (by decide)).trans (by decide),
    by decide,
    (isilonParseConnectionProps_buf_size_clamped (bufsizeProperty "12x")).2.2.2.2.1 "12x"
      (by decide) (by decide) (Or.inr ⟨'x', by decide, by decide⟩)⟩

/-- Counterexample to C15 as stated: the buffer-size property `18446744073709551616` is a
complete decimal number, of value `2^64`, for which the stated size is
`clamp(2^64, 1, 256) * 2^20 = 256 * 2^20`; `strtoul` reports it out of range and the
size is the default `64 * 2^20`. -/
theorem isilonParseConnectionProps_out_of_range_is_default :
    decimalValue "18446744073709551616".toList = 2 ^ 64
      ∧ clampedBufferSize (2 ^ 64) = 256 * 2 ^ 20
      ∧ (isilonParseConnectionProps (bufsizeProperty "18446744073709551616")).2.buf_size
          = 64 * 2 ^ 20
      ∧ (isilonParseConnectionProps (bufsizeProperty "18446744073709551616")).2.buf_size
          ≠ clampedBufferSize (decimalValue "18446744073709551616".toList) := by
  refine ⟨by decide, by decide, by decide, by decide⟩

/-! ### Connections -/

theorem toDigitsCore_isDigit : ∀ (fuel n : Nat) (ds : List Char),
    (∀ c ∈ ds, c.isDigit = true) → ∀ c ∈ Nat.toDigitsCore 10 fuel n ds, c.isDigit = true := by
  intro fuel
  induction fuel with
  | zero => intro n ds h c hc; exact h c hc
  | succ fuel ih =>
    intro n ds h c hc
    have hdig : ∀ d, d < 10 → (Nat.digitChar d).isDigit = true := by decide
    have hd := hdig (n % 10) (Nat.mod_lt _ (by decide))
    have hds : ∀ c ∈ Nat.digitChar (n % 10) :: ds, c.isDigit = true := by
      intro c hc
      rcases List.mem_cons.mp hc with h1 | h1
      · rw [h1]; exact hd
      · exact h c h1
    simp only [Nat.toDigitsCore] at hc
    split at hc
    · exact hds c hc
    · exact ih _ _ hds c hc

theorem toDigitsCore_ne_nil : ∀ (fuel n : Nat) (ds : List Char),
    ds ≠ [] → Nat.toDigitsCore 10 fuel n ds ≠ [] := by
  intro fuel
  induction fuel with
  | zero => intro n ds h; exact h
  | succ fuel ih =>
    intro n ds _
    simp only [Nat.toDigitsCore]
    split
    · exact List.cons_ne_nil _ _
    · exact ih _ _ (List.cons_ne_nil _ _)

theorem toDigits_isDigit (n : Nat) : ∀ c ∈ Nat.toDigits 10 n, c.isDigit = true :=
  toDigitsCore_isDigit (n + 1) n [] (fun _ h => absurd h (List.not_mem_nil _))

theorem toDigits_ne_nil (n : Nat) : Nat.toDigits 10 n ≠ [] := by
  simp only [Nat.toDigits, Nat.toDigitsCore]
  split
  · exact List.cons_ne_nil _ _
  · exact toDigitsCore_ne_nil _ _ _ (List.cons_ne_nil _ _)

theorem isilonGetConnection_names (p : ConnectionProps) :
    isilonGetConnection.names p = (String.mk (Nat.toDigits 10 p.port_num), "") := by
  have hd := toDigits_isDigit p.port_num
  have hne := toDigits_ne_nil p.port_num
  have hsp : ∀ c ∈ Nat.toDigits 10 p.port_num, isspace c = false :=
    fun c hc => isspace_of_isDigit c (hd c hc)
  obtain ⟨d, rest, hdr⟩ := List.exists_cons_of_ne_nil hne
  have h1 : (Nat.toDigits 10 p.port_num).dropWhile isspace = Nat.toDigits 10 p.port_num := by
    rw [hdr, List.dropWhile_cons, hsp d (by rw [hdr]; exact List.mem_cons_self _ _)]
    rfl
  have h2 : (Nat.toDigits 10 p.port_num).takeWhile (fun c => !isspace c)
      = Nat.toDigits 10 p.port_num :=
    List.takeWhile_eq_self_iff.mpr (fun c hc => by simp [hsp c hc])
  have h3 : (Nat.toDigits 10 p.port_num).dropWhile (fun c => !isspace c) = [] :=
    List.dropWhile_eq_nil_iff.mpr (fun c hc => by simp [hsp c hc])
  simp only [isilonGetConnection.names, stringstream.insert_ulong, stringstream.extract_string,
    stringstream.empty, stringstream.good, Bool.not_false, Bool.and_self, if_true,
    List.nil_append, List.drop_zero, h1, hne, if_false, h2, h3, decide_True, Bool.not_true,
    Bool.false_and, Bool.false_eq_true]

theorem isilonGetConnection_key_str (p : ConnectionProps) :
    isilonGetConnection.key_str p
      = "" ++ p.host_name ++ String.mk (Nat.toDigits 10 p.port_num) ++ p.user_name := by
  simp only [isilonGetConnection.key_str, isilonGetConnection_names]

theorem ConnectionTable_find_insert (c : ConnectionTable) (key : String)
    (val : isilonConnectionDesc) (h : c.find key = none) :
    (c.insert key val).find key = some val := by
  unfold ConnectionTable.insert
  rw [if_neg (by simp [h])]
  simp [ConnectionTable.find]

theorem isilonGetConnection_hit {ν : Type} (api : hdfs_namenodes ν) (nn : ν)
    (c : ConnectionTable) (prop_map : plugin_property_map) (conn : isilonConnectionDesc)
    (h : c.find (isilonGetConnection.key_str (isilonGetConnection.props prop_map))
      = some conn) :
    isilonGetConnection false api nn c prop_map
      = { nn := nn, table := c, result := Outcome.ok, connection := some conn } := by
  simp [isilonGetConnection, h]

theorem isilonGetConnection_ok_cached {ν : Type} (api : hdfs_namenodes ν) (nn : ν)
    (c : ConnectionTable) (prop_map : plugin_property_map)
    (h : (isilonGetConnection false api nn c prop_map).result = Outcome.ok) :
    ∃ conn, (isilonGetConnection false api nn c prop_map).connection = some conn
      ∧ (isilonGetConnection false api nn c prop_map).table.find
          (isilonGetConnection.key_str (isilonGetConnection.props prop_map)) = some conn := by
  cases hf : c.find (isilonGetConnection.key_str (isilonGetConnection.props prop_map)) with
  | some conn =>
    rw [isilonGetConnection_hit api nn c prop_map conn hf]
    exact ⟨conn, rfl, hf⟩
  | none =>
    have hf' : ({ c with allocated := c.allocated + 1 } : ConnectionTable).find
        (isilonGetConnection.key_str (isilonGetConnection.props prop_map)) = none := hf
    unfold isilonGetConnection at h ⊢
    simp only [hf, Option.isSome_none, Bool.false_eq_true, and_false, if_false] at h ⊢
    split at h
    · simp at h
    · split at h
      · simp at h
      · split at h
        · simp at h
        · rename_i hv
          rw [if_neg hv]
          exact ⟨_, rfl, ConnectionTable_find_insert _ _ _ hf'⟩

/-- C12: with caching enabled, after a successful `isilonGetConnection` a second call with
the same properties succeeds, answers the same connection object, leaves the connection
table as it is and makes no remote call: remote state and journal are unchanged. -/
theorem isilonGetConnection_second_call_returns_cached {ν : Type} (api : hdfs_namenodes ν)
    (nn : ν) (j : List namenode_call) (c : ConnectionTable) (prop_map : plugin_property_map)
    (h : (isilonGetConnection false api.traced (nn, j) c prop_map).result = Outcome.ok) :
    (isilonGetConnection false api.traced
        (isilonGetConnection false api.traced (nn, j) c prop_map).nn
        (isilonGetConnection false api.traced (nn, j) c prop_map).table prop_map).result
        = Outcome.ok
      ∧ (isilonGetConnection false api.traced (nn, j) c prop_map).connection.isSome = true
      ∧ (isilonGetConnection false api.traced
          (isilonGetConnection false api.traced (nn, j) c prop_map).nn
          (isilonGetConnection false api.traced (nn, j) c prop_map).table prop_map).connection
          = (isilonGetConnection false api.traced (nn, j) c prop_map).connection
      ∧ (isilonGetConnection false api.traced
          (isilonGetConnection false api.traced (nn, j) c prop_map).nn
          (isilonGetConnection false api.traced (nn, j) c prop_map).table prop_map).table
          = (isilonGetConnection false api.traced (nn, j) c prop_map).table
      ∧ (isilonGetConnection false api.traced
          (isilonGetConnection false api.traced (nn, j) c prop_map).nn
          (isilonGetConnection false api.traced (nn, j) c prop_map).table prop_map).nn
          = (isilonGetConnection false api.traced (nn, j) c prop_map).nn := by
  obtain ⟨conn, e1, e2⟩ := isilonGetConnection_ok_cached api.traced (nn, j) c prop_map h
  rw [isilonGetConnection_hit api.traced _ _ prop_map conn e2, e1]
  exact ⟨rfl, rfl, rfl, rfl, rfl⟩

/-- Witness of C12: two calls for the same properties in a fresh process; the first opens
a session and asks for the protocol version, the second makes no call. -/
theorem isilonGetConnection_second_call_returns_cached_witness :
    (isilonGetConnection false (simNamenodes 61).traced (0, []) ConnectionTable.initial
        (connectionProperties "isilon" 8020 "root" 1048576)).nn.2
        = [namenode_call.namenode_new "isilon" "8020" "root",
           namenode_call.getProtocolVersion 0]
      ∧ (isilonGetConnection false (simNamenodes 61).traced
          (isilonGetConnection false (simNamenodes 61).traced (0, []) ConnectionTable.initial
            (connectionProperties "isilon" 8020 "root" 1048576)).nn
          (isilonGetConnection false (simNamenodes 61).traced (0, []) ConnectionTable.initial
            (connectionProperties "isilon" 8020 "root" 1048576)).table
          (connectionProperties "isilon" 8020 "root" 1048576)).nn
          = (isilonGetConnection false (simNamenodes 61).traced (0, [])
              ConnectionTable.initial
              (connectionProperties "isilon" 8020 "root" 1048576)).nn :=
  ⟨by decide,
    (isilonGetConnection_second_call_returns_cached (simNamenodes 61) 0 []
      ConnectionTable.initial (connectionProperties "isilon" 8020 "root" 1048576)
      (by decide)).2.2.2.2⟩

/-- C13 (the defect): the key of `isilonGetConnection` does not depend on the buffer size.
The stream that has delivered `port_name` is at its end, so `ss << buff_size` writes
nothing and `bufsize_name` stays empty: the key is host, port and user only.  Hence, with
caching enabled, after a successful call a call for properties with the same host, port
and user and any other buffer size succeeds with the connection object of the first call,
whose buffer size is that of the first call, and makes no new connection. -/
theorem isilonGetConnection_key_ignores_buffer_size {ν : Type} (api : hdfs_namenodes ν)
    (nn : ν) (c : ConnectionTable) (prop_map other : plugin_property_map)
    (hhost : other.get_string ISILON_HOST_KEY = prop_map.get_string ISILON_HOST_KEY)
    (hport : other.get_ulong ISILON_PORT_KEY = prop_map.get_ulong ISILON_PORT_KEY)
    (huser : other.get_string ISILON_USER_KEY = prop_map.get_string ISILON_USER_KEY)
    (h : (isilonGetConnection false api nn c prop_map).result = Outcome.ok) :
    isilonGetConnection.key_str (isilonGetConnection.props other)
        = isilonGetConnection.key_str (isilonGetConnection.props prop_map)
      ∧ (isilonGetConnection.names (isilonGetConnection.props other)).2 = ""
      ∧ (isilonGetConnection false api (isilonGetConnection false api nn c prop_map).nn
          (isilonGetConnection false api nn c prop_map).table other).result = Outcome.ok
      ∧ (isilonGetConnection false api (isilonGetConnection false api nn c prop_map).nn
          (isilonGetConnection false api nn c prop_map).table other).connection
          = (isilonGetConnection false api nn c prop_map).connection
      ∧ (isilonGetConnection false api (isilonGetConnection false api nn c prop_map).nn
          (isilonGetConnection false api nn c prop_map).table other).table
          = (isilonGetConnection false api nn c prop_map).table := by
  have hk : isilonGetConnection.key_str (isilonGetConnection.props other)
      = isilonGetConnection.key_str (isilonGetConnection.props prop_map) := by
    simp only [isilonGetConnection_key_str, isilonGetConnection.props, hhost, hport, huser]
  obtain ⟨conn, e1, e2⟩ := isilonGetConnection_ok_cached api nn c prop_map h
  rw [← hk] at e2
  rw [isilonGetConnection_hit api _ _ other conn e2, e1, isilonGetConnection_names]
  exact ⟨hk, rfl, rfl, rfl, rfl⟩

/-- Witness of C13: after a connection for a buffer size of 1 MiB, the call for the same
host, port and user with a buffer size of 2 MiB answers the connection object of the first
call, with its buffer size of 1 MiB. -/
theorem isilonGetConnection_key_ignores_buffer_size_witness :
    (isilonGetConnection false (simNamenodes 61)
        (isilonGetConnection false (simNamenodes 61) 0 ConnectionTable.initial
          (connectionProperties "isilon" 8020 "root" 1048576)).nn
        (isilonGetConnection false (simNamenodes 61) 0 ConnectionTable.initial
          (connectionProperties "isilon" 8020 "root" 1048576)).table
        (connectionProperties "isilon" 8020 "root" 2097152)).connection
        = some { addr := 0, port := 8020, host := "isilon", user := "root", name_node := 0,
                 buff_size := 1048576 }
      ∧ isilonGetConnection.key_str
          (isilonGetConnection.props (connectionProperties "isilon" 8020 "root" 2097152))
        = isilonGetConnection.key_str
          (isilonGetConnection.props (connectionProperties "isilon" 8020 "root" 1048576)) :=
  ⟨by decide,
    (isilonGetConnection_key_ignores_buffer_size (simNamenodes 61) 0
      ConnectionTable.initial (connectionProperties "isilon" 8020 "root" 1048576)
      (connectionProperties "isilon" 8020 "root" 2097152) (by decide) (by decide)
      (by decide) (by decide)).1⟩

/-- C14: when `isilonGetConnection` has no cached connection to answer (caching is off, or
the key is not in the table), the session could be opened and the metadata service reports
`version` without raising an exception, then for every `version` other than 61 the call
fails with the invalid-protocol-version error, hands out no connection and leaves the
connection table as it is; with `version = 61` it succeeds with a new connection object
for that session. -/
theorem isilonGetConnection_requires_protocol_version_61 {ν : Type}
    (ISILON_NO_CACHED_CONNECTIONS : Bool) (api : hdfs_namenodes ν) (nn : ν)
    (c : ConnectionTable) (prop_map : plugin_property_map) (name_node : Nat) (version : Int)
    (hmiss : ISILON_NO_CACHED_CONNECTIONS = true
      ∨ c.find (isilonGetConnection.key_str (isilonGetConnection.props prop_map)) = none)
    (hnew : (api.namenode_new nn (isilonGetConnection.props prop_map).host_name
        (isilonGetConnection.names (isilonGetConnection.props prop_map)).1
        (isilonGetConnection.props prop_map).user_name).2 = some name_node)
    (hver : (api.getProtocolVersion
        (api.namenode_new nn (isilonGetConnection.props prop_map).host_name
          (isilonGetConnection.names (isilonGetConnection.props prop_map)).1
          (isilonGetConnection.props prop_map).user_name).1 name_node).2
      = Except.ok version) :
    (version ≠ 61 →
        (isilonGetConnection ISILON_NO_CACHED_CONNECTIONS api nn c prop_map).result
            = Outcome.error ISILON_ERR_INVALID_HDFS_PROTOCOL_VERSION
          ∧ (isilonGetConnection ISILON_NO_CACHED_CONNECTIONS api nn c prop_map).connection
              = none
          ∧ (isilonGetConnection ISILON_NO_CACHED_CONNECTIONS api nn c prop_map).table = c)
      ∧ (version = 61 →
        (isilonGetConnection ISILON_NO_CACHED_CONNECTIONS api nn c prop_map).result
            = Outcome.ok
          ∧ (isilonGetConnection ISILON_NO_CACHED_CONNECTIONS api nn c prop_map).connection
              = some { addr := c.allocated,
                       port := ulong_to_long (isilonGetConnection.props prop_map).port_num,
                       host := (isilonGetConnection.props prop_map).host_name,
                       user := (isilonGetConnection.props prop_map).user_name,
                       name_node := name_node,
                       buff_size := (isilonGetConnection.props prop_map).buf_size }) := by
  have hc : ¬ (¬ (ISILON_NO_CACHED_CONNECTIONS = true)
      ∧ (c.find (isilonGetConnection.key_str
          (isilonGetConnection.props prop_map))).isSome = true) := by
    rintro ⟨h1, h2⟩
    rcases hmiss with h | h
    · exact h1 h
    · rw [h] at h2
      exact Bool.false_ne_true h2
  have h1 : api.namenode_new nn (isilonGetConnection.props prop_map).host_name
      (isilonGetConnection.names (isilonGetConnection.props prop_map)).1
      (isilonGetConnection.props prop_map).user_name
      = ((api.namenode_new nn (isilonGetConnection.props prop_map).host_name
          (isilonGetConnection.names (isilonGetConnection.props prop_map)).1
          (isilonGetConnection.props prop_map).user_name).1, some name_node) :=
    Prod.ext rfl hnew
  generalize (api.namenode_new nn (isilonGetConnection.props prop_map).host_name
      (isilonGetConnection.names (isilonGetConnection.props prop_map)).1
      (isilonGetConnection.props prop_map).user_name).1 = nn1 at h1 hver
  have h2 : api.getProtocolVersion nn1 name_node
      = ((api.getProtocolVersion nn1 name_node).1, Except.ok version) :=
    Prod.ext rfl hver
  unfold isilonGetConnection
  simp only [hc, if_false]
  rw [h1]
  simp only []
  rw [h2]
  simp only []
  constructor
  · intro hv
    simp only [hv, ne_eq, not_false_eq_true, if_true, and_self]
  · intro hv
    simp only [hv, ne_eq, not_true_eq_false, if_false, and_self]

/-- Witness of C14: a metadata service that reports version 62 is refused. -/
theorem isilonGetConnection_requires_protocol_version_61_witness :
    (isilonGetConnection false (simNamenodes 62) 0 ConnectionTable.initial
        (connectionProperties "isilon" 8020 "root" 1048576)).result
        = Outcome.error ISILON_ERR_INVALID_HDFS_PROTOCOL_VERSION
      ∧ (isilonGetConnection false (simNamenodes 62) 0 ConnectionTable.initial
          (connectionProperties "isilon" 8020 "root" 1048576)).table
          = ConnectionTable.initial :=
  ⟨((isilonGetConnection_requires_protocol_version_61 false (simNamenodes 62) 0
      ConnectionTable.initial (connectionProperties "isilon" 8020 "root" 1048576) 0 62
      (Or.inr (by decide)) rfl rfl).1 (by decide)).1,
    by decide⟩

/-! ### Status derived from a remote exception -/

/-- C21 (the defect): `isilonGetErrCodeFromException` answers `EIO` for every exception.
The `switch` has no `break`, so after `*code = EACCES` or `*code = ENOENT` control falls
through to `default`: an access-control exception does not yield `EACCES` and a
file-not-found exception does not yield `ENOENT`. -/
theorem isilonGetErrCodeFromException_always_EIO (exception : hdfs_exception) :
    isilonGetErrCodeFromException exception = EIO
      ∧ isilonGetErrCodeFromException hdfs_exception.H_ACCESS_CONTROL_EXCEPTION ≠ EACCES
      ∧ isilonGetErrCodeFromException hdfs_exception.H_FILE_NOT_FOUND_EXCEPTION ≠ ENOENT := by
  refine ⟨?_, by decide, by decide⟩
  cases exception <;> rfl

/-! ### Seek on a write-mode descriptor -/

/-- C25: on a write-mode descriptor with `file_size == offset`, a seek that resolves to a
target in `[0, file_size)` succeeds, commits the target as the new offset and leaves
`file_size` as it is; the next write call, whatever its data, length and remote client,
fails with the unexpected-offset error, leaves the descriptor (offset, file size, buffer
and occupancy) as the seek left it, and makes no remote call. -/
theorem isilonWriteBuf_after_seek_unexpected_offset {σ : Type} (api : hdfs σ) (nn : σ)
    (fd : isilonFileDesc) (delta whence : Int) (fuel : Nat) (buf : List Byte)
    (len status : Int) (hmode : fd.mode = ISILON_MODE_WRITE)
    (hsize : fd.file_size = fd.offset)
    (hw : whence = SEEK_SET ∨ whence = SEEK_CUR ∨ whence = SEEK_END)
    (h0 : 0 ≤ resolvedTarget fd delta whence)
    (h1 : resolvedTarget fd delta whence < fd.file_size) :
    (isilonFileLseekPlugin.body fd delta whence).2
        = Except.ok (resolvedTarget fd delta whence)
      ∧ (isilonFileLseekPlugin.body fd delta whence).1.offset = resolvedTarget fd delta whence
      ∧ (isilonFileLseekPlugin.body fd delta whence).1.file_size = fd.file_size
      ∧ (isilonWriteBuf.body api.traced fuel (nn, [])
          (isilonFileLseekPlugin.body fd delta whence).1 buf len status).result
          = Outcome.error ISILON_ERR_UNEXPECTED_OFFSET
      ∧ (isilonWriteBuf.body api.traced fuel (nn, [])
          (isilonFileLseekPlugin.body fd delta whence).1 buf len status).fd
          = (isilonFileLseekPlugin.body fd delta whence).1
      ∧ (isilonWriteBuf.body api.traced fuel (nn, [])
          (isilonFileLseekPlugin.body fd delta whence).1 buf len status).nn = (nn, []) := by
  have e := isilonFileLseekPlugin_body_eq fd delta whence hw
  rw [if_neg (by omega)] at e
  have s1 : (isilonFileLseekPlugin.body fd delta whence).2
      = Except.ok (resolvedTarget fd delta whence) := by rw [e]
  have s2 : (isilonFileLseekPlugin.body fd delta whence).1.offset
      = resolvedTarget fd delta whence := by rw [e]; rfl
  have s3 : (isilonFileLseekPlugin.body fd delta whence).1.file_size = fd.file_size := by
    rw [e]
    simp only [setOffset, seekBuff]
    split <;> rfl
  have s4 : (isilonFileLseekPlugin.body fd delta whence).1.mode = ISILON_MODE_WRITE := by
    rw [e]
    simp only [setOffset, seekBuff]
    split <;> exact hmode
  refine ⟨s1, s2, s3, ?_⟩
  generalize (isilonFileLseekPlugin.body fd delta whence).1 = fd1 at s2 s3 s4 ⊢
  have hm : ¬ fd1.getMode ≠ ISILON_MODE_WRITE := by simp [getMode, s4]
  have hf : fd1.getFileSize ≠ fd1.getOffset := by
    simp only [getFileSize, getOffset, s2, s3]
    omega
  unfold isilonWriteBuf.body
  rw [if_neg hm, if_pos hf]
  exact ⟨rfl, rfl, rfl⟩

/-- Witness of C25: after 20 bytes written with buffer size 8, a seek to offset 5 is
accepted and the next write fails. -/
theorem isilonWriteBuf_after_seek_unexpected_offset_witness :
    (isilonFileLseekPlugin.body written20 5 SEEK_SET).2 = Except.ok 5
      ∧ (isilonWriteBuf.body SimStore.api.traced 10 (sampleStore, [])
          (isilonFileLseekPlugin.body written20 5 SEEK_SET).1 [1, 2] 2 0).result
          = Outcome.error ISILON_ERR_UNEXPECTED_OFFSET :=
  ⟨by decide,
    (isilonWriteBuf_after_seek_unexpected_offset SimStore.api sampleStore written20 5
      SEEK_SET 10 [1, 2] 2 0 (by decide) (by decide) (Or.inl rfl) (by decide)
      (by decide)).2.2.2.1⟩

/-! ### Descriptors of unknown mode and append-open -/

theorem isilonGetHDFSFileInfo_found {σ : Type} (api : hdfs σ) (nn : σ) (path : String)
    (fstat : hdfs_file_status) (h : (api.getFileInfo nn path).2 = Except.ok (some fstat)) :
    isilonGetHDFSFileInfo api nn path
      = { nn := (api.getFileInfo nn path).1, result := Outcome.ok, fstatus := some fstat,
          err_code := 0 } := by
  have e : api.getFileInfo nn path = ((api.getFileInfo nn path).1, Except.ok (some fstat)) :=
    Prod.ext rfl h
  unfold isilonGetHDFSFileInfo
  rw [e]

theorem isilonOpenFile_readWrite {σ : Type} (api : hdfs σ) (nn : σ) (t : ObjDescTable)
    (path : String) (B : Nat) (fstat : hdfs_file_status)
    (ht : ∀ k ∈ t.ids, k < t.NEXT_OBJ_DESC_NUM)
    (hinfo : (api.getFileInfo nn path).2 = Except.ok (some fstat)) :
    (isilonOpenFile api nn t path O_RDWR B).result = Outcome.ok
      ∧ (isilonOpenFile api nn t path O_RDWR B).nn = (api.getFileInfo nn path).1
      ∧ (isilonOpenFile api nn t path O_RDWR B).file_id = t.NEXT_OBJ_DESC_NUM
      ∧ (isilonOpenFile api nn t path O_RDWR B).table.find t.NEXT_OBJ_DESC_NUM
          = some (isilonObjectDesc.file
              ((isilonFileDesc.new ISILON_MODE_UNKNOWN path B none).setFileSize
                fstat.size)) := by
  obtain ⟨n1, n2⟩ := isilonNewFileDesc_fresh t ISILON_MODE_UNKNOWN path B none ht
  have hg := isilonGetFileDescByID_of_find _ _ _ n2
  have hst := ObjDescTable_find_store _ t.NEXT_OBJ_DESC_NUM _
    (isilonObjectDesc.file
      ((isilonFileDesc.new ISILON_MODE_UNKNOWN path B none).setFileSize fstat.size)) n2
  have hrw : O_RDWR &&& O_TRUNC = 0 := by decide
  have hw : O_RDWR &&& O_WRONLY = 0 := by decide
  have hro : ¬ (O_RDWR = O_RDONLY) := by decide
  unfold isilonOpenFile
  simp only [isilonGetHDFSFileInfo_found api nn path fstat hinfo, hrw, hw, hro, if_false,
    if_true, n1, hg, ne_eq, not_true_eq_false, and_false]
  exact ⟨trivial, trivial, trivial, hst⟩

theorem isilonCloseFile_body_unknown {σ : Type} (api : hdfs σ) (nn : σ) (path : char_ptr)
    (fd : isilonFileDesc) (h : fd.mode = ISILON_MODE_UNKNOWN) :
    isilonCloseFile.body api nn path fd
      = { nn := nn, result := Outcome.error ISILON_ERR_MODE_NOT_SUPPORTED, status := 0 } := by
  simp [isilonCloseFile.body, getMode, h]

/-- C29: a file that exists is opened with `O_RDWR` (in a table whose live ids are below
the counter): the open succeeds with a descriptor of mode unknown.  Closing that
descriptor, with no read or write in between, fails with the unsupported-mode error for
every remote client, also one whose calls would all succeed; the only remote call of open
and close together is the `getFileInfo` of the open, so no commit and no `complete` is
sent; and the descriptor is gone. -/
theorem isilonCloseFile_unknown_mode_not_supported {σ : Type} (api : hdfs σ) (nn : σ)
    (t : ObjDescTable) (path : String) (B : Nat) (fstat : hdfs_file_status)
    (ht : ∀ k ∈ t.ids, k < t.NEXT_OBJ_DESC_NUM)
    (hinfo : (api.getFileInfo nn path).2 = Except.ok (some fstat)) :
    (isilonOpenFile api.traced (nn, []) t path O_RDWR B).result = Outcome.ok
      ∧ (isilonOpenFile api.traced (nn, []) t path O_RDWR B).table.find
          (isilonOpenFile api.traced (nn, []) t path O_RDWR B).file_id
          = some (isilonObjectDesc.file
              ((isilonFileDesc.new ISILON_MODE_UNKNOWN path B none).setFileSize fstat.size))
      ∧ (isilonCloseFile api.traced (isilonOpenFile api.traced (nn, []) t path O_RDWR B).nn
          (isilonOpenFile api.traced (nn, []) t path O_RDWR B).table
          (isilonOpenFile api.traced (nn, []) t path O_RDWR B).file_id).result
          = Outcome.error ISILON_ERR_MODE_NOT_SUPPORTED
      ∧ (isilonCloseFile api.traced (isilonOpenFile api.traced (nn, []) t path O_RDWR B).nn
          (isilonOpenFile api.traced (nn, []) t path O_RDWR B).table
          (isilonOpenFile api.traced (nn, []) t path O_RDWR B).file_id).nn.2
          = [hdfs_call.getFileInfo path]
      ∧ (isilonCloseFile api.traced (isilonOpenFile api.traced (nn, []) t path O_RDWR B).nn
          (isilonOpenFile api.traced (nn, []) t path O_RDWR B).table
          (isilonOpenFile api.traced (nn, []) t path O_RDWR B).file_id).table.find
          (isilonOpenFile api.traced (nn, []) t path O_RDWR B).file_id = none := by
  obtain ⟨o1, o2, o3, o4⟩ := isilonOpenFile_readWrite api.traced (nn, []) t path B fstat ht
    hinfo
  rw [o3, o2]
  rw [isilonCloseFile_of_find api.traced _ _ t.NEXT_OBJ_DESC_NUM _ o4,
    isilonCloseFile_body_unknown api.traced _ _ _ rfl]
  exact ⟨o1, o4, rfl, rfl, ObjDescTable_find_erase _ _⟩

/-- Witness of C29: open with `O_RDWR` and close of the 21 byte file on the simulated
store, whose calls never fail. -/
theorem isilonCloseFile_unknown_mode_not_supported_witness :
    (isilonCloseFile SimStore.api.traced
        (isilonOpenFile SimStore.api.traced (sampleStore, []) ObjDescTable.initial
          "/zone/file" O_RDWR 8).nn
        (isilonOpenFile SimStore.api.traced (sampleStore, []) ObjDescTable.initial
          "/zone/file" O_RDWR 8).table
        (isilonOpenFile SimStore.api.traced (sampleStore, []) ObjDescTable.initial
          "/zone/file" O_RDWR 8).file_id).result
      = Outcome.error ISILON_ERR_MODE_NOT_SUPPORTED :=
  (isilonCloseFile_unknown_mode_not_supported SimStore.api sampleStore ObjDescTable.initial
    "/zone/file" 8 { size := 21, directory := false } (by decide) rfl).2.2.1

theorem isilonOpenFile_append {σ : Type} (api : hdfs σ) (nn : σ) (t : ObjDescTable)
    (path : String) (flags B : Nat) (fstat : hdfs_file_status)
    (answer : Option located_block) (ht : ∀ k ∈ t.ids, k < t.NEXT_OBJ_DESC_NUM)
    (hw : flags &&& O_WRONLY ≠ 0) (htr : flags &&& O_TRUNC = 0)
    (hinfo : (api.getFileInfo nn path).2 = Except.ok (some fstat))
    (happ : (api.append (api.getFileInfo nn path).1 path).2 = Except.ok answer) :
    (isilonOpenFile api nn t path flags B).result = Outcome.ok
      ∧ (isilonOpenFile api nn t path flags B).nn
          = (api.append (api.getFileInfo nn path).1 path).1
      ∧ (isilonOpenFile api nn t path flags B).file_id = t.NEXT_OBJ_DESC_NUM
      ∧ (isilonOpenFile api nn t path flags B).table.find t.NEXT_OBJ_DESC_NUM
          = some (isilonObjectDesc.file
              ((isilonFileDesc.new ISILON_MODE_WRITE path B (keptLastBlock answer)).setFileSize
                fstat.size)) := by
  obtain ⟨n1, n2⟩ :=
    isilonNewFileDesc_fresh t ISILON_MODE_WRITE path B (keptLastBlock answer) ht
  have hg := isilonGetFileDescByID_of_find _ _ _ n2
  have hst := ObjDescTable_find_store _ t.NEXT_OBJ_DESC_NUM _
    (isilonObjectDesc.file
      ((isilonFileDesc.new ISILON_MODE_WRITE path B (keptLastBlock answer)).setFileSize
        fstat.size)) n2
  have ea : api.append (api.getFileInfo nn path).1 path
      = ((api.append (api.getFileInfo nn path).1 path).1, Except.ok answer) :=
    Prod.ext rfl happ
  have hA : isilonAppendFile api (api.getFileInfo nn path).1 t path B
      = { nn := (api.append (api.getFileInfo nn path).1 path).1,
          table := (isilonNewFileDesc t ISILON_MODE_WRITE path B (keptLastBlock answer)).1,
          file_id := (isilonNewFileDesc t ISILON_MODE_WRITE path B (keptLastBlock answer)).2,
          result := Outcome.ok, status := 0 } := by
    unfold isilonAppendFile isilonAppendFileImpl
    rw [ea]
    cases answer with
    | none => simp [keptLastBlock]
    | some lb => simp [keptLastBlock]
  unfold isilonOpenFile
  simp only [isilonGetHDFSFileInfo_found api nn path fstat hinfo, htr, hw, if_false, if_true,
    ne_eq, not_true_eq_false, and_false, not_false_eq_true, hA, n1, hg]
  exact ⟨trivial, trivial, trivial, hst⟩

/-- C30: an existing file of size `S` is opened for writing without truncation (the flags
have `O_WRONLY` and not `O_TRUNC`), in a table whose live ids are below the counter, and
`hdfs_append` succeeds.  The open succeeds and the new descriptor has mode write, offset 0
and `file_size = S`, with the last block that the append answered when that holds bytes.
When `S ≠ 0` the next write call, whatever its data and length, fails with the
unexpected-offset error and makes no remote call, so nothing is committed.  When `S = 0`
(and no last block is kept), the buffer size is at least 1 and the remote calls succeed,
the first write call succeeds. -/
theorem isilonOpenFile_append_starts_at_offset_zero {σ : Type} (api : hdfs σ) (nn : σ)
    (t : ObjDescTable) (path : String) (flags B : Nat) (fstat : hdfs_file_status)
    (answer : Option located_block) (ht : ∀ k ∈ t.ids, k < t.NEXT_OBJ_DESC_NUM)
    (hw : flags &&& O_WRONLY ≠ 0) (htr : flags &&& O_TRUNC = 0)
    (hinfo : (api.getFileInfo nn path).2 = Except.ok (some fstat))
    (happ : (api.append (api.getFileInfo nn path).1 path).2 = Except.ok answer) :
    (isilonOpenFile api.traced (nn, []) t path flags B).result = Outcome.ok
      ∧ (isilonOpenFile api.traced (nn, []) t path flags B).table.find
          (isilonOpenFile api.traced (nn, []) t path flags B).file_id
          = some (isilonObjectDesc.file
              { offset := 0, path := path, mode := ISILON_MODE_WRITE, buff := none,
                buff_size := B, buff_offset := 0, file_size := fstat.size,
                last_block := keptLastBlock answer })
      ∧ (fstat.size ≠ 0 → ∀ (fuel : Nat) (buf : List Byte) (len : Int),
          (isilonWriteFile api.traced fuel
              (isilonOpenFile api.traced (nn, []) t path flags B).nn
              (isilonOpenFile api.traced (nn, []) t path flags B).table
              (isilonOpenFile api.traced (nn, []) t path flags B).file_id buf len).result
              = Outcome.error ISILON_ERR_UNEXPECTED_OFFSET
            ∧ (isilonWriteFile api.traced fuel
                (isilonOpenFile api.traced (nn, []) t path flags B).nn
                (isilonOpenFile api.traced (nn, []) t path flags B).table
                (isilonOpenFile api.traced (nn, []) t path flags B).file_id buf len).nn
                = (isilonOpenFile api.traced (nn, []) t path flags B).nn)
      ∧ (fstat.size = 0 → keptLastBlock answer = none → 1 ≤ B → api.Succeeds →
          ∀ (fuel : Nat) (data : List Byte), data.length ≤ fuel →
            (isilonWriteFile api.traced fuel
              (isilonOpenFile api.traced (nn, []) t path flags B).nn
              (isilonOpenFile api.traced (nn, []) t path flags B).table
              (isilonOpenFile api.traced (nn, []) t path flags B).file_id data
              data.length).result = Outcome.ok) := by
  obtain ⟨o1, o2, o3, o4⟩ := isilonOpenFile_append api.traced (nn, []) t path flags B fstat
    answer ht hw htr hinfo happ
  rw [o3]
  refine ⟨o1, o4, ?_, ?_⟩
  · intro hS fuel buf len
    unfold isilonWriteFile
    rw [isilonWriteBuf_of_find api.traced fuel _ _ t.NEXT_OBJ_DESC_NUM buf len 0 _ o4]
    have hb : isilonWriteBuf.body api.traced fuel
        (isilonOpenFile api.traced (nn, []) t path flags B).nn
        ((isilonFileDesc.new ISILON_MODE_WRITE path B (keptLastBlock answer)).setFileSize
          fstat.size) buf len 0
        = { nn := (isilonOpenFile api.traced (nn, []) t path flags B).nn,
            fd := (isilonFileDesc.new ISILON_MODE_WRITE path B
              (keptLastBlock answer)).setFileSize fstat.size,
            result := Outcome.error ISILON_ERR_UNEXPECTED_OFFSET, status := 0 } := by
      unfold isilonWriteBuf.body
      rw [if_neg (by simp [getMode, setFileSize, isilonFileDesc.new]),
        if_pos (by simpa [getFileSize, getOffset, setFileSize, isilonFileDesc.new] using hS)]
    rw [hb]
    exact ⟨rfl, rfl⟩
  · intro hS hk hB hs fuel data hfuel
    unfold isilonWriteFile
    rw [isilonWriteBuf_of_find api.traced fuel _ _ t.NEXT_OBJ_DESC_NUM data data.length 0 _ o4]
    rw [hk, hS]
    obtain ⟨cs, pending, r1, _⟩ := isilonWriteBuf_body_chunks api.traced
      (fun s => committedChunks s.2) (hdfs_traced_commitsAppend api hs) B hB fuel
      (isilonOpenFile api.traced (nn, []) t path flags B).nn
      (isilonFileDesc.new ISILON_MODE_WRITE path B none) data 0 [] (WriteInv_new path B hB)
      hfuel
    exact r1

/-- Witness of C30: the 21 byte file of the simulated store is opened with `O_WRONLY`; a
write of two bytes fails with the unexpected-offset error. -/
theorem isilonOpenFile_append_starts_at_offset_zero_witness :
    (isilonWriteFile SimStore.api.traced 10
        (isilonOpenFile SimStore.api.traced (sampleStore, []) ObjDescTable.initial
          "/zone/file" O_WRONLY 8).nn
        (isilonOpenFile SimStore.api.traced (sampleStore, []) ObjDescTable.initial
          "/zone/file" O_WRONLY 8).table
        (isilonOpenFile SimStore.api.traced (sampleStore, []) ObjDescTable.initial
          "/zone/file" O_WRONLY 8).file_id [1, 2] 2).result
      = Outcome.error ISILON_ERR_UNEXPECTED_OFFSET :=
  ((isilonOpenFile_append_starts_at_offset_zero SimStore.api sampleStore
    ObjDescTable.initial "/zone/file" O_WRONLY 8 { size := 21, directory := false } none
    (by decide) (by decide) (by decide) rfl rfl).2.2.1 (by decide) 10 [1, 2] 2).1

theorem isilonCloseFile_body_offset_irrelevant {σ : Type} (api : hdfs σ) (nn : σ)
    (path : char_ptr) (fd : isilonFileDesc) (new_offset : Int) :
    isilonCloseFile.body api nn path (fd.setOffset new_offset)
      = isilonCloseFile.body api nn path fd := by
  obtain ⟨o, p, m, bf, bs, bo, fs, lb⟩ := fd
  cases m <;> cases lb <;> rfl

/-- C27 (the defect): a backward seek raises the occupancy of a write-mode descriptor.  With
occupancy `k > 0`, a seek back by `d > 0` bytes with `k + d` below the buffer size succeeds
and leaves the occupancy `k + d`: the rule that keeps a read buffer after a backward seek is
applied in write mode too.  The close that follows hands the first `k + d` bytes of the
buffer to the commit, `d` more than the caller wrote and did not yet see committed: where
the characters behind its pointer `path` still read as the path of the file, close
succeeds and commits exactly those bytes; as the pointer dangles, the close is undefined
by the letter of the language. -/
theorem isilonFileLseekPlugin_backward_seek_raises_occupancy {σ : Type} (api : hdfs σ)
    (nn : σ) (fd : isilonFileDesc) (b : List Byte) (d : Int) (hs : api.Succeeds)
    (hmode : fd.mode = ISILON_MODE_WRITE) (hlb : fd.last_block = none)
    (hb : fd.buff = some b) (hbl : b.length = fd.buff_size) (hk : 0 < fd.buff_offset)
    (hd : 0 < d) (hoff : d ≤ fd.offset) (hfs : fd.offset ≤ fd.file_size)
    (hroom : (fd.buff_offset : Int) + d < fd.buff_size) :
    (isilonFileLseekPlugin.body fd (-d) SEEK_CUR).2 = Except.ok (fd.offset - d)
      ∧ ((isilonFileLseekPlugin.body fd (-d) SEEK_CUR).1.buff_offset : Int)
          = fd.buff_offset + d
      ∧ (isilonCloseFile.body api.traced (nn, []) (char_ptr.live fd.path)
          (isilonFileLseekPlugin.body fd (-d) SEEK_CUR).1).result = Outcome.ok
      ∧ committedChunks (isilonCloseFile.body api.traced (nn, []) (char_ptr.live fd.path)
          (isilonFileLseekPlugin.body fd (-d) SEEK_CUR).1).nn.2
          = [b.take (fd.buff_offset + d.toNat)]
      ∧ (b.take (fd.buff_offset + d.toNat)).length = fd.buff_offset + d.toNat
      ∧ (isilonCloseFile.body api.traced (nn, []) char_ptr.dangling
          (isilonFileLseekPlugin.body fd (-d) SEEK_CUR).1).result = Outcome.undefined := by
  have ht : resolvedTarget fd (-d) SEEK_CUR = fd.offset - d := by
    simp [resolvedTarget, SEEK_CUR, SEEK_SET]
    omega
  have hgs : fd.getBuffSize = fd.buff_size := by simp [getBuffSize, hlb]
  have e := isilonFileLseekPlugin_body_eq fd (-d) SEEK_CUR (Or.inr (Or.inl rfl))
  rw [ht, if_neg (by omega), if_pos (by omega), if_neg (by omega), hgs,
    if_pos (by omega)] at e
  have hn : ((fd.buff_offset : Int) - (fd.offset - d - fd.offset)).toNat
      = fd.buff_offset + d.toNat := by omega
  rw [e]
  simp only [setOffset, seekBuff, hn]
  have hlen : (b.take (fd.buff_offset + d.toNat)).length = fd.buff_offset + d.toNat := by
    rw [List.length_take]
    omega
  have hinv : WriteInv fd.buff_size
      { offset := fd.file_size, path := fd.path, mode := fd.mode, buff := fd.buff,
        buff_size := fd.buff_size, buff_offset := fd.buff_offset + d.toNat,
        file_size := fd.file_size, last_block := fd.last_block }
      (b.take (fd.buff_offset + d.toNat)) := by
    refine ⟨hmode, hlb, rfl, rfl, hlen.symm, by rw [hlen]; omega, ?_, ?_, ?_⟩
    · simp [allocBuff, hb, hbl]
    · simp only [allocBuff, hb, hlen]
    · intro _
      simp [hb]
  obtain ⟨c1, c2⟩ := isilonCloseFile_body_chunks api.traced (fun s => committedChunks s.2)
    (hdfs_traced_commitsAppend api hs) fd.buff_size (nn, []) fd.path _ _ hinv
  have hne : ¬ (b.take (fd.buff_offset + d.toNat) = []) := by
    intro h0
    rw [h0] at hlen
    simp only [List.length_nil] at hlen
    omega
  rw [if_neg hne] at c2
  have hc := isilonCloseFile_body_offset_irrelevant api.traced (nn, []) (char_ptr.live fd.path)
    { offset := fd.file_size, path := fd.path, mode := fd.mode, buff := fd.buff,
      buff_size := fd.buff_size, buff_offset := fd.buff_offset + d.toNat,
      file_size := fd.file_size, last_block := fd.last_block } (fd.offset - d)
  simp only [setOffset] at hc
  rw [hc]
  exact ⟨trivial, by omega, c1, by simpa [committedChunks] using c2, hlen,
    isilonCloseFile_body_dangling _ _ _ hmode⟩

/-- Witness of C27: 20 bytes are written with buffer size 8, which leaves 4 bytes in the
buffer; after a seek back by 3 bytes the occupancy is 7 and close commits 7 bytes, three of
which are not data of the caller: they are bytes of the buffer that were never written. -/
theorem isilonFileLseekPlugin_backward_seek_raises_occupancy_witness :
    written20.buff_offset = 4
      ∧ (isilonFileLseekPlugin.body written20 (-3) SEEK_CUR).1.buff_offset = 7
      ∧ committedChunks (isilonCloseFile.body SimStore.api.traced (sampleStore, [])
          (char_ptr.live "/zone/file")
          (isilonFileLseekPlugin.body written20 (-3) SEEK_CUR).1).nn.2
          = [[16, 17, 18, 19, indeterminate, indeterminate, indeterminate]] :=
  ⟨by decide, by decide,
    ((isilonFileLseekPlugin_backward_seek_raises_occupancy SimStore.api sampleStore written20
      [16, 17, 18, 19, indeterminate, indeterminate, indeterminate, indeterminate] 3
      ⟨fun _ _ => ⟨_, rfl⟩, fun _ _ => rfl, fun _ _ _ => rfl, fun _ _ => rfl⟩ (by decide)
      (by decide) (by decide) (by decide) (by decide) (by decide) (by decide) (by decide)
      (by decide)).2.2.2.1).trans (by decide)⟩

/-! ### The pending last block -/

theorem isilonWriteBuf_body_pending_block_unreachable {σ : Type} (api : hdfs σ) (nn : σ)
    (j : List hdfs_call) (fd : isilonFileDesc) (lb : located_block) (buf : List Byte)
    (len status : Int) (fuel : Nat) (hfail : ∀ s, (api.datanode_new s lb).2 = false)
    (hmode : fd.mode = ISILON_MODE_WRITE) (hsize : fd.file_size = fd.offset)
    (hlb : fd.last_block = some lb) (hk : fd.buff_offset = 0) (hB : 1 ≤ fd.getBuffSize)
    (hlen : fd.getBuffSize ≤ len) (hfuel : 1 ≤ fuel) :
    isilonWriteBuf.body api.traced fuel (nn, j) fd buf len status
      = { nn := ((api.datanode_new nn lb).1, j ++ [hdfs_call.datanode_new lb]), fd := fd,
          result := Outcome.error ISILON_ERR_CONNECT_TO_DATANODE_FAIL, status := EIO } := by
  obtain ⟨fuel, rfl⟩ : ∃ n, fuel = n + 1 := ⟨fuel - 1, by omega⟩
  have hm : ¬ fd.getMode ≠ ISILON_MODE_WRITE := by simp [getMode, hmode]
  have hf : ¬ fd.getFileSize ≠ fd.getOffset := by simp [getFileSize, getOffset, hsize]
  have hne : ¬ len = 0 := by omega
  have hA : len ≥ fd.getBuffSize ∧ (fd.getBuffOffset : Int) = 0 := by
    simp only [getBuffOffset, hk]
    exact ⟨hlen, rfl⟩
  have hst : isilonWriteBuf.step fd buf 0 len
      = { fd := fd, result := Outcome.ok, wbuff := some (buf.drop (0 : Int).toNat),
          buf_offset := 0 + fd.getBuffSize, bytes_added := fd.getBuffSize,
          len := len - fd.getBuffSize } := by
    simp only [isilonWriteBuf.step, hA, and_self, if_true]
  have hn : api.traced.datanode_new (nn, j) lb
      = (((api.datanode_new nn lb).1, j ++ [hdfs_call.datanode_new lb]), false) :=
    Prod.ext rfl (hfail nn)
  have hc : isilonCommitBufferToHDFS api.traced (nn, j) (char_ptr.live fd.getPath)
      (some (buf.drop (0 : Int).toNat)) fd.getBuffSize (some lb)
      = { nn := ((api.datanode_new nn lb).1, j ++ [hdfs_call.datanode_new lb]),
          result := Outcome.error ISILON_ERR_CONNECT_TO_DATANODE_FAIL, status := EIO } := by
    simp only [isilonCommitBufferToHDFS, isilonCommitBufferToHDFS.block, hn]
  unfold isilonWriteBuf.body
  rw [if_neg hm, if_neg hf, isilonWriteBuf.loop]
  simp only [hne, if_false, hst, ne_eq, not_true_eq_false, getLastBlock, hlb, hc, reduceCtorEq,
    not_false_eq_true, if_true]

/-- C22 (the defect): a failed commit does not consume the pending last block.  On a
write-mode descriptor with a pending last block `lb`, an empty buffer and
`file_size == offset`, a write call that fills a whole block commits with `lb`; when the
block server of `lb` cannot be reached the call fails and returns before
`releaseLastBlock`, leaving the descriptor as it was.  The caller's next write call
therefore commits with `lb` again: the journal of the two calls holds two connections for
`lb` and no `addBlock` request. -/
theorem isilonWriteBuf_retries_commit_with_pending_block {σ : Type} (api : hdfs σ) (nn : σ)
    (fd : isilonFileDesc) (lb : located_block) (buf : List Byte) (len : Int) (fuel : Nat)
    (hfail : ∀ s, (api.datanode_new s lb).2 = false) (hmode : fd.mode = ISILON_MODE_WRITE)
    (hsize : fd.file_size = fd.offset) (hlb : fd.last_block = some lb)
    (hk : fd.buff_offset = 0) (hB : 1 ≤ fd.getBuffSize) (hlen : fd.getBuffSize ≤ len)
    (hfuel : 1 ≤ fuel) :
    (isilonWriteBuf.body api.traced fuel (nn, []) fd buf len 0).result
        = Outcome.error ISILON_ERR_CONNECT_TO_DATANODE_FAIL
      ∧ (isilonWriteBuf.body api.traced fuel (nn, []) fd buf len 0).fd = fd
      ∧ (isilonWriteBuf.body api.traced fuel (nn, []) fd buf len 0).nn.2
          = [hdfs_call.datanode_new lb]
      ∧ (isilonWriteBuf.body api.traced fuel
          (isilonWriteBuf.body api.traced fuel (nn, []) fd buf len 0).nn
          (isilonWriteBuf.body api.traced fuel (nn, []) fd buf len 0).fd buf len 0).nn.2
          = [hdfs_call.datanode_new lb, hdfs_call.datanode_new lb]
      ∧ (isilonWriteBuf.body api.traced fuel
          (isilonWriteBuf.body api.traced fuel (nn, []) fd buf len 0).nn
          (isilonWriteBuf.body api.traced fuel (nn, []) fd buf len 0).fd buf len
          0).fd.last_block = some lb := by
  rw [isilonWriteBuf_body_pending_block_unreachable api nn [] fd lb buf len 0 fuel hfail
    hmode hsize hlb hk hB hlen hfuel]
  simp only []
  rw [isilonWriteBuf_body_pending_block_unreachable api _ _ fd lb buf len 0 fuel hfail
    hmode hsize hlb hk hB hlen hfuel]
  exact ⟨trivial, trivial, rfl, rfl, hlb⟩

/-- Witness of C22: two write calls of three bytes on `sampleAppend`, whose pending block no
block server answers for. -/
theorem isilonWriteBuf_retries_commit_with_pending_block_witness :
    (isilonWriteBuf.body (SimStore.apiTrailing { offset := 16, len := 5, id := 2 }).traced 5
        (isilonWriteBuf.body (SimStore.apiTrailing { offset := 16, len := 5, id := 2 }).traced
          5 (sampleStore, []) sampleAppend [1, 2, 3] 3 0).nn
        (isilonWriteBuf.body (SimStore.apiTrailing { offset := 16, len := 5, id := 2 }).traced
          5 (sampleStore, []) sampleAppend [1, 2, 3] 3 0).fd [1, 2, 3] 3 0).nn.2
      = [hdfs_call.datanode_new { offset := 16, len := 5, id := 2 },
         hdfs_call.datanode_new { offset := 16, len := 5, id := 2 }] :=
  (isilonWriteBuf_retries_commit_with_pending_block
    (SimStore.apiTrailing { offset := 16, len := 5, id := 2 }) sampleStore sampleAppend
    { offset := 16, len := 5, id := 2 } [1, 2, 3] 3 5 (fun _ => rfl) (by decide)
    (by decide) (by decide) (by decide) (by decide) (by decide) (by decide)).2.2.2.1

/-! ### Write buffer engine: occupancy and termination -/

/-- C28: the bytes streamed by a range fetch can exceed `len`.  Let the placement response
to a fetch of `[offset, offset + len)` be two blocks in ascending order of offset: `b1`
starts at `offset`, holds at least one byte and ends before the range does, and `b2` starts
inside `b1` and reaches the end of the range or beyond.  Both entries pass the intersection
check.  If the block servers can be reached and deliver the bytes asked for, the fetch
streams `b1.len` bytes and then `offset + len - b2.offset` bytes, which together are more
than `len`; the outcome is undefined when the destination holds fewer bytes than that
behind `pos` (the caller provides `len`), and success otherwise. -/
theorem isilonFillBufferFromHDFS_overlap_streams_more_than_len {σ : Type} (api : hdfs σ)
    (Inv : σ → Prop) (nn : σ) (path : String) (dest : List Byte) (pos offset len : Int)
    (b1 b2 : located_block)
    (hget : (api.getBlockLocations nn path offset len).2 = Except.ok (some [b1, b2]))
    (hinv : Inv (api.getBlockLocations nn path offset len).1)
    (hnew : ∀ s, Inv s → ∀ b, (api.datanode_new s b).2 = true ∧ Inv (api.datanode_new s b).1)
    (hread1 : ∀ s, Inv s → ∃ bytes, (api.datanode_read s b1 0 b1.len).2 = some bytes
      ∧ (bytes.length : Int) = b1.len ∧ Inv (api.datanode_read s b1 0 b1.len).1)
    (hread2 : ∀ s, Inv s → ∃ bytes,
      (api.datanode_read s b2 0 (offset + len - b2.offset)).2 = some bytes
      ∧ (bytes.length : Int) = offset + len - b2.offset
      ∧ Inv (api.datanode_read s b2 0 (offset + len - b2.offset)).1)
    (h1o : b1.offset = offset) (h1l : 1 ≤ b1.len) (h1s : b1.len < len)
    (h2o : b1.offset ≤ b2.offset) (hover : b2.offset < b1.offset + b1.len)
    (h2e : offset + len ≤ b2.offset + b2.len)
    (hpos : 0 ≤ pos) (hdst : pos + len ≤ dest.length) :
    (b1.offset + b1.len > offset ∧ b1.offset < offset + len)
      ∧ (b2.offset + b2.len > offset ∧ b2.offset < offset + len)
      ∧ (isilonFillBufferFromHDFS api.traced (nn, []) path dest pos offset len).nn.2
          = [hdfs_call.getBlockLocations path offset len,
             hdfs_call.datanode_new b1, hdfs_call.datanode_read b1 0 b1.len,
             hdfs_call.datanode_new b2,
             hdfs_call.datanode_read b2 0 (offset + len - b2.offset)]
      ∧ len < b1.len + (offset + len - b2.offset)
      ∧ (isilonFillBufferFromHDFS api.traced (nn, []) path dest pos offset len).result
          = (if (dest.length : Int) < pos + (b1.len + (offset + len - b2.offset))
             then Outcome.undefined else Outcome.ok) := by
  have hg : api.traced.getBlockLocations (nn, []) path offset len
      = (((api.getBlockLocations nn path offset len).1,
          [hdfs_call.getBlockLocations path offset len]),
         Except.ok (some [b1, b2])) :=
    Prod.ext rfl hget
  generalize (api.getBlockLocations nn path offset len).1 = s0 at hg hinv
  obtain ⟨n1, n2⟩ := hnew s0 hinv b1
  obtain ⟨bytes1, r1, r2, r3⟩ := hread1 _ n2
  obtain ⟨n3, n4⟩ := hnew _ r3 b2
  obtain ⟨bytes2, q1, q2, _⟩ := hread2 _ n4
  have hn1 : api.traced.datanode_new (s0, [hdfs_call.getBlockLocations path offset len]) b1
      = (((api.datanode_new s0 b1).1,
          [hdfs_call.getBlockLocations path offset len] ++ [hdfs_call.datanode_new b1]),
         true) :=
    Prod.ext rfl n1
  generalize (api.datanode_new s0 b1).1 = s1 at hn1 r1 r2 r3 n3 n4 q1
  have hr1 : api.traced.datanode_read
        (s1, [hdfs_call.getBlockLocations path offset len] ++ [hdfs_call.datanode_new b1])
        b1 0 b1.len
      = (((api.datanode_read s1 b1 0 b1.len).1,
          [hdfs_call.getBlockLocations path offset len] ++ [hdfs_call.datanode_new b1]
            ++ [hdfs_call.datanode_read b1 0 b1.len]),
         some bytes1) :=
    Prod.ext rfl r1
  generalize (api.datanode_read s1 b1 0 b1.len).1 = s2 at hr1 n3 n4 q1
  have hn2 : api.traced.datanode_new
        (s2, [hdfs_call.getBlockLocations path offset len] ++ [hdfs_call.datanode_new b1]
            ++ [hdfs_call.datanode_read b1 0 b1.len]) b2
      = (((api.datanode_new s2 b2).1,
          [hdfs_call.getBlockLocations path offset len] ++ [hdfs_call.datanode_new b1]
            ++ [hdfs_call.datanode_read b1 0 b1.len] ++ [hdfs_call.datanode_new b2]),
         true) :=
    Prod.ext rfl n3
  generalize (api.datanode_new s2 b2).1 = s3 at hn2 q1
  have hr2 : api.traced.datanode_read
        (s3, [hdfs_call.getBlockLocations path offset len] ++ [hdfs_call.datanode_new b1]
            ++ [hdfs_call.datanode_read b1 0 b1.len] ++ [hdfs_call.datanode_new b2])
        b2 0 (offset + len - b2.offset)
      = (((api.datanode_read s3 b2 0 (offset + len - b2.offset)).1,
          [hdfs_call.getBlockLocations path offset len] ++ [hdfs_call.datanode_new b1]
            ++ [hdfs_call.datanode_read b1 0 b1.len] ++ [hdfs_call.datanode_new b2]
            ++ [hdfs_call.datanode_read b2 0 (offset + len - b2.offset)]),
         some bytes2) :=
    Prod.ext rfl q1
  generalize (api.datanode_read s3 b2 0 (offset + len - b2.offset)).1 = s4 at hr2
  have hchk1 : b1.offset + b1.len > offset ∧ b1.offset < offset + len := by omega
  have hchk2 : b2.offset + b2.len > offset ∧ b2.offset < offset + len := by omega
  have hb1 : ¬ (b1.offset < offset) := by omega
  have he1 : ¬ (b1.offset + b1.len > offset + len) := by omega
  have hb2 : ¬ (b2.offset < offset) := by omega
  have he2 : (if b2.offset + b2.len > offset + len then offset + len - b2.offset
      else b2.len) = offset + len - b2.offset := by
    split
    · rfl
    · omega
  have hfit1 : ¬ (pos < 0 ∨ (dest.length : Int) < pos + (bytes1.length : Int)) := by omega
  have hnz1 : ¬ (len - b1.len = 0) := by omega
  have hnz2 : ¬ (len - b1.len - (offset + len - b2.offset) = 0) := by omega
  have hlen1 : ((memcpyInto dest pos.toNat bytes1).length : Int) = dest.length := by
    rw [memcpyInto_length]
    omega
  refine ⟨hchk1, hchk2, ?_, by omega, ?_⟩
  · simp only [isilonFillBufferFromHDFS, hg, isilonFillBufferFromHDFS.blocks, hchk1, hchk2,
      and_self, not_true_eq_false, if_false, hn1, hb1, he1, sub_zero, hr1, hfit1, hnz1, hn2,
      hb2, he2, hr2]
    split
    · simp
    · simp [hnz2]
  · simp only [isilonFillBufferFromHDFS, hg, isilonFillBufferFromHDFS.blocks, hchk1, hchk2,
      and_self, not_true_eq_false, if_false, hn1, hb1, he1, sub_zero, hr1, hfit1, hnz1, hn2,
      hb2, he2, hr2]
    by_cases hroom : (dest.length : Int) < pos + (b1.len + (offset + len - b2.offset))
    · have hfit2 : pos + b1.len < 0
          ∨ ((memcpyInto dest pos.toNat bytes1).length : Int)
            < pos + b1.len + (bytes2.length : Int) := by omega
      simp only [hfit2, hroom, if_true]
    · have hfit2 : ¬ (pos + b1.len < 0
          ∨ ((memcpyInto dest pos.toNat bytes1).length : Int)
            < pos + b1.len + (bytes2.length : Int)) := by omega
      simp only [hfit2, hroom, if_false, hnz2]

/-- Witness of C28: a fetch of the 10 bytes of `sampleOverlap` into a destination of exactly
10 bytes streams 6 and then 6 bytes, and its outcome is undefined. -/
theorem isilonFillBufferFromHDFS_overlap_streams_more_than_len_witness :
    (isilonFillBufferFromHDFS (SimStore.apiPlacements sampleOverlapPlacements).traced
        (sampleOverlap, []) "/zone/file" (List.replicate 10 0) 0 0 10).nn.2
        = [hdfs_call.getBlockLocations "/zone/file" 0 10,
           hdfs_call.datanode_new { offset := 0, len := 6, id := 0 },
           hdfs_call.datanode_read { offset := 0, len := 6, id := 0 } 0 6,
           hdfs_call.datanode_new { offset := 4, len := 6, id := 1 },
           hdfs_call.datanode_read { offset := 4, len := 6, id := 1 } 0 6]
      ∧ (isilonFillBufferFromHDFS (SimStore.apiPlacements sampleOverlapPlacements).traced
          (sampleOverlap, []) "/zone/file" (List.replicate 10 0) 0 0 10).result
          = Outcome.undefined
      ∧ (isilonFillBufferFromHDFS (SimStore.apiPlacements sampleOverlapPlacements).traced
          (sampleOverlap, []) "/zone/file" (List.replicate 12 0) 0 0 10).dest
          = [0, 1, 2, 3, 4, 5, 4, 5, 6, 7, 8, 9] :=
  ⟨(isilonFillBufferFromHDFS_overlap_streams_more_than_len
      (SimStore.apiPlacements sampleOverlapPlacements) (fun s => s = sampleOverlap)
      sampleOverlap "/zone/file" (List.replicate 10 0) 0 0 10
      { offset := 0, len := 6, id := 0 } { offset := 4, len := 6, id := 1 }
      rfl rfl (fun s hs b => ⟨rfl, hs⟩)
      (fun s hs => ⟨List.range 6, by subst hs; decide, by decide, hs⟩)
      (fun s hs => ⟨List.range' 4 6, by subst hs; decide, by decide, hs⟩)
      (by decide) (by decide) (by decide) (by decide) (by decide) (by decide) (by decide)
      (by decide)).2.2.1,
    by decide, by decide⟩

/-! ### Occupancy after a refill -/

/-- C23, amended: when an iteration of the read loop drains the buffer and refills it (a
read-mode descriptor without pending block whose occupancy `k` is at most `to_read`, not
the bypass case, with room for the `k` drained bytes in the caller's buffer), the drain and
the flush succeed, the fetch goes to the descriptor's own buffer, and after the refill the
occupancy is the buffer size, whatever the number of bytes fetched.  That number is
`min(buffer size, file size - (offset + k))`, with no fetch at all when it is zero; the
occupancy equals it exactly when at least a buffer size of bytes remain in the file past
the drained position. -/
theorem isilonReadBuf_refill_occupancy_is_buffer_size {σ : Type} (api : hdfs σ) (nn : σ)
    (fd : isilonFileDesc) (buf : List Byte) (buf_offset to_read status : Int)
    (hmode : fd.mode = ISILON_MODE_READ) (hlb : fd.last_block = none)
    (hdrain : (fd.buff_offset : Int) ≤ to_read)
    (hnb : ¬ (to_read ≥ fd.getBuffSize ∧ (fd.getBuffOffset : Int) = 0))
    (hk : fd.buff_offset ≤ fd.buff_size)
    (hpos : 0 ≤ buf_offset) (hroom : buf_offset + fd.buff_offset ≤ buf.length) :
    (isilonReadBuf.step fd.getBuffSize fd buf buf_offset to_read).result = Outcome.ok
      ∧ (isilonReadBuf.step fd.getBuffSize fd buf buf_offset to_read).rbuff = rbuffPtr.own
      ∧ (isilonReadBuf.step fd.getBuffSize fd buf buf_offset to_read).bytes_taken
          = fd.buff_offset
      ∧ (isilonReadBuf.fill api.traced fd.getBuffSize (nn, [])
          (isilonReadBuf.step fd.getBuffSize fd buf buf_offset to_read) status).fd.buff_offset
          = fd.buff_size
      ∧ fetchLengths (isilonReadBuf.fill api.traced fd.getBuffSize (nn, [])
          (isilonReadBuf.step fd.getBuffSize fd buf buf_offset to_read) status).nn.2
          = (if min (fd.buff_size : Int) (fd.file_size - (fd.offset + fd.buff_offset)) = 0
             then []
             else [min (fd.buff_size : Int) (fd.file_size - (fd.offset + fd.buff_offset))])
      ∧ (((isilonReadBuf.fill api.traced fd.getBuffSize (nn, [])
            (isilonReadBuf.step fd.getBuffSize fd buf buf_offset to_read)
            status).fd.buff_offset : Int)
          = min (fd.buff_size : Int) (fd.file_size - (fd.offset + fd.buff_offset))
        ↔ (fd.buff_size : Int) ≤ fd.file_size - (fd.offset + fd.buff_offset)) := by
  have hgs : fd.getBuffSize = fd.buff_size := by simp [getBuffSize, hlb]
  rw [hgs] at hnb ⊢
  simp only [getBuffOffset] at hnb
  have hB : 1 ≤ fd.buff_size := by omega
  have hr1 : ¬ ((fd.buff_offset : Int) < 0 ∨ (fd.buff_offset : Int) < (fd.buff_offset : Int)) := by
    omega
  have hr2 : ¬ (fd.buff_size < fd.buff_offset ∧ (0 : Int) < (fd.buff_offset : Int)) := by omega
  have hr3 : ¬ ((0 : Int) < (fd.buff_offset : Int)
      ∧ (buf_offset < 0 ∨ (buf.length : Int) < buf_offset + (fd.buff_offset : Int))) := by
    omega
  have hgt : ¬ ((fd.buff_offset : Int) > to_read) := by omega
  have hst : isilonReadBuf.step (fd.buff_size : Int) fd buf buf_offset to_read
      = { fd := { fd with buff := some fd.allocBuff, buff_offset := fd.buff_size },
          result := Outcome.ok,
          buf := memcpyInto buf buf_offset.toNat
            ((fd.allocBuff.drop (fd.buff_size - fd.buff_offset)).take
              (fd.buff_offset : Int).toNat),
          rbuff := rbuffPtr.own,
          buf_offset := buf_offset + fd.buff_offset, bytes_taken := fd.buff_offset,
          to_read := to_read - fd.buff_offset } := by
    unfold isilonReadBuf.step
    simp only [hnb, if_false, hgt, getBuffOffset, readFromBuff, hmode, ne_eq,
      not_true_eq_false, hr1, hr2, hr3, flushBuff, if_true, Option.isSome_some]
  rw [hst]
  have hne : ¬ ((fd.buff_size : Int) = 0) := by omega
  have hne2 : ¬ (fd.buff_size = 0) := by omega
  have hto : isilonReadBuf.to_get (fd.buff_size : Int)
        { fd := { fd with buff := some fd.allocBuff, buff_offset := fd.buff_size },
          result := Outcome.ok,
          buf := memcpyInto buf buf_offset.toNat
            ((fd.allocBuff.drop (fd.buff_size - fd.buff_offset)).take
              (fd.buff_offset : Int).toNat),
          rbuff := rbuffPtr.own,
          buf_offset := buf_offset + fd.buff_offset, bytes_taken := fd.buff_offset,
          to_read := to_read - fd.buff_offset }
      = min (fd.buff_size : Int) (fd.file_size - (fd.offset + fd.buff_offset)) := by
    simp only [isilonReadBuf.to_get, isilonReadBuf.fetchOffset, getFileSize, getOffset,
      getBuffOffset, ne_eq, hne2, not_false_eq_true, if_true]
    split <;> omega
  refine ⟨rfl, rfl, rfl, ?_, ?_, ?_⟩
  · unfold isilonReadBuf.fill
    simp only []
    split <;> rfl
  · unfold isilonReadBuf.fill
    rw [hto]
    simp only []
    by_cases hz : min (fd.buff_size : Int) (fd.file_size - (fd.offset + fd.buff_offset)) = 0
    · simp only [hz, ne_eq, not_true_eq_false, if_false, if_true]
      rfl
    · simp only [hz, ne_eq, not_false_eq_true, if_true, if_false]
      rw [isilonFillBufferFromHDFS_fetchLengths]
      rfl
  · have ho : (isilonReadBuf.fill api.traced (fd.buff_size : Int) (nn, [])
        { fd := { fd with buff := some fd.allocBuff, buff_offset := fd.buff_size },
          result := Outcome.ok,
          buf := memcpyInto buf buf_offset.toNat
            ((fd.allocBuff.drop (fd.buff_size - fd.buff_offset)).take
              (fd.buff_offset : Int).toNat),
          rbuff := rbuffPtr.own,
          buf_offset := buf_offset + fd.buff_offset, bytes_taken := fd.buff_offset,
          to_read := to_read - fd.buff_offset } status).fd.buff_offset = fd.buff_size := by
      unfold isilonReadBuf.fill
      simp only []
      split <;> rfl
    rw [ho]
    omega

/-- Witness of C23, amended: the first read iteration on the 21 byte file with buffer size
8 and `to_read = 5` drains the empty buffer and fetches 8 bytes; the occupancy is 8. -/
theorem isilonReadBuf_refill_occupancy_is_buffer_size_witness :
    (isilonReadBuf.fill SimStore.api.traced (openedReadOnly "/zone/file" 8 21).getBuffSize
        (sampleStore, [])
        (isilonReadBuf.step (openedReadOnly "/zone/file" 8 21).getBuffSize
          (openedReadOnly "/zone/file" 8 21) (List.replicate 5 0) 0 5) 0).fd.buff_offset = 8
      ∧ fetchLengths (isilonReadBuf.fill SimStore.api.traced
          (openedReadOnly "/zone/file" 8 21).getBuffSize (sampleStore, [])
          (isilonReadBuf.step (openedReadOnly "/zone/file" 8 21).getBuffSize
            (openedReadOnly "/zone/file" 8 21) (List.replicate 5 0) 0 5) 0).nn.2 = [8] :=
  ⟨(isilonReadBuf_refill_occupancy_is_buffer_size SimStore.api sampleStore
      (openedReadOnly "/zone/file" 8 21) (List.replicate 5 0) 0 5 0 rfl rfl (by decide)
      (by decide) (by decide) (by decide) (by decide)).2.2.2.1,
    by decide⟩

/-- C23, counterexample: on the 5 byte file with buffer size 8, the first read iteration
with `to_read = 5` drains the empty buffer and refills it with a fetch of
`min(8, 5 - 0) = 5` bytes, which succeeds; the occupancy after the refill is 8, not 5. -/
theorem isilonReadBuf_refill_occupancy_differs_from_fetched :
    (isilonReadBuf.step (openedReadOnly "/zone/file" 8 5).getBuffSize
        (openedReadOnly "/zone/file" 8 5) (List.replicate 5 0) 0 5).result = Outcome.ok
      ∧ (isilonReadBuf.fill SimStore.api.traced (openedReadOnly "/zone/file" 8 5).getBuffSize
          (sampleSmall, [])
          (isilonReadBuf.step (openedReadOnly "/zone/file" 8 5).getBuffSize
            (openedReadOnly "/zone/file" 8 5) (List.replicate 5 0) 0 5) 0).result = Outcome.ok
      ∧ fetchLengths (isilonReadBuf.fill SimStore.api.traced
          (openedReadOnly "/zone/file" 8 5).getBuffSize (sampleSmall, [])
          (isilonReadBuf.step (openedReadOnly "/zone/file" 8 5).getBuffSize
            (openedReadOnly "/zone/file" 8 5) (List.replicate 5 0) 0 5) 0).nn.2 = [5]
      ∧ (isilonReadBuf.fill SimStore.api.traced (openedReadOnly "/zone/file" 8 5).getBuffSize
          (sampleSmall, [])
          (isilonReadBuf.step (openedReadOnly "/zone/file" 8 5).getBuffSize
            (openedReadOnly "/zone/file" 8 5) (List.replicate 5 0) 0 5) 0).fd.buff_offset = 8
      ∧ (isilonReadBuf.fill SimStore.api.traced (openedReadOnly "/zone/file" 8 5).getBuffSize
          (sampleSmall, [])
          (isilonReadBuf.step (openedReadOnly "/zone/file" 8 5).getBuffSize
            (openedReadOnly "/zone/file" 8 5) (List.replicate 5 0) 0 5) 0).fd.buff
          = some [0, 1, 2, 3, 4, indeterminate, indeterminate, indeterminate] := by
  decide

/-! ### Key of a cached connection -/

theorem stringstream_first_word (ds : List Char) (hne : ds ≠ [])
    (hsp : ∀ c ∈ ds, isspace c = false) :
    (({ stringstream.empty with buf := [] ++ ds } : stringstream).extract_string "")
      = ({ buf := [] ++ ds, gpos := 0 + 0 + ds.length, eofbit := true, failbit := false },
         String.mk ds) := by
  obtain ⟨d, rest, hdr⟩ := List.exists_cons_of_ne_nil hne
  have hd : isspace d = false := hsp d (by rw [hdr]; exact List.mem_cons_self _ _)
  have h0 : ds.takeWhile isspace = [] := by
    rw [hdr, List.takeWhile_cons, hd]
    rfl
  have h1 : ds.dropWhile isspace = ds := by
    rw [hdr, List.dropWhile_cons, hd]
    rfl
  have h2 : ds.takeWhile (fun c => !isspace c) = ds :=
    List.takeWhile_eq_self_iff.mpr (fun c hc => by simp [hsp c hc])
  have h3 : ds.dropWhile (fun c => !isspace c) = [] :=
    List.dropWhile_eq_nil_iff.mpr (fun c hc => by simp [hsp c hc])
  simp only [stringstream.extract_string, stringstream.empty, stringstream.good,
    Bool.not_false, Bool.and_self, if_true, List.nil_append, List.drop_zero, h0, h1, hne,
    if_false, h2, h3, decide_True, List.length_nil]

theorem isilonGetConnectionKey_eq (connection : isilonConnectionDesc) :
    isilonGetConnectionKey connection
      = "" ++ connection.host
          ++ String.mk (if connection.port < 0 then '-' :: Nat.toDigits 10 connection.port.natAbs
                        else Nat.toDigits 10 connection.port.natAbs)
          ++ connection.user := by
  have hne : (if connection.port < 0 then '-' :: Nat.toDigits 10 connection.port.natAbs
      else Nat.toDigits 10 connection.port.natAbs) ≠ [] := by
    split
    · exact List.cons_ne_nil _ _
    · exact toDigits_ne_nil _
  have hsp : ∀ c ∈ (if connection.port < 0 then '-' :: Nat.toDigits 10 connection.port.natAbs
      else Nat.toDigits 10 connection.port.natAbs), isspace c = false := by
    intro c hc
    split at hc
    · rcases List.mem_cons.mp hc with h | h
      · rw [h]; decide
      · exact isspace_of_isDigit c (toDigits_isDigit _ c h)
    · exact isspace_of_isDigit c (toDigits_isDigit _ c hc)
  have h1 := stringstream_first_word _ hne hsp
  have hins : stringstream.empty.insert_long connection.getPort
      = ({ stringstream.empty with
            buf := [] ++ (if connection.port < 0
              then '-' :: Nat.toDigits 10 connection.port.natAbs
              else Nat.toDigits 10 connection.port.natAbs) } : stringstream) := rfl
  unfold isilonGetConnectionKey
  simp only [hins, h1]
  rfl

theorem String_append_inner_inj (a b c d : String) :
    "" ++ a ++ b ++ d = "" ++ a ++ c ++ d ↔ b = c := by
  constructor
  · intro h
    have h1 := congrArg String.data h
    simp only [String.data_append, List.append_assoc] at h1
    have h2 := List.append_cancel_left h1
    have h3 := List.append_cancel_left h2
    have h4 := List.append_cancel_right h3
    exact String.ext h4
  · intro h
    rw [h]

theorem isilonGetConnectionKey_eq_key_str_iff (p : ConnectionProps) (addr name_node : Nat)
    (hport : p.port_num < 2 ^ 64) :
    isilonGetConnectionKey
        { addr := addr, host := p.host_name, port := ulong_to_long p.port_num,
          user := p.user_name, name_node := name_node, buff_size := p.buf_size }
        = isilonGetConnection.key_str p
      ↔ p.port_num < 2 ^ 63 := by
  rw [isilonGetConnectionKey_eq, isilonGetConnection_key_str, String_append_inner_inj]
  have hm : p.port_num % 2 ^ 64 = p.port_num := Nat.mod_eq_of_lt hport
  constructor
  · intro h
    by_contra hge
    have hneg : ulong_to_long p.port_num < 0 := by
      unfold ulong_to_long
      rw [hm, if_neg hge]
      omega
    have h1 := congrArg String.data h
    simp only [hneg, if_true] at h1
    have hd := toDigits_isDigit p.port_num '-' (by rw [← h1]; exact List.mem_cons_self _ _)
    exact absurd hd (by decide)
  · intro hlt
    have hv : ulong_to_long p.port_num = (p.port_num : Int) := by
      unfold ulong_to_long
      rw [hm, if_pos hlt]
    have hnn : ¬ ((p.port_num : Int) < 0) := by omega
    simp only [hv, hnn, if_false, Int.natAbs_ofNat]

theorem ConnectionTable_find_insert_ne (c : ConnectionTable) (key other : String)
    (val : isilonConnectionDesc) (hne : other ≠ key) (h : c.find other = none) :
    (c.insert key val).find other = none := by
  unfold ConnectionTable.insert
  split
  · exact h
  · simp only [ConnectionTable.find, List.find?_cons] at h ⊢
    have hk : decide (key = other) = false := by
      simp only [decide_eq_false_iff_not]
      exact fun e => hne e.symm
    simp only [hk]
    exact h

/-- C24 (the defect): the key under which `isilonGetConnection` registers a new connection
and the key that `isilonGetConnectionKey` computes from the descriptor agree only for ports
below `2^63`.  `isilonGetConnection` prints the port as the `unsigned long` that property
parsing made, the descriptor keeps it in a `long` and `isilonGetConnectionKey` prints that:
a port of `2^63` or more is printed with a minus sign.  Let a call of `isilonGetConnection`
with caching enabled succeed with a new connection for a port below `2^64`.  The connection
is registered under the key of `isilonGetConnection`; `isilonGetConnectionKey` answers that
key if and only if the port is below `2^63`; then `isilonIsConnectionDescValid` accepts the
connection and `isilonCloseConnection` succeeds.  For a port of `2^63` or more, when no
other connection was cached, `isilonIsConnectionDescValid` answers the
unknown-connection-descriptor error and `isilonCloseConnection` fails with it, leaving the
table, the connection and the session as they are. -/
theorem isilonGetConnectionKey_agrees_iff_port_below_2_63 {ν : Type}
    (api : hdfs_namenodes ν) (nn : ν) (c : ConnectionTable) (prop_map : plugin_property_map)
    (hport : (isilonGetConnection.props prop_map).port_num < 2 ^ 64)
    (hmiss : c.find (isilonGetConnection.key_str (isilonGetConnection.props prop_map)) = none)
    (h : (isilonGetConnection false api nn c prop_map).result = Outcome.ok) :
    ∃ conn, (isilonGetConnection false api nn c prop_map).connection = some conn
      ∧ (isilonGetConnection false api nn c prop_map).table.find
          (isilonGetConnection.key_str (isilonGetConnection.props prop_map)) = some conn
      ∧ (isilonGetConnectionKey conn
          = isilonGetConnection.key_str (isilonGetConnection.props prop_map)
        ↔ (isilonGetConnection.props prop_map).port_num < 2 ^ 63)
      ∧ ((isilonGetConnection.props prop_map).port_num < 2 ^ 63 →
          isilonIsConnectionDescValid (isilonGetConnection false api nn c prop_map).table
              (some conn) = Outcome.ok
            ∧ (isilonCloseConnection false api (isilonGetConnection false api nn c prop_map).nn
                (isilonGetConnection false api nn c prop_map).table (some conn)).result
                = Outcome.ok)
      ∧ (2 ^ 63 ≤ (isilonGetConnection.props prop_map).port_num →
          c.CONNECTION_DESC_MAP = [] →
          isilonIsConnectionDescValid (isilonGetConnection false api nn c prop_map).table
              (some conn) = Outcome.error ISILON_ERR_UNKNOWN_CONNECTION_DESC
            ∧ isilonCloseConnection false api (isilonGetConnection false api nn c prop_map).nn
                (isilonGetConnection false api nn c prop_map).table (some conn)
              = { nn := (isilonGetConnection false api nn c prop_map).nn,
                  table := (isilonGetConnection false api nn c prop_map).table,
                  result := Outcome.error ISILON_ERR_UNKNOWN_CONNECTION_DESC,
                  connection := some conn }) := by
  have hf' : ({ c with allocated := c.allocated + 1 } : ConnectionTable).find
      (isilonGetConnection.key_str (isilonGetConnection.props prop_map)) = none := hmiss
  unfold isilonGetConnection at h ⊢
  simp only [hmiss, Option.isSome_none, Bool.false_eq_true, and_false, if_false] at h ⊢
  split at h
  · simp at h
  · split at h
    · simp at h
    · split at h
      · simp at h
      · rename_i x1 nn1 name_node hn x2 nn2 version hv hver
        rw [if_neg hver]
        have hiff := isilonGetConnectionKey_eq_key_str_iff (isilonGetConnection.props prop_map)
          c.allocated name_node hport
        have hfind := ConnectionTable_find_insert { c with allocated := c.allocated + 1 }
          (isilonGetConnection.key_str (isilonGetConnection.props prop_map))
          { addr := c.allocated, host := (isilonGetConnection.props prop_map).host_name,
            port := ulong_to_long (isilonGetConnection.props prop_map).port_num,
            user := (isilonGetConnection.props prop_map).user_name, name_node := name_node,
            buff_size := (isilonGetConnection.props prop_map).buf_size } hf'
        refine ⟨_, rfl, hfind, hiff, ?_, ?_⟩
        · intro hlt
          have hkey := hiff.mpr hlt
          have hvalid : isilonIsConnectionDescValid
              (({ c with allocated := c.allocated + 1 } : ConnectionTable).insert
                (isilonGetConnection.key_str (isilonGetConnection.props prop_map))
                { addr := c.allocated, host := (isilonGetConnection.props prop_map).host_name,
                  port := ulong_to_long (isilonGetConnection.props prop_map).port_num,
                  user := (isilonGetConnection.props prop_map).user_name,
                  name_node := name_node,
                  buff_size := (isilonGetConnection.props prop_map).buf_size })
              (some { addr := c.allocated,
                      host := (isilonGetConnection.props prop_map).host_name,
                      port := ulong_to_long (isilonGetConnection.props prop_map).port_num,
                      user := (isilonGetConnection.props prop_map).user_name,
                      name_node := name_node,
                      buff_size := (isilonGetConnection.props prop_map).buf_size })
              = Outcome.ok := by
            simp only [isilonIsConnectionDescValid, hkey, hfind, Option.isSome_some, if_true]
          refine ⟨hvalid, ?_⟩
          simp only [isilonCloseConnection, hvalid, ne_eq, not_true_eq_false, if_false]
        · intro hge hempty
          have hkey : isilonGetConnectionKey
              { addr := c.allocated, host := (isilonGetConnection.props prop_map).host_name,
                port := ulong_to_long (isilonGetConnection.props prop_map).port_num,
                user := (isilonGetConnection.props prop_map).user_name,
                name_node := name_node,
                buff_size := (isilonGetConnection.props prop_map).buf_size }
              ≠ isilonGetConnection.key_str (isilonGetConnection.props prop_map) :=
            fun e => absurd (hiff.mp e) (by omega)
          have hnone : ∀ key, ({ c with allocated := c.allocated + 1 } : ConnectionTable).find
              key = none := by
            intro key
            simp [ConnectionTable.find, hempty]
          have hfind2 := ConnectionTable_find_insert_ne
            { c with allocated := c.allocated + 1 }
            (isilonGetConnection.key_str (isilonGetConnection.props prop_map)) _
            { addr := c.allocated, host := (isilonGetConnection.props prop_map).host_name,
              port := ulong_to_long (isilonGetConnection.props prop_map).port_num,
              user := (isilonGetConnection.props prop_map).user_name, name_node := name_node,
              buff_size := (isilonGetConnection.props prop_map).buf_size } hkey (hnone _)
          have hvalid : isilonIsConnectionDescValid
              (({ c with allocated := c.allocated + 1 } : ConnectionTable).insert
                (isilonGetConnection.key_str (isilonGetConnection.props prop_map))
                { addr := c.allocated, host := (isilonGetConnection.props prop_map).host_name,
                  port := ulong_to_long (isilonGetConnection.props prop_map).port_num,
                  user := (isilonGetConnection.props prop_map).user_name,
                  name_node := name_node,
                  buff_size := (isilonGetConnection.props prop_map).buf_size })
              (some { addr := c.allocated,
                      host := (isilonGetConnection.props prop_map).host_name,
                      port := ulong_to_long (isilonGetConnection.props prop_map).port_num,
                      user := (isilonGetConnection.props prop_map).user_name,
                      name_node := name_node,
                      buff_size := (isilonGetConnection.props prop_map).buf_size })
              = Outcome.error ISILON_ERR_UNKNOWN_CONNECTION_DESC := by
            simp only [isilonIsConnectionDescValid, hfind2, Option.isSome_none,
              Bool.false_eq_true, if_false]
          refine ⟨hvalid, ?_⟩
          simp only [isilonCloseConnection, hvalid, ne_eq, reduceCtorEq, not_false_eq_true,
            if_true]

/-- Witness of C24: for the port `2^63 + 8020` the connection is registered under
`isilon9223372036854783828root`, `isilonGetConnectionKey` answers
`isilon-9223372036854767788root`, and the connection is refused as unknown. -/
theorem isilonGetConnectionKey_agrees_iff_port_below_2_63_witness :
    (isilonGetConnection.props sampleLargePort).port_num = 2 ^ 63 + 8020
      ∧ isilonGetConnection.key_str (isilonGetConnection.props sampleLargePort)
          = "isilon9223372036854783828root"
      ∧ (isilonGetConnection false (simNamenodes 61) 0 ConnectionTable.initial
          sampleLargePort).connection
          = some { addr := 0, port := -9223372036854767788, host := "isilon", user := "root",
                   name_node := 0, buff_size := 1048576 }
      ∧ isilonGetConnectionKey
          { addr := 0, port := -9223372036854767788, host := "isilon", user := "root",
            name_node := 0, buff_size := 1048576 } = "isilon-9223372036854767788root"
      ∧ ∃ conn, (isilonGetConnection false (simNamenodes 61) 0 ConnectionTable.initial
            sampleLargePort).connection = some conn
          ∧ isilonIsConnectionDescValid
              (isilonGetConnection false (simNamenodes 61) 0 ConnectionTable.initial
                sampleLargePort).table (some conn)
            = Outcome.error ISILON_ERR_UNKNOWN_CONNECTION_DESC := by
  refine ⟨by decide, by decide, by decide, by decide, ?_⟩
  obtain ⟨conn, h1, _, _, _, h5⟩ := isilonGetConnectionKey_agrees_iff_port_below_2_63
    (simNamenodes 61) 0 ConnectionTable.initial sampleLargePort (by decide) (by decide)
    (by decide)
  exact ⟨conn, h1, (h5 (by decide) rfl).1⟩

end Isilon
